import Mathlib

/-! # ZynAddSubFX audio / MIDI back ends

A shallow embedding of routines of the I/O layer and the properties
established about them:

* `DSSIaudiooutput::runSynth` / `run` (src/Output/DSSIaudiooutput.cpp),
* `JackEngine::handleMidi` (src/Nio/JackEngine.cpp),
* `JackEngine::openAudio`, `stopAudio`, `openMidi`, `stopMidi`, `Start`
  together with `connectJack` / `disconnectJack` (src/Nio/JackEngine.cpp),
* `DSSIaudiooutput::connectPort`, `getProgram`, `mapNextBank`
  (src/Output/DSSIaudiooutput.cpp),
* `JackEngine::processCallback`, `processAudio` (src/Nio/JackEngine.cpp),
* `OssMultiEngine::openAudio`, `stopAudio` and the loop of `audioThreadCb`
  (src/Nio/OssMultiEngine.cpp).

Calls that leave the translated routine (calls on `zyn::Master`, on the event
sink, on the JACK client library) are recorded in a log carried by the state,
so that statements about "what the engine observes" are statements about that
log.
-/

namespace DSSI

/-! ## Data model of `runSynth` -/

/-- Largest value of `unsigned long` (LP64). -/
def ULONG_MAX : Nat := 2 ^ 64 - 1

/-- ALSA sequencer event type `SND_SEQ_EVENT_NOTEON`. -/
def SND_SEQ_EVENT_NOTEON : Nat := 6

/-- ALSA sequencer event type `SND_SEQ_EVENT_NOTEOFF`. -/
def SND_SEQ_EVENT_NOTEOFF : Nat := 7

/-- ALSA sequencer event type `SND_SEQ_EVENT_CONTROLLER`. -/
def SND_SEQ_EVENT_CONTROLLER : Nat := 10

/-- The view `data.note` of an ALSA sequencer event. -/
structure snd_seq_ev_note_t where
  channel : Nat
  note : Nat
  velocity : Nat
deriving DecidableEq, Repr

/-- The view `data.control` of an ALSA sequencer event. -/
structure snd_seq_ev_ctrl_t where
  channel : Nat
  param : Nat
  value : Int
deriving DecidableEq, Repr

/-- The fields of `snd_seq_event_t` that `runSynth` reads: `type`,
`time.tick`, `data.note` and `data.control`. -/
structure snd_seq_event_t where
  type : Nat
  tick : Nat
  note : snd_seq_ev_note_t
  control : snd_seq_ev_ctrl_t
deriving DecidableEq, Repr

/-- A call made by `runSynth` on the synthesizer.  `GetAudioOutSamples n off`
stands for `master->GetAudioOutSamples(n, sampleRate, &outl[off], &outr[off])`
and `forward_control i` for `dssi_control[i].forward_control(master)`. -/
inductive MasterCall where
  | forward_control (dssi_control_index : Nat)
  | GetAudioOutSamples (nsamples : Nat) (from_frame : Nat)
  | noteOn (chan : Nat) (note : Nat) (velocity : Nat)
  | noteOff (chan : Nat) (note : Nat)
  | setController (chan : Nat) (param : Nat) (value : Int)
deriving DecidableEq, Repr

/-- One entry of the call log: the call and, as a ghost annotation, the
sequencer event whose processing issued it (`none` for calls not caused by an
event). -/
structure Logged where
  call : MasterCall
  cause : Option snd_seq_event_t
deriving DecidableEq, Repr

/-- The local variables of `runSynth` while the `do ... while` loop runs.
The cursor `event_index` into `events[0 .. event_count)` is kept as the list
`pending` of the events from `event_index` on. -/
structure RunState where
  from_frame : Nat
  to_frame : Nat
  pending : List snd_seq_event_t
  log : List Logged
deriving DecidableEq, Repr

/-! ## `runSynth` -/

/-- The `if / else if / else if / else {}` chain inside the inner `while`:
the call on `master`, if any, that one event gives rise to. -/
def eventCall (e : snd_seq_event_t) : Option MasterCall :=
  if e.type = SND_SEQ_EVENT_NOTEON then
    some (MasterCall.noteOn e.note.channel e.note.note e.note.velocity)
  else if e.type = SND_SEQ_EVENT_NOTEOFF then
    some (MasterCall.noteOff e.note.channel e.note.note)
  else if e.type = SND_SEQ_EVENT_CONTROLLER then
    some (MasterCall.setController e.control.channel e.control.param e.control.value)
  else none

/-- The log entries written when event `e` is processed. -/
def eventLog (e : snd_seq_event_t) : List Logged :=
  match eventCall e with
  | some c => [⟨c, some e⟩]
  | none => []

/-- The inner loop
`while(events != NULL && event_index < event_count
       && events[event_index].time.tick == to_frame) { ...; event_index++; }`.
Returns the events left and the extended log. -/
def processEvents (to_frame : Nat) :
    List snd_seq_event_t → List Logged → List snd_seq_event_t × List Logged
  | [], log => ([], log)
  | e :: rest, log =>
    if e.tick = to_frame then processEvents to_frame rest (log ++ eventLog e)
    else (e :: rest, log)

/-- The value given to `next_event_frame` at the top of the loop body. -/
def nextEventFrame (pending : List snd_seq_event_t) : Nat :=
  match pending with
  | [] => ULONG_MAX
  | e :: _ => e.tick

/-- One execution of the body of the `do ... while` loop. -/
def loopBody (sample_count : Nat) (s : RunState) : RunState :=
  let next_event_frame := nextEventFrame s.pending
  let to_frame :=
    if next_event_frame < sample_count ∧ next_event_frame ≥ s.to_frame then next_event_frame
    else sample_count
  let rendered : Nat × List Logged :=
    if s.from_frame < to_frame then
      (to_frame,
        s.log ++ [⟨MasterCall.GetAudioOutSamples (to_frame - s.from_frame) s.from_frame, none⟩])
    else (s.from_frame, s.log)
  let drained := processEvents to_frame s.pending rendered.2
  { from_frame := rendered.1, to_frame := to_frame, pending := drained.1, log := drained.2 }

/-- The loop `do { body } while(to_frame < sample_count);`, the body being run
at most `fuel` times; `none` when the fuel does not suffice. -/
def doWhile (sample_count : Nat) : Nat → RunState → Option RunState
  | 0, _ => none
  | fuel + 1, s =>
    let s1 := loopBody sample_count s
    if s1.to_frame < sample_count then doWhile sample_count fuel s1 else some s1

/-- The first loop of `runSynth`: every DSSI control forwards its value. -/
def forwardControls (MAX_DSSI_CONTROLS : Nat) : List Logged :=
  (List.range MAX_DSSI_CONTROLS).map fun i => ⟨MasterCall.forward_control i, none⟩

/-- The event block seen by the loop: a `NULL` pointer (`none`) is never read,
which makes it behave as a block without events. -/
def eventBlock (events : Option (List snd_seq_event_t)) : List snd_seq_event_t :=
  match events with
  | none => []
  | some l => l

/-- `DSSIaudiooutput::runSynth(sample_count, events, event_count)` with the
loop body allowed to run `fuel` times.  `events` is `none` for a `NULL`
pointer and otherwise the block of `event_count` events.
`MAX_DSSI_CONTROLS` is the constant `DSSIControlDescription::MAX_DSSI_CONTROLS`. -/
def runSynthFuel (fuel : Nat) (MAX_DSSI_CONTROLS : Nat) (sample_count : Nat)
    (events : Option (List snd_seq_event_t)) : Option RunState :=
  doWhile sample_count fuel
    { from_frame := 0, to_frame := 0, pending := eventBlock events,
      log := forwardControls MAX_DSSI_CONTROLS }

/-- `DSSIaudiooutput::runSynth`: the loop is given `event_count + 1` rounds. -/
def runSynth (MAX_DSSI_CONTROLS : Nat) (sample_count : Nat)
    (events : Option (List snd_seq_event_t)) : Option RunState :=
  runSynthFuel ((eventBlock events).length + 1) MAX_DSSI_CONTROLS sample_count events

/-- `DSSIaudiooutput::run(sample_count)`: `runSynth(sample_count, NULL, 0)`. -/
def run (MAX_DSSI_CONTROLS : Nat) (sample_count : Nat) : Option RunState :=
  runSynth MAX_DSSI_CONTROLS sample_count none

/-! ## Observations on the log -/

/-- The render segments `(offset, length)` of a log, in order. -/
def segments (log : List Logged) : List (Nat × Nat) :=
  log.filterMap fun x =>
    match x.call with
    | MasterCall.GetAudioOutSamples n off => some (off, n)
    | _ => none

/-- Number of frames rendered by the calls of a log. -/
def framesRendered (log : List Logged) : Nat :=
  ((segments log).map Prod.snd).sum

/-- Whether a call is one of `noteOn`, `noteOff`, `setController`. -/
def MasterCall.isEventCall : MasterCall → Bool
  | MasterCall.noteOn _ _ _ => true
  | MasterCall.noteOff _ _ => true
  | MasterCall.setController _ _ _ => true
  | _ => false

/-- The `noteOn` / `noteOff` / `setController` calls of a log, in order. -/
def eventCalls (log : List Logged) : List MasterCall :=
  (log.map Logged.call).filter MasterCall.isEventCall

/-- A note-on event for tests. -/
def mkNoteOn (tick chan note velocity : Nat) : snd_seq_event_t :=
  { type := SND_SEQ_EVENT_NOTEON, tick := tick,
    note := ⟨chan, note, velocity⟩, control := ⟨0, 0, 0⟩ }

/-- A note-off event for tests. -/
def mkNoteOff (tick chan note : Nat) : snd_seq_event_t :=
  { type := SND_SEQ_EVENT_NOTEOFF, tick := tick,
    note := ⟨chan, note, 0⟩, control := ⟨0, 0, 0⟩ }

/-! ## Predicates used in the statements and invariants -/

/-- At the head of every round `from_frame = to_frame <= sample_count`. -/
def AtHead (sc : Nat) (s : RunState) : Prop :=
  s.from_frame = s.to_frame ∧ s.to_frame ≤ sc

/-- The segments of `l` tile the interval from `a` to `b`: each starts where
the one before it ended, none is empty. -/
def Tiles : Nat → List (Nat × Nat) → Nat → Prop
  | a, [], b => a = b
  | a, x :: rest, b => x.1 = a ∧ 0 < x.2 ∧ Tiles (a + x.2) rest b

/-- Loop invariant for the render calls: they tile `[0, from_frame)`. -/
def RenderInv (sc : Nat) (s : RunState) : Prop :=
  AtHead sc s ∧ Tiles 0 (segments s.log) s.from_frame

/-- Walking a log that starts after `r` rendered frames: every event call is
annotated with an event of `evs` that maps to it and whose tick is the number
of frames rendered before the call. -/
def Timed (evs : List snd_seq_event_t) : Nat → List Logged → Prop
  | _, [] => True
  | r, x :: rest =>
    (x.call.isEventCall = true →
      ∃ e, x.cause = some e ∧ eventCall e = some x.call ∧ e ∈ evs ∧ e.tick = r) ∧
    Timed evs (r + framesRendered [x]) rest

/-- Loop invariant for the event calls. -/
def EventInv (evs : List snd_seq_event_t) (sc : Nat) (s : RunState) : Prop :=
  AtHead sc s ∧ framesRendered s.log = s.from_frame ∧ (∀ e ∈ s.pending, e ∈ evs) ∧
    Timed evs 0 s.log

/-- Loop invariant for a block sorted by tick with every tick below
`sample_count`: the calls made so far followed by those still to come are
the calls of the whole block. -/
def SortedInv (l : List snd_seq_event_t) (sc : Nat) (s : RunState) : Prop :=
  AtHead sc s ∧ List.Pairwise (fun a b : snd_seq_event_t => a.tick ≤ b.tick) s.pending ∧
    (∀ e ∈ s.pending, s.to_frame ≤ e.tick ∧ e.tick < sc) ∧
    eventCalls s.log ++ s.pending.filterMap eventCall = l.filterMap eventCall

end DSSI

namespace Jack

/-! ## Data model of the JACK back end -/

/-- Modelled from the spec: the kinds of the engine's MIDI event (enum
`midi_type` of InMgr.h, which is not among the sources): Note, Pressure,
Controller, ProgramChange.  `M_ZERO` stands for the value that
`MidiEvent ev = {}` leaves in the field before a kind is assigned. -/
inductive midi_type where
  | M_ZERO
  | M_NOTE
  | M_CONTROLLER
  | M_PGMCHANGE
  | M_PRESSURE
deriving DecidableEq, Repr

/-- Modelled from the spec: the engine-internal MIDI event (`struct MidiEvent`
of InMgr.h): channel, kind, number, value and frame offset, all `int`. -/
structure MidiEvent where
  channel : Int
  type : midi_type
  num : Int
  value : Int
  time : Int
deriving DecidableEq, Repr

/-- A `jack_midi_event_t`: frame offset and the raw bytes; the field `size`
is the length of `buffer`. -/
structure jack_midi_event_t where
  time : Nat
  buffer : List Nat
deriving DecidableEq, Repr

/-- What `handleMidi` hands on: an event pushed with
`InMgr::getInstance().putEvent(ev)` or a call `midiProcess(head, num, value)`
of the raw handler. -/
inductive Emitted where
  | putEvent (ev : MidiEvent)
  | midiProcess (head : Nat) (num : Nat) (value : Nat)
deriving DecidableEq, Repr

/-- A call on the JACK client library. -/
inductive HostCall where
  | jack_client_open
  | jack_get_buffer_size
  | jack_set_error_function
  | jack_set_info_function
  | jack_set_buffer_size_callback
  | jack_set_xrun_callback
  | jack_set_process_callback
  | jack_activate
  | jack_deactivate
  | jack_client_close
  | jack_port_register (port_name : String)
  | jack_port_unregister (port : Nat)
  | jack_get_sample_rate
  | jack_get_ports
  | jack_port_name (port : Nat)
  | jack_connect (source_port : Nat) (destination_port : String)
  | jack_port_uuid (port : Option Nat)
  | jack_set_property (port : Option Nat)
  | jack_remove_property (port : Option Nat)
deriving DecidableEq, Repr

/-- The member variables of `JackEngine` (with `samplerate`, `bufferSize` of
its base class).  A pointer is `none` when `NULL` and otherwise the handle the
library returned. -/
structure JackEngine where
  jackClient : Option Nat
  audio_ports : Option Nat × Option Nat
  audio_jackSamplerate : Nat
  audio_jackNframes : Nat
  midi_inport : Option Nat
  midi_jack_sync : Bool
  osc_oscport : Option Nat
  samplerate : Nat
  bufferSize : Nat
deriving DecidableEq, Repr

/-- The server's side of the connection: whether the client exists and is
active, the short name of the port registered under each handle (`none` for a
handle that names no registered port), and the handle the next port is to
get, from which on no handle names a port.  While a client is connected its
ports get increasing handles; the ports of a client connected later may get
handles that ports of an earlier, closed client had (see `openClient`). -/
structure JackServer where
  client_exists : Bool
  client_active : Bool
  ports : Nat → Option String
  next_handle : Nat

/-- The engine, the server and the log of library calls made so far. -/
structure Sys where
  eng : JackEngine
  srv : JackServer
  calls : List HostCall

/-- How the library answers during one operation, and the build and settings
the operation runs under. -/
structure Env where
  /-- `jack_client_open` returns a client. -/
  client_open_ok : Bool
  /-- `jack_set_process_callback` returns 0. -/
  set_process_callback_ok : Bool
  /-- `jack_activate` returns 0. -/
  activate_ok : Bool
  /-- `jack_port_register` returns a port for this short name. -/
  port_register_ok : String → Bool
  /-- Result of `jack_get_buffer_size`. -/
  buffer_size : Nat
  /-- Result of `jack_get_sample_rate`. -/
  sample_rate : Nat
  /-- The flag `Nio::autoConnect`. -/
  autoConnect : Bool
  /-- Result of `jack_get_ports`: `NULL`, or its first two entries. -/
  physical_inputs : Option (String × String)
  /-- Whether `JACK_HAS_METADATA_API` is defined. -/
  has_metadata_api : Bool
  /-- The handle the first port of a client opened now is to get, when the
  server hands out again the handles of ports that no longer exist; `none`
  when it goes on with handles it has never used. -/
  first_port_handle : Option Nat

/-! ## `handleMidi` -/

/-- The local `unsigned char buf[3]` after
`memset(buf, 0, sizeof(buf)); memcpy(buf, buffer, min(sizeof(buf), size));`. -/
def loadBuf (buffer : List Nat) : Nat × Nat × Nat :=
  (buffer.getD 0 0 % 256, buffer.getD 1 0 % 256, buffer.getD 2 0 % 256)

/-- The loop of the `default:` branch,
`for (x = 0; x < size; x += 3) { ...; midiProcess(buf[0], buf[1], buf[2]); }`,
on the bytes from offset `x` on: three bytes are copied when at least three
are left, otherwise `buf` is cleared and the `y < 3` bytes left are copied. -/
def rawWindows : List Nat → List Emitted
  | b0 :: b1 :: b2 :: rest =>
    Emitted.midiProcess (b0 % 256) (b1 % 256) (b2 % 256) :: rawWindows rest
  | [b0, b1] => [Emitted.midiProcess (b0 % 256) (b1 % 256) 0]
  | [b0] => [Emitted.midiProcess (b0 % 256) 0 0]
  | [] => []

/-- The body of the `while` loop of `handleMidi` for one event of the port
buffer.  `C_pitchwheel` is the controller number of that name (declared
outside the sources). -/
def handleMidiEvent (jack_sync : Bool) (C_pitchwheel : Int) (e : jack_midi_event_t) :
    List Emitted :=
  let buf := loadBuf e.buffer
  let buf0 := buf.1
  let buf1 := buf.2.1 &&& 0x7F
  let buf2 := buf.2.2 &&& 0x7F
  let type := buf0 &&& 0xF0
  let ev : MidiEvent :=
    { channel := ((buf0 &&& 0x0F : Nat) : Int), type := midi_type.M_ZERO, num := 0, value := 0,
      time := if jack_sync then (e.time : Int) else 0 }
  if type = 0x80 then
    [Emitted.putEvent { ev with type := midi_type.M_NOTE, num := (buf1 : Int), value := 0 }]
  else if type = 0x90 then
    [Emitted.putEvent { ev with type := midi_type.M_NOTE, num := (buf1 : Int),
                                value := (buf2 : Int) }]
  else if type = 0xA0 then
    [Emitted.putEvent { ev with type := midi_type.M_PRESSURE, num := (buf1 : Int),
                                value := (buf2 : Int) }]
  else if type = 0xB0 then
    [Emitted.putEvent { ev with type := midi_type.M_CONTROLLER, num := (buf1 : Int),
                                value := (buf2 : Int) }]
  else if type = 0xC0 then
    [Emitted.putEvent { ev with type := midi_type.M_PGMCHANGE, num := (buf1 : Int) }]
  else if type = 0xE0 then
    [Emitted.putEvent { ev with type := midi_type.M_CONTROLLER, num := C_pitchwheel,
                                value := (((buf2 <<< 7) ||| buf1 : Nat) : Int) - 8192 }]
  else rawWindows e.buffer

/-- `JackEngine::handleMidi(frames)`: nothing without a MIDI port, otherwise
every event of the port buffer is handled in turn. -/
def handleMidi (eng : JackEngine) (C_pitchwheel : Int) (midi_buf : List jack_midi_event_t) :
    List Emitted :=
  match eng.midi_inport with
  | none => []
  | some _ => midi_buf.flatMap (handleMidiEvent eng.midi_jack_sync C_pitchwheel)

/-- The data arguments (second and third argument) of a `midiProcess` call;
empty for a pushed event. -/
def Emitted.rawData : Emitted → List Nat
  | Emitted.putEvent _ => []
  | Emitted.midiProcess _ num value => [num, value]


/-! ## Opening and closing the audio and MIDI subsystems -/

/-- Appends library calls to the log. -/
def Sys.call (w : Sys) (cs : List HostCall) : Sys :=
  { w with calls := w.calls ++ cs }

/-- `JackEngine::getMidiEn`: `return midi.inport;`. -/
def getMidiEn (eng : JackEngine) : Bool := eng.midi_inport.isSome

/-- `JackEngine::getAudioEn`: `return audio.ports[0];`. -/
def getAudioEn (eng : JackEngine) : Bool := eng.audio_ports.1.isSome

/-- The server registers a port of the given short name under the handle
`next_handle`, which names no port at that time; it may be a handle that a
port of an earlier client had, since `openClient` can set `next_handle`
back. -/
def JackServer.register (srv : JackServer) (port_name : String) : JackServer :=
  { srv with
    ports := fun p => if p = srv.next_handle then some port_name else srv.ports p,
    next_handle := srv.next_handle + 1 }

/-- The server drops the port registered under `port`, if there is one. -/
def JackServer.unregister (srv : JackServer) (port : Nat) : JackServer :=
  { srv with ports := fun p => if p = port then none else srv.ports p }

/-- The server creates the client; the handle it returns is `next_handle`, and
a new client has no ports.  No port of ours exists at that time, so the server
is free to hand out again, from `first_port_handle` on, the handles that the
ports of an earlier client had; otherwise it goes on with unused ones. -/
def JackServer.openClient (srv : JackServer) (first_port_handle : Option Nat) : JackServer :=
  { client_exists := true, client_active := false, ports := fun _ => none,
    next_handle :=
      match first_port_handle with
      | some h => h
      | none => srv.next_handle + 1 }

/-- The server closes the client, which removes its ports. -/
def JackServer.closeClient (srv : JackServer) : JackServer :=
  { srv with client_exists := false, client_active := false, ports := fun _ => none }

/-- The call `jack_port_register(jackClient, port_name, ...)`: a port is
returned when the library grants it and the client pointer is not `NULL`. -/
def portRegister (r : Env) (port_name : String) (w : Sys) : Option Nat × Sys :=
  let w1 := w.call [HostCall.jack_port_register port_name]
  if r.port_register_ok port_name = true ∧ w1.eng.jackClient.isSome = true then
    (some w1.srv.next_handle, { w1 with srv := w1.srv.register port_name })
  else (none, w1)

/-- The call `jack_port_unregister(jackClient, port)`. -/
def portUnregister (port : Nat) (w : Sys) : Sys :=
  let w1 := w.call [HostCall.jack_port_unregister port]
  { w1 with srv := w1.srv.unregister port }

/-- `JackEngine::connectServer`. -/
def connectServer (r : Env) (w : Sys) : Bool × Sys :=
  if w.eng.jackClient.isSome then (true, w)
  else
    let w1 := w.call [HostCall.jack_client_open]
    if r.client_open_ok then
      (true,
        { w1 with
          eng := { w1.eng with jackClient := some w1.srv.next_handle },
          srv := w1.srv.openClient r.first_port_handle })
    else (false, w1)

/-- `JackEngine::connectJack`. -/
def connectJack (r : Env) (w : Sys) : Bool × Sys :=
  let w1 := (connectServer r w).2
  if w1.eng.jackClient.isSome then
    let w2 := w1.call [HostCall.jack_get_buffer_size]
    let w3 : Sys := { w2 with eng := { w2.eng with bufferSize := r.buffer_size } }
    let w4 := w3.call [HostCall.jack_set_error_function, HostCall.jack_set_info_function,
      HostCall.jack_set_buffer_size_callback, HostCall.jack_set_xrun_callback,
      HostCall.jack_set_process_callback]
    if r.set_process_callback_ok = false then (false, w4)
    else
      let w5 := w4.call [HostCall.jack_activate]
      if r.activate_ok = false then (false, w5)
      else (true, { w5 with srv := { w5.srv with client_active := true } })
  else (false, w1)

/-- `JackEngine::disconnectJack`. -/
def disconnectJack (w : Sys) : Sys :=
  if w.eng.jackClient.isSome then
    let w1 := w.call [HostCall.jack_deactivate, HostCall.jack_client_close]
    { w1 with eng := { w1.eng with jackClient := none }, srv := w1.srv.closeClient }
  else w

/-- The part of `openAudio` that follows the registration of the two ports. -/
def openAudioRegistered (r : Env) (w : Sys) : Bool × Sys :=
  match w.eng.audio_ports with
  | (some p0, some p1) =>
    let w1 := w.call [HostCall.jack_get_sample_rate, HostCall.jack_get_buffer_size]
    let w2 : Sys := { w1 with eng := { w1.eng with
      audio_jackSamplerate := r.sample_rate, audio_jackNframes := r.buffer_size,
      samplerate := r.sample_rate, bufferSize := r.buffer_size } }
    let w3 :=
      if r.autoConnect then
        let w21 := w2.call [HostCall.jack_get_ports]
        match r.physical_inputs with
        | some (o0, o1) =>
          w21.call [HostCall.jack_port_name p0, HostCall.jack_connect p0 o0,
                    HostCall.jack_port_name p1, HostCall.jack_connect p1 o1]
        | none => w21
      else w2
    let w4 : Sys := { w3 with eng := { w3.eng with midi_jack_sync := true } }
    let osc := portRegister r "osc" w4
    let w5 : Sys := { osc.2 with eng := { osc.2.eng with osc_oscport := osc.1 } }
    let w6 :=
      if r.has_metadata_api then
        w5.call [HostCall.jack_port_uuid w5.eng.osc_oscport,
                 HostCall.jack_set_property w5.eng.osc_oscport]
      else w5
    (true, w6)
  | _ => (false, { w with eng := { w.eng with midi_jack_sync := false } })

/-- `JackEngine::openAudio`. -/
def openAudio (r : Env) (w : Sys) : Bool × Sys :=
  if getAudioEn w.eng then (true, w)
  else
    let c : Bool × Sys := if getMidiEn w.eng then (true, w) else connectJack r w
    if c.1 = false then (false, c.2)
    else
      let w1 := c.2
      let r0 := portRegister r "out_1" w1
      let w2 : Sys := { r0.2 with eng := { r0.2.eng with
        audio_ports := (r0.1, r0.2.eng.audio_ports.2) } }
      let r1 := portRegister r "out_2" w2
      let w3 : Sys := { r1.2 with eng := { r1.2.eng with
        audio_ports := (r1.2.eng.audio_ports.1, r1.1) } }
      openAudioRegistered r w3

/-- One round of the loop of `stopAudio` for `audio.ports[0]`. -/
def stopAudioPort0 (w : Sys) : Sys :=
  let port := w.eng.audio_ports.1
  let w1 : Sys := { w with eng := { w.eng with audio_ports := (none, w.eng.audio_ports.2) } }
  match w1.eng.jackClient, port with
  | some _, some p => portUnregister p w1
  | _, _ => w1

/-- One round of the loop of `stopAudio` for `audio.ports[1]`. -/
def stopAudioPort1 (w : Sys) : Sys :=
  let port := w.eng.audio_ports.2
  let w1 : Sys := { w with eng := { w.eng with audio_ports := (w.eng.audio_ports.1, none) } }
  match w1.eng.jackClient, port with
  | some _, some p => portUnregister p w1
  | _, _ => w1

/-- `JackEngine::stopAudio`.  The settings of the build are read from `r`. -/
def stopAudio (r : Env) (w : Sys) : Sys :=
  let w1 := stopAudioPort1 (stopAudioPort0 w)
  let w2 : Sys := { w1 with eng := { w1.eng with midi_jack_sync := false } }
  let w3 :=
    match w2.eng.osc_oscport, w2.eng.jackClient with
    | some o, some _ =>
      let w21 := portUnregister o w2
      if r.has_metadata_api then
        w21.call [HostCall.jack_port_uuid (some o), HostCall.jack_remove_property (some o)]
      else w21
    | _, _ => w2
  if getMidiEn w3.eng then w3 else disconnectJack w3

/-- `JackEngine::openMidi`. -/
def openMidi (r : Env) (w : Sys) : Bool × Sys :=
  if getMidiEn w.eng then (true, w)
  else
    let c : Bool × Sys := if getAudioEn w.eng then (true, w) else connectJack r w
    if c.1 = false then (false, c.2)
    else
      let m := portRegister r "midi_input" c.2
      let w1 : Sys := { m.2 with eng := { m.2.eng with midi_inport := m.1 } }
      (getMidiEn w1.eng, w1)

/-- `JackEngine::stopMidi`. -/
def stopMidi (w : Sys) : Sys :=
  let port := w.eng.midi_inport
  let w1 : Sys := { w with eng := { w.eng with midi_inport := none } }
  let w2 :=
    match port with
    | some p => portUnregister p w1
    | none => w1
  if getAudioEn w2.eng then w2 else disconnectJack w2

/-- `JackEngine::Start`: `return openMidi() && openAudio();`. -/
def Start (r : Env) (w : Sys) : Bool × Sys :=
  let m := openMidi r w
  if m.1 then openAudio r m.2 else (false, m.2)

/-- `JackEngine::Stop`. -/
def Stop (r : Env) (w : Sys) : Sys :=
  stopAudio r (stopMidi w)

/-- The engine as the constructor leaves it, with the sample rate and buffer
size of `AudioOut`, next to a server that knows no client of ours. -/
def fresh (samplerate bufferSize : Nat) : Sys :=
  { eng := { jackClient := none, audio_ports := (none, none), audio_jackSamplerate := 0,
             audio_jackNframes := 0, midi_inport := none, midi_jack_sync := false,
             osc_oscport := none, samplerate := samplerate, bufferSize := bufferSize },
    srv := { client_exists := false, client_active := false, ports := fun _ => none,
             next_handle := 0 },
    calls := [] }

/-- A port of the given short name is registered with the server. -/
def registered (port_name : String) (w : Sys) : Prop :=
  ∃ h, w.srv.ports h = some port_name

/-- An environment in which every library call succeeds. -/
def allOk (autoConnect : Bool) (physical_inputs : Option (String × String))
    (has_metadata_api : Bool) : Env :=
  { client_open_ok := true, set_process_callback_ok := true, activate_ok := true,
    port_register_ok := fun _ => true, buffer_size := 256, sample_rate := 48000,
    autoConnect := autoConnect, physical_inputs := physical_inputs,
    has_metadata_api := has_metadata_api, first_port_handle := none }

/-- An environment in which every library call succeeds and the ports of a
client opened now get handles from `h` on, handles of ports that no longer
exist. -/
def handingOutAgain (h : Nat) : Env :=
  { allOk false none false with first_port_handle := some h }

/-- An environment in which every library call succeeds except the
registration of the ports named in `refused`. -/
def refusing (refused : List String) : Env :=
  { allOk false none false with port_register_ok := fun n => !(refused.contains n) }

/-- The four operations on the subsystems. -/
inductive Op where
  | openAudio
  | openMidi
  | stopAudio
  | stopMidi
deriving DecidableEq, Repr

/-- Runs one operation, dropping the result of an open. -/
def Op.apply (r : Env) (w : Sys) : Op → Sys
  | Op.openAudio => (Jack.openAudio r w).2
  | Op.openMidi => (Jack.openMidi r w).2
  | Op.stopAudio => Jack.stopAudio r w
  | Op.stopMidi => Jack.stopMidi w

/-- Runs a sequence of operations, each under its own environment. -/
def runOps (w : Sys) : List (Op × Env) → Sys
  | [] => w
  | (op, r) :: rest => runOps (op.apply r w) rest

/-- Every connection and registration succeeds in this environment. -/
def Env.succeeds (r : Env) : Prop :=
  r.client_open_ok = true ∧ r.set_process_callback_ok = true ∧ r.activate_ok = true ∧
    ∀ n, r.port_register_ok n = true

/-! ## Predicates used in the statements -/

/-- The ports the server knows are those the engine holds: no handle from
`next_handle` on is in use, a port named `out_1`, `out_2` or `midi_input`
exists exactly under the handle kept in `a0`, `a1` or `m`, and the handle kept
in `osc`, which may be stale, names the port `osc` or no port at all. -/
def SrvInv (srv : JackServer) (a0 a1 m osc : Option Nat) : Prop :=
  (∀ h, srv.next_handle ≤ h → srv.ports h = none) ∧
  (∀ h, srv.ports h = some "out_1" ↔ a0 = some h) ∧
  (∀ h, srv.ports h = some "out_2" ↔ a1 = some h) ∧
  (∀ h, srv.ports h = some "midi_input" ↔ m = some h) ∧
  (∀ o, osc = some o →
    o < srv.next_handle ∧ (srv.ports o = none ∨ srv.ports o = some "osc"))

/-- Invariant of the states reached from the constructed engine when every
library call succeeds and no handle is handed out a second time. -/
def Inv (w : Sys) : Prop :=
  SrvInv w.srv w.eng.audio_ports.1 w.eng.audio_ports.2 w.eng.midi_inport w.eng.osc_oscport ∧
  w.srv.client_exists = w.eng.jackClient.isSome ∧
  w.eng.jackClient.isSome = (getAudioEn w.eng || getMidiEn w.eng) ∧
  w.eng.audio_ports.1.isSome = w.eng.audio_ports.2.isSome

/-- What holds of an item handed on by `handleMidi`: a pushed event carries
data masked to 7 bits (`num` and `value` in 0..127, or for pitch bend a value
composed of two 7-bit halves), a raw-handler call carries bytes. -/
def Emitted.WellRanged (C_pitchwheel : Int) : Emitted → Prop
  | Emitted.putEvent ev =>
    (0 ≤ ev.num ∧ ev.num ≤ 127 ∧ 0 ≤ ev.value ∧ ev.value ≤ 127) ∨
    (ev.num = C_pitchwheel ∧ ∃ lo hi : Nat, lo ≤ 127 ∧ hi ≤ 127 ∧
      ev.value = (((hi <<< 7) ||| lo : Nat) : Int) - 8192)
  | Emitted.midiProcess head num value => head ≤ 255 ∧ num ≤ 255 ∧ value ≤ 255

end Jack

namespace DSSI

/-! ## `connectPort` -/

/-- The port pointers of a plug-in instance: `outl`, `outr` and the field
`data` of each entry of the array `dssi_control`, by index.  A pointer is the
address it holds. -/
structure PortPointers where
  outl : Nat
  outr : Nat
  dssi_control_data : Nat → Nat

/-- The difference `port - 2` of two `unsigned long` values. -/
def portMinus2 (port : Nat) : Nat := (port + 2 ^ 64 - 2) % 2 ^ 64

/-- `DSSIaudiooutput::connectPort(port, data)`; `MAX_DSSI_CONTROLS` is the
constant `DSSIControlDescription::MAX_DSSI_CONTROLS`. -/
def connectPort (MAX_DSSI_CONTROLS : Nat) (port : Nat) (data : Nat) (s : PortPointers) :
    PortPointers :=
  if port = 0 then { s with outl := data }
  else if port = 1 then { s with outr := data }
  else if portMinus2 port < MAX_DSSI_CONTROLS then
    { s with dssi_control_data :=
        fun i => if i = portMinus2 port then data else s.dssi_control_data i }
  else s

/-! ## The program catalog: `getProgram` and `mapNextBank` -/

/-- `DSSIaudiooutput::ProgramDescriptor`: bank number, program number, name. -/
structure ProgramDescriptor where
  bank : Nat
  program : Nat
  name : String
deriving DecidableEq, Repr

/-- Modelled from the spec: one entry of the bank list `bank.banks` (class
`Bank` is not among the sources): its directory name `dir` and, by slot, the
instrument name `bank.getname(slot)` gives once `bank.loadbank(dir)` has
loaded that directory. -/
structure bankstruct where
  dir : String
  ins : Nat → String

/-- The static members `programMap` and `bankNoToMap`. -/
structure Catalog where
  programMap : List ProgramDescriptor
  bankNoToMap : Nat
deriving DecidableEq, Repr

/-- The static members as initialised: no program, `bankNoToMap = 1`. -/
def Catalog.initial : Catalog := { programMap := [], bankNoToMap := 1 }

/-- The test `!insName.empty() && insName[0] != '\0' && insName[0] != ' '`
of `mapNextBank`. -/
def nameAccepted (insName : String) : Bool :=
  match insName.data with
  | [] => false
  | c :: _ => c != Char.ofNat 0 && c != ' '

/-- The loop over the `BANK_SIZE` instruments of `mapNextBank`: what it pushes
onto `programMap` for the bank just loaded. -/
def bankPrograms (BANK_SIZE : Nat) (bankNoToMap : Nat) (b : bankstruct) :
    List ProgramDescriptor :=
  (List.range BANK_SIZE).filterMap fun instrument =>
    let insName := b.ins instrument
    if nameAccepted insName then some ⟨bankNoToMap, instrument, insName⟩ else none

/-- `DSSIaudiooutput::mapNextBank`; `banks` is the bank list `bank.banks`. -/
def mapNextBank (BANK_SIZE : Nat) (banks : List bankstruct) (st : Catalog) : Bool × Catalog :=
  match banks[st.bankNoToMap]? with
  | none => (false, st)
  | some b =>
    if b.dir = "" then (false, st)
    else
      (true,
        { programMap := st.programMap ++ bankPrograms BANK_SIZE st.bankNoToMap b,
          bankNoToMap := st.bankNoToMap + 1 })

/-- The loop `while(index >= programMap.size() && mapNextBank());` of
`getProgram`, its condition being evaluated at most `fuel` times; `none` when
the fuel does not suffice. -/
def mapBanksWhile (BANK_SIZE : Nat) (banks : List bankstruct) (index : Nat) :
    Nat → Catalog → Option Catalog
  | 0, _ => none
  | fuel + 1, st =>
    if index ≥ st.programMap.length then
      let r := mapNextBank BANK_SIZE banks st
      if r.1 then mapBanksWhile BANK_SIZE banks index fuel r.2 else some r.2
    else some st

/-- `DSSIaudiooutput::getProgram(index)` on an instance whose bank list has
been initialised (the constructor calls `initBanks`): the descriptor returned,
`none` for `NULL`, and the static members afterwards.  The loop is given
`banks.size() + 1` evaluations of its condition. -/
def getProgram (BANK_SIZE : Nat) (banks : List bankstruct) (index : Nat) (st : Catalog) :
    Option (Option ProgramDescriptor × Catalog) :=
  (mapBanksWhile BANK_SIZE banks index (banks.length + 1) st).map fun st1 =>
    (if index ≥ st1.programMap.length then none else st1.programMap[index]?, st1)

/-- A run of `getProgram` calls, one per index of the list, in order. -/
def getPrograms (BANK_SIZE : Nat) (banks : List bankstruct) :
    List Nat → Catalog → Option Catalog
  | [], st => some st
  | i :: rest, st =>
    match getProgram BANK_SIZE banks i st with
    | none => none
    | some r => getPrograms BANK_SIZE banks rest r.2

/-- The loop of `getProgram` told along the bank list: `rest` holds the entries
from bank number `c` on and `programMap` the catalog so far. -/
def expand (BANK_SIZE : Nat) (index : Nat) :
    Nat → List bankstruct → List ProgramDescriptor → Catalog
  | c, [], programMap => ⟨programMap, c⟩
  | c, b :: rest, programMap =>
    if index < programMap.length then ⟨programMap, c⟩
    else if b.dir = "" then ⟨programMap, c⟩
    else expand BANK_SIZE index (c + 1) rest (programMap ++ bankPrograms BANK_SIZE c b)

/-- The banks `mapNextBank` can still map from cursor `c`: the entries from
index `c` on, up to the first one whose directory name is empty. -/
def mappable (banks : List bankstruct) (c : Nat) : List bankstruct :=
  (banks.drop c).takeWhile fun b => b.dir != ""

/-- The programs of the first `m` banks of a run that starts at bank number
`c`. -/
def runPrograms (BANK_SIZE : Nat) : Nat → List bankstruct → Nat → List ProgramDescriptor
  | _, _, 0 => []
  | _, [], _ + 1 => []
  | c, b :: rest, m + 1 => bankPrograms BANK_SIZE c b ++ runPrograms BANK_SIZE (c + 1) rest m

/-- A name as the claim about the catalog words it: non-empty and not
beginning with a space. -/
def nameNonEmptyNoSpace (insName : String) : Bool :=
  match insName.data with
  | [] => false
  | c :: _ => c != ' '

/-- The programs of one bank as the claim about the catalog words them: one
entry for every slot whose name is non-empty and does not begin with a
space. -/
def bankProgramsAsClaimed (BANK_SIZE : Nat) (bankNo : Nat) (b : bankstruct) :
    List ProgramDescriptor :=
  (List.range BANK_SIZE).filterMap fun slot =>
    if nameNonEmptyNoSpace (b.ins slot) then some ⟨bankNo, slot, b.ins slot⟩ else none

/-- The programs of all the banks of a list, as claimed, the list starting at
bank number `c`. -/
def allProgramsAsClaimed (BANK_SIZE : Nat) : Nat → List bankstruct → List ProgramDescriptor
  | _, [] => []
  | c, b :: rest =>
    bankProgramsAsClaimed BANK_SIZE c b ++ allProgramsAsClaimed BANK_SIZE (c + 1) rest

/-- A bank with directory `dir` whose slot 0 holds `name` and whose other
slots are empty. -/
def oneInstrumentBank (dir name : String) : bankstruct :=
  { dir := dir, ins := fun slot => if slot = 0 then name else "" }

end DSSI

namespace Jack

/-! ## The process callback -/

/-- An OSC event as `jack_osc_event_get` delivers it: the bytes of the
message, of which `processAudio` reads the first one, `*event.buffer`. -/
structure jack_osc_event_t where
  first : Nat
  rest : List Nat
deriving DecidableEq, Repr

/-- What the process callback does, in order: an item handed on by
`handleMidi`, a message passed to `OutMgr::applyOscEventRt`, a request
`jack_port_get_buffer(audio.ports[port], nframes)`, the call `getNext()`, a
`memcpy` of `count` floats into `audio.portBuffs[port]`, a call of
`stereoCompressor` for one frame. -/
inductive CallbackStep where
  | midi (item : Emitted)
  | applyOscEventRt (msg : List Nat)
  | jack_port_get_buffer (port : Nat)
  | getNext
  | memcpy (port : Nat) (count : Nat)
  | stereoCompressor (frame : Nat)
deriving DecidableEq, Repr

/-- The first loop of `processAudio` over the OSC events of the block.  An
entry `none` is an event `jack_osc_event_get` cannot retrieve (non-zero
return); 47 is the character `/`. -/
def oscLoop : List (Option jack_osc_event_t) → List CallbackStep
  | [] => []
  | none :: rest => oscLoop rest
  | some event :: rest =>
    if event.first ≠ 47 then oscLoop rest
    else CallbackStep.applyOscEventRt (event.first :: event.rest) :: oscLoop rest

/-- `JackEngine::processAudio(nframes)`.  `port_buffers` holds what
`jack_port_get_buffer` answers for the two audio ports (`none` for `NULL`). -/
def processAudio (eng : JackEngine) (osc_events : List (Option jack_osc_event_t))
    (port_buffers : Option Nat × Option Nat) (isOutputCompressionEnabled : Bool) :
    Bool × List CallbackStep :=
  let s1 := oscLoop osc_events ++ [CallbackStep.jack_port_get_buffer 0]
  match port_buffers.1 with
  | none => (false, s1)
  | some _ =>
    let s2 := s1 ++ [CallbackStep.jack_port_get_buffer 1]
    match port_buffers.2 with
    | none => (false, s2)
    | some _ =>
      let s3 := s2 ++ [CallbackStep.getNext, CallbackStep.memcpy 0 eng.bufferSize,
        CallbackStep.memcpy 1 eng.bufferSize]
      let s4 :=
        if isOutputCompressionEnabled then
          s3 ++ (List.range eng.bufferSize).map CallbackStep.stereoCompressor
        else s3
      (true, s4)

/-- `JackEngine::processCallback(nframes)`: the value returned and what was
done. -/
def processCallback (eng : JackEngine) (C_pitchwheel : Int)
    (midi_buf : List jack_midi_event_t) (osc_events : List (Option jack_osc_event_t))
    (port_buffers : Option Nat × Option Nat) (isOutputCompressionEnabled : Bool) :
    Int × List CallbackStep :=
  let midi := (handleMidi eng C_pitchwheel midi_buf).map CallbackStep.midi
  match eng.audio_ports with
  | (some _, some _) =>
    let a := processAudio eng osc_events port_buffers isOutputCompressionEnabled
    (if a.1 then 0 else -1, midi ++ a.2)
  | _ => (0, midi)

/-- The messages passed to `applyOscEventRt`, in order. -/
def forwarded (steps : List CallbackStep) : List (List Nat) :=
  steps.filterMap fun s =>
    match s with
    | CallbackStep.applyOscEventRt msg => some msg
    | _ => none

/-- Whether a step pulls a block from the engine or copies samples out. -/
def CallbackStep.producesAudio : CallbackStep → Bool
  | CallbackStep.getNext => true
  | CallbackStep.memcpy _ _ => true
  | CallbackStep.stereoCompressor _ => true
  | _ => false

end Jack

namespace OssMulti

/-! ## Data model of the OSS multi-channel back end -/

/-- The value of an `int` expression, wrapped to 32 bits two's complement. -/
def int32 (v : Int) : Int := (v + 2 ^ 31) % 2 ^ 32 - 2 ^ 31

/-- A system call made by the engine. -/
inductive SysCall where
  | sys_open
  | ioctl_FIONBIO
  | ioctl_DSP_RESET
  | ioctl_DSP_SETFMT (is32 : Bool)
  | ioctl_DSP_CHANNELS (x : Nat)
  | ioctl_DSP_SPEED (rate : Int)
  | ioctl_DSP_SETFRAGMENT (snd_fragment : Nat)
  | pthread_create
  | close (fd : Int)
  | pthread_join
  | write (fd : Int) (count : Int)
deriving DecidableEq, Repr

/-- The member variables of `OssMultiEngine` that `openAudio`, `stopAudio` and
the audio thread use.  `audioThread` tells whether a thread has been created
and not yet joined. -/
structure OssMultiEngine where
  handle : Int
  channels : Nat
  is32bit : Bool
  buffersize : Int
  audioThread : Bool
deriving DecidableEq, Repr

/-- How the device answers, and the build: the descriptor `open` returns
(-1 on failure), whether `AFMT_S32_NE` is defined, whether the device takes
the 32-bit and the 16-bit format, which channel counts it takes (leaving the
requested value as it is), and the sample rate it reports back for a
requested one. -/
structure Device where
  open_result : Int
  has_AFMT_S32_NE : Bool
  setfmt32_ok : Bool
  setfmt16_ok : Bool
  channels_ok : Nat → Bool
  speed : Int → Int

/-- The engine as the constructor leaves it. -/
def constructed : OssMultiEngine :=
  { handle := -1, channels := 0, is32bit := false, buffersize := 0, audioThread := false }

/-! ## `openAudio` and `stopAudio` -/

/-- `OssMultiEngine::getAudioEn`: `return (handle != -1);`. -/
def getAudioEn (e : OssMultiEngine) : Bool := e.handle != -1

/-- The loop `for (x = NUM_MIDI_PARTS * 2; x >= 2; x -= 2)` that probes the
channel counts, for `x = 2 * k`: the value of `x` after the loop and the
requests made. -/
def probeChannels (channels_ok : Nat → Bool) : Nat → Nat × List SysCall
  | 0 => (0, [])
  | k + 1 =>
    if channels_ok (2 * (k + 1)) then (2 * (k + 1), [SysCall.ioctl_DSP_CHANNELS (2 * (k + 1))])
    else
      ((probeChannels channels_ok k).1,
        SysCall.ioctl_DSP_CHANNELS (2 * (k + 1)) :: (probeChannels channels_ok k).2)

/-- The value of `buffersize` computed by `openAudio`. -/
def computeBuffersize (synth_buffersize : Nat) (channels : Nat) (is32bit : Bool) : Int :=
  let buffersize := int32 (int32 (2 * (synth_buffersize : Int)) * (channels : Int))
  if is32bit then int32 (buffersize * 2) else buffersize

/-- The loop `for (x = 4; x < 20; x++) { if ((1 << x) >= buffersize) break; }`
from the current `x`, its condition being evaluated at most `fuel` times: the
value of `x` after the loop. -/
def fragmentLoop (buffersize : Int) : Nat → Nat → Nat
  | 0, x => x
  | fuel + 1, x =>
    if x < 20 then
      if (2 : Int) ^ x ≥ buffersize then x else fragmentLoop buffersize fuel (x + 1)
    else x

/-- The value `snd_fragment = 0x20000 | x` requested by `openAudio`. -/
def fragmentWord (buffersize : Int) : Nat :=
  0x20000 ||| fragmentLoop buffersize 17 4

/-- The tail of `openAudio` once the format is set: channels, sample rate,
buffer size, fragments and the audio thread.  `e` already holds the open
descriptor. -/
def openAudioNegotiate (NUM_MIDI_PARTS : Nat) (synth_buffersize : Nat) (synth_samplerate : Int)
    (dev : Device) (e : OssMultiEngine) (calls : List SysCall) :
    Bool × OssMultiEngine × List SysCall :=
  let probe := probeChannels dev.channels_ok NUM_MIDI_PARTS
  let calls1 := calls ++ probe.2
  if probe.1 = 0 then
    (false, { e with handle := -1 }, calls1 ++ [SysCall.close e.handle])
  else
    let e1 := { e with channels := probe.1 }
    let snd_samplerate := dev.speed synth_samplerate
    let calls2 := calls1 ++ [SysCall.ioctl_DSP_SPEED synth_samplerate]
    if snd_samplerate ≠ synth_samplerate then
      (false, { e1 with handle := -1 }, calls2 ++ [SysCall.close e1.handle])
    else
      let e2 := { e1 with
        buffersize := computeBuffersize synth_buffersize e1.channels e1.is32bit }
      (true, { e2 with audioThread := true },
        calls2 ++ [SysCall.ioctl_DSP_SETFRAGMENT (fragmentWord e2.buffersize),
                   SysCall.pthread_create])

/-- `OssMultiEngine::openAudio`.  `NUM_MIDI_PARTS` is the constant of that
name, `synth_buffersize` and `synth_samplerate` are `synth.buffersize` and
`synth.samplerate`. -/
def openAudio (NUM_MIDI_PARTS : Nat) (synth_buffersize : Nat) (synth_samplerate : Int)
    (dev : Device) (e : OssMultiEngine) : Bool × OssMultiEngine × List SysCall :=
  if e.handle ≠ -1 then (true, e, [])
  else
    let e1 := { e with handle := dev.open_result }
    if e1.handle = -1 then (false, e1, [SysCall.sys_open])
    else
      let calls := [SysCall.sys_open, SysCall.ioctl_FIONBIO, SysCall.ioctl_DSP_RESET]
      if dev.has_AFMT_S32_NE = true ∧ dev.setfmt32_ok = true then
        openAudioNegotiate NUM_MIDI_PARTS synth_buffersize synth_samplerate dev
          { e1 with is32bit := true } (calls ++ [SysCall.ioctl_DSP_SETFMT true])
      else
        let calls1 :=
          if dev.has_AFMT_S32_NE then calls ++ [SysCall.ioctl_DSP_SETFMT true] else calls
        if dev.setfmt16_ok then
          openAudioNegotiate NUM_MIDI_PARTS synth_buffersize synth_samplerate dev
            { e1 with is32bit := false } (calls1 ++ [SysCall.ioctl_DSP_SETFMT false])
        else
          (false, { e1 with handle := -1 },
            calls1 ++ [SysCall.ioctl_DSP_SETFMT false, SysCall.close e1.handle])

/-- `OssMultiEngine::stopAudio`. -/
def stopAudio (e : OssMultiEngine) : OssMultiEngine × List SysCall :=
  let fd := e.handle
  if fd = -1 then (e, [])
  else ({ e with handle := -1, audioThread := false }, [SysCall.close fd, SysCall.pthread_join])

/-- A device that takes the 16-bit format only, the channel counts of the
given list and every sample rate. -/
def device16 (counts : List Nat) : Device :=
  { open_result := 3, has_AFMT_S32_NE := true, setfmt32_ok := false, setfmt16_ok := true,
    channels_ok := fun x => counts.contains x, speed := fun r => r }

/-- A device that takes the 32-bit format, the channel counts of the given
list and every sample rate. -/
def device32 (counts : List Nat) : Device :=
  { open_result := 3, has_AFMT_S32_NE := true, setfmt32_ok := true, setfmt16_ok := true,
    channels_ok := fun x => counts.contains x, speed := fun r => r }

/-- The channel counts `2 * k, 2 * k - 2, ..., 2`, in that order. -/
def evensDown : Nat → List Nat
  | 0 => []
  | k + 1 => 2 * (k + 1) :: evensDown k

/-! ## Single-precision samples -/

/-- A finite single-precision number, `m * 2 ^ e`.  The range of the exponent
is not modelled: neither overflow to infinity nor subnormal numbers occur at
the magnitudes of audio samples scaled to 32 bits. -/
structure F32 where
  m : Int
  e : Int
deriving DecidableEq, Repr

/-- The number of binary digits of `a`, counted in at most `fuel` halvings. -/
def bitLength : Nat → Nat → Nat
  | 0, _ => 0
  | fuel + 1, a => if a = 0 then 0 else bitLength fuel (a / 2) + 1

/-- Rounds `m * 2 ^ e` to a significand of 24 bits, to nearest, ties to
even. -/
def F32.round (m : Int) (e : Int) : F32 :=
  let a := m.natAbs
  let bits := bitLength a a
  if bits ≤ 24 then ⟨m, e⟩
  else
    let sh := bits - 24
    let q := a / 2 ^ sh
    let r := a % 2 ^ sh
    let half := 2 ^ (sh - 1)
    let q1 := if r > half ∨ (r = half ∧ q % 2 = 1) then q + 1 else q
    ⟨(if m < 0 then -(q1 : Int) else (q1 : Int)), e + (sh : Int)⟩

/-- The value of a decimal floating literal `n.0f`. -/
def F32.lit (n : Nat) : F32 := F32.round (n : Int) 0

/-- The product `a * b` of two `float` values. -/
def F32.mul (a b : F32) : F32 := F32.round (a.m * b.m) (a.e + b.e)

/-- The integral part of the number, truncated toward zero. -/
def F32.trunc (x : F32) : Int :=
  if 0 ≤ x.e then x.m * 2 ^ x.e.toNat else Int.tdiv x.m (2 ^ (-x.e).toNat)

/-- The conversion of a `float` to a signed integer type of `bits` bits: the
truncated value, and `none` when that value cannot be represented, in which
case the behaviour of the conversion is undefined. -/
def F32.toSigned (bits : Nat) (x : F32) : Option Int :=
  if -(2 : Int) ^ (bits - 1) ≤ x.trunc ∧ x.trunc ≤ 2 ^ (bits - 1) - 1 then some x.trunc
  else none

/-- The sample 1.0. -/
def F32.one : F32 := ⟨1, 0⟩

/-- The sample -1.0. -/
def F32.negOne : F32 := ⟨-1, 0⟩

/-! ## One block of the audio thread -/

/-- `(int)(l * 2147483647.0f)`. -/
def toSample32 (l : F32) : Option Int := (F32.mul l (F32.lit 2147483647)).toSigned 32

/-- `(short int)(l * 32767.0f)`. -/
def toSample16 (l : F32) : Option Int := (F32.mul l (F32.lit 32767)).toSigned 16

/-- The loop `for (y = 0; y != synth.buffersize; y++)` for the part at channel
`x`, over the frames still to come: the stores into `smps` (index and value,
`none` for a value the conversion leaves undefined) and the peak of the part
afterwards.  `compressor` is `stereoCompressor` when output compression is
enabled, as a function of the peak and the two samples. -/
def frameLoop (is32bit : Bool) (channels x : Nat)
    (compressor : Option (F32 → F32 → F32 → F32 × F32 × F32))
    (partoutl partoutr : Nat → F32) : List Nat → F32 → List (Nat × Option Int) × F32
  | [], peak => ([], peak)
  | y :: ys, peak =>
    let c : F32 × F32 × F32 :=
      match compressor with
      | some f => f peak (partoutl y) (partoutr y)
      | none => (peak, partoutl y, partoutr y)
    let conv := if is32bit then toSample32 else toSample16
    let rest := frameLoop is32bit channels x compressor partoutl partoutr ys c.1
    ((y * channels + x, conv c.2.1) :: (y * channels + x + 1, conv c.2.2) :: rest.1, rest.2)

/-- The loop `for (x = 0; x != channels; x += 2)` from the current `x`, its
condition being evaluated at most `fuel` times; `none` when the fuel does not
suffice.  `partoutl p` and `partoutr p` are the output buffers of part `p`. -/
def partLoop (is32bit : Bool) (channels synth_buffersize : Nat)
    (compressor : Option (F32 → F32 → F32 → F32 × F32 × F32))
    (partoutl partoutr : Nat → Nat → F32) :
    Nat → Nat → (Nat → F32) → Option (List (Nat × Option Int))
  | 0, _, _ => none
  | fuel + 1, x, peaks =>
    if x = channels then some []
    else
      let r := frameLoop is32bit channels x compressor (partoutl (x / 2)) (partoutr (x / 2))
        (List.range synth_buffersize) (peaks (x / 2))
      let peaks1 := fun p => if p = x / 2 then r.2 else peaks p
      match partLoop is32bit channels synth_buffersize compressor partoutl partoutr
          fuel (x + 2) peaks1 with
      | none => none
      | some stores => some (r.1 ++ stores)

/-- One round of the loop of `audioThreadCb` on an open engine whose `write`
succeeds: the stores into `smps`, then the `write` of `buffersize` bytes. -/
def audioBlock (e : OssMultiEngine) (synth_buffersize : Nat)
    (compressor : Option (F32 → F32 → F32 → F32 × F32 × F32))
    (partoutl partoutr : Nat → Nat → F32) (peaks : Nat → F32) :
    Option (List (Nat × Option Int) × SysCall) :=
  (partLoop e.is32bit e.channels synth_buffersize compressor partoutl partoutr
      (e.channels + 1) 0 peaks).map
    fun stores => (stores, SysCall.write e.handle e.buffersize)

end OssMulti

namespace DSSI

/-! ## The events a block consumes -/

/-- The longest prefix of a block whose ticks are non-decreasing, none below
`lo`, and all at most `sample_count`. -/
def consumedEvents (sample_count : Nat) : Nat → List snd_seq_event_t → List snd_seq_event_t
  | _, [] => []
  | lo, e :: rest =>
    if lo ≤ e.tick ∧ e.tick ≤ sample_count then e :: consumedEvents sample_count e.tick rest
    else []

/-- Loop invariant for the consumed events of the block `l`: the events
consumed so far, followed by what the loop is still to consume from the
pending ones, are the consumed prefix of `l`, and the event calls made so far
are those of the events consumed so far. -/
def PrefixInv (l : List snd_seq_event_t) (sc : Nat) (s : RunState) : Prop :=
  AtHead sc s ∧ ∃ consumed, l = consumed ++ s.pending ∧
    consumedEvents sc 0 l = consumed ++ consumedEvents sc s.to_frame s.pending ∧
    eventCalls s.log = consumed.filterMap eventCall

end DSSI

namespace Jack

/-! ## The 3-byte windows of the raw path -/

/-- The `k`-th 3-byte window of a buffer as the raw handler is to receive it:
the bytes at the offsets `3k`, `3k + 1` and `3k + 2`, a byte beyond the end of
the buffer being 0. -/
def windowAt (buffer : List Nat) (k : Nat) : Emitted :=
  Emitted.midiProcess (buffer.getD (3 * k) 0 % 256) (buffer.getD (3 * k + 1) 0 % 256)
    (buffer.getD (3 * k + 2) 0 % 256)

/-- Whether an item is an event pushed onto the event sink. -/
def Emitted.isPutEvent : Emitted → Bool
  | Emitted.putEvent _ => true
  | Emitted.midiProcess _ _ _ => false

/-- The status nibble `buf[0] & 0xF0` of an event, `buf[0]` being 0 for an
event without bytes. -/
def statusNibble (buffer : List Nat) : Nat := (loadBuf buffer).1 &&& 0xF0

end Jack

namespace OssMulti

/-! ## The sample buffer and its layout -/

/-- The value of `maxbuffersize` computed by the constructor,
`NUM_MIDI_PARTS * sizeof(int) * synth.buffersize * 2`, with `sizeof(int)`
being 4. -/
def maxbuffersize (NUM_MIDI_PARTS synth_buffersize : Nat) : Nat :=
  NUM_MIDI_PARTS * 4 * synth_buffersize * 2

/-- The number of elements of the array the constructor allocates,
`new int[maxbuffersize / sizeof(int)]`. -/
def allocatedSamples (NUM_MIDI_PARTS synth_buffersize : Nat) : Nat :=
  maxbuffersize NUM_MIDI_PARTS synth_buffersize / 4

/-- The output indices of one block listed part by part and frame by frame:
`y * channels + 2 * i` for the left and `y * channels + 2 * i + 1` for the
right sample of part `i`, frame `y`. -/
def blockIndices (parts channels synth_buffersize : Nat) : List Nat :=
  (List.range parts).flatMap fun i =>
    (List.range synth_buffersize).flatMap fun y =>
      [y * channels + 2 * i, y * channels + 2 * i + 1]

/-- The interleaved block listed part by part and frame by frame, without
compression: index and converted sample. -/
def interleaved (is32bit : Bool) (parts channels synth_buffersize : Nat)
    (partoutl partoutr : Nat → Nat → F32) : List (Nat × Option Int) :=
  (List.range parts).flatMap fun i =>
    (List.range synth_buffersize).flatMap fun y =>
      [(y * channels + 2 * i, (if is32bit then toSample32 else toSample16) (partoutl i y)),
       (y * channels + 2 * i + 1, (if is32bit then toSample32 else toSample16) (partoutr i y))]

end OssMulti

/-! # Properties of `runSynth` -/

namespace DSSI

/-! ## Lemmas on the inner loop -/

theorem processEvents_eq (t : Nat) (p : List snd_seq_event_t) (log : List Logged) :
    processEvents t p log =
      (p.dropWhile (fun e => decide (e.tick = t)),
        log ++ (p.takeWhile (fun e => decide (e.tick = t))).flatMap eventLog) := by
  induction p generalizing log with
  | nil => simp [processEvents]
  | cons e rest ih =>
    by_cases h : e.tick = t
    · simp [processEvents, h, ih, List.takeWhile, List.dropWhile]
    · simp [processEvents, h, List.takeWhile, List.dropWhile]

theorem segments_append (a b : List Logged) : segments (a ++ b) = segments a ++ segments b := by
  simp [segments]

theorem segments_eventLog (e : snd_seq_event_t) : segments (eventLog e) = [] := by
  unfold eventLog eventCall
  split_ifs <;> simp [segments]

theorem segments_flatMap_eventLog (l : List snd_seq_event_t) :
    segments (l.flatMap eventLog) = [] := by
  induction l with
  | nil => simp [segments]
  | cons e rest ih => simp [List.flatMap_cons, segments_append, segments_eventLog, ih]

theorem segments_nil : segments [] = [] := rfl

theorem segments_render (n off : Nat) :
    segments [⟨MasterCall.GetAudioOutSamples n off, none⟩] = [(off, n)] := rfl

theorem segments_forwardControls (k : Nat) : segments (forwardControls k) = [] := by
  simp [segments, forwardControls, List.filterMap_eq_nil_iff]

/-- Generic rule for the `do ... while` loop: a property kept by the body
holds on exit, and the loop does exit when every round that goes on consumes
an event and the fuel exceeds the number of pending events. -/
theorem doWhile_rule (sc : Nat) (P : RunState → Prop)
    (hbody : ∀ s, P s → P (loopBody sc s))
    (hdec : ∀ s, P s → (loopBody sc s).to_frame < sc →
      (loopBody sc s).pending.length < s.pending.length) :
    ∀ (fuel : Nat) (s : RunState), P s → s.pending.length < fuel →
      ∃ s1, doWhile sc fuel s = some s1 ∧ P s1 ∧ sc ≤ s1.to_frame := by
  intro fuel
  induction fuel with
  | zero => intro s _ h; omega
  | succ n ih =>
    intro s hP hlen
    by_cases hc : (loopBody sc s).to_frame < sc
    · have hd := hdec s hP hc
      obtain ⟨s1, h1, h2, h3⟩ := ih (loopBody sc s) (hbody s hP) (by omega)
      exact ⟨s1, by simp [doWhile, hc, h1], h2, h3⟩
    · exact ⟨loopBody sc s, by simp [doWhile, hc], hbody s hP, by omega⟩

/-- The value of `to_frame` chosen by one round of the loop. -/
theorem loopBody_to_frame (sc : Nat) (s : RunState) :
    (loopBody sc s).to_frame =
      if nextEventFrame s.pending < sc ∧ nextEventFrame s.pending ≥ s.to_frame
      then nextEventFrame s.pending else sc := rfl

theorem loopBody_from_frame (sc : Nat) (s : RunState) :
    (loopBody sc s).from_frame =
      if s.from_frame < (loopBody sc s).to_frame then (loopBody sc s).to_frame
      else s.from_frame := by
  simp only [loopBody]
  split_ifs <;> rfl

theorem loopBody_pending (sc : Nat) (s : RunState) :
    (loopBody sc s).pending =
      s.pending.dropWhile (fun e => decide (e.tick = (loopBody sc s).to_frame)) := by
  simp only [loopBody, processEvents_eq]

theorem loopBody_log (sc : Nat) (s : RunState) :
    (loopBody sc s).log =
      s.log ++
        (if s.from_frame < (loopBody sc s).to_frame then
          [⟨MasterCall.GetAudioOutSamples ((loopBody sc s).to_frame - s.from_frame)
              s.from_frame, none⟩]
         else []) ++
        (s.pending.takeWhile
          (fun e => decide (e.tick = (loopBody sc s).to_frame))).flatMap eventLog := by
  simp only [loopBody, processEvents_eq]
  split_ifs <;> simp

theorem loopBody_to_frame_ge (sc : Nat) (s : RunState) (h : AtHead sc s) :
    s.to_frame ≤ (loopBody sc s).to_frame ∧ (loopBody sc s).to_frame ≤ sc := by
  rw [loopBody_to_frame]
  obtain ⟨_, h2⟩ := h
  split_ifs with hc <;> omega

theorem loopBody_atHead (sc : Nat) (s : RunState) (h : AtHead sc s) :
    AtHead sc (loopBody sc s) := by
  have hge := loopBody_to_frame_ge sc s h
  refine ⟨?_, hge.2⟩
  rw [loopBody_from_frame]
  obtain ⟨h1, _⟩ := h
  split_ifs <;> omega

/-- A round that does not reach `sample_count` stops at the tick of the first
pending event and consumes that event. -/
theorem loopBody_consumes (sc : Nat) (hsc : sc ≤ ULONG_MAX) (s : RunState)
    (hlt : (loopBody sc s).to_frame < sc) :
    (loopBody sc s).pending.length < s.pending.length := by
  rw [loopBody_pending]
  rw [loopBody_to_frame] at hlt ⊢
  split_ifs at hlt ⊢ with hc
  · cases hp : s.pending with
    | nil => simp [hp, nextEventFrame] at hc; omega
    | cons e rest =>
      simp only [nextEventFrame, List.dropWhile, decide_True]
      have := List.Sublist.length_le (List.dropWhile_sublist
        (fun e1 : snd_seq_event_t => decide (e1.tick = e.tick)) (l := rest))
      simp only [List.length_cons]
      omega
  · omega

/-! ## Tiling of the block by the render segments -/

theorem Tiles.snoc {a b n : Nat} {l : List (Nat × Nat)} (h : Tiles a l b) (hn : 0 < n) :
    Tiles a (l ++ [(b, n)]) (b + n) := by
  induction l generalizing a with
  | nil => simp only [Tiles] at h; subst h; simp [Tiles, hn]
  | cons x rest ih => exact ⟨h.1, h.2.1, ih h.2.2⟩

theorem Tiles.sum {a b : Nat} {l : List (Nat × Nat)} (h : Tiles a l b) :
    a + (l.map Prod.snd).sum = b := by
  induction l generalizing a with
  | nil => simpa [Tiles] using h
  | cons x rest ih =>
    have := ih h.2.2
    simp only [List.map_cons, List.sum_cons]
    omega

theorem Tiles.pos {a b : Nat} {l : List (Nat × Nat)} (h : Tiles a l b) :
    ∀ x ∈ l, 0 < x.2 := by
  induction l generalizing a with
  | nil => simp
  | cons x rest ih =>
    intro y hy
    rcases List.mem_cons.1 hy with rfl | hy
    · exact h.2.1
    · exact ih h.2.2 y hy

theorem Tiles.head {a b : Nat} {l : List (Nat × Nat)} (h : Tiles a l b) :
    ∀ x, l.head? = some x → x.1 = a := by
  cases l with
  | nil => simp
  | cons x rest => intro y hy; simp at hy; subst hy; exact h.1

theorem Tiles.chain {a b : Nat} {l : List (Nat × Nat)} (h : Tiles a l b) :
    List.Chain' (fun p q : Nat × Nat => q.1 = p.1 + p.2) l := by
  induction l generalizing a with
  | nil => simp
  | cons x rest ih =>
    cases rest with
    | nil => simp
    | cons y rest2 =>
      refine List.Chain'.cons ?_ (ih h.2.2)
      have := h.2.2.1
      have := h.1
      omega

theorem loopBody_renderInv (sc : Nat) (s : RunState) (h : RenderInv sc s) :
    RenderInv sc (loopBody sc s) := by
  obtain ⟨hh, ht⟩ := h
  refine ⟨loopBody_atHead sc s hh, ?_⟩
  have hge := loopBody_to_frame_ge sc s hh
  rw [loopBody_log, loopBody_from_frame]
  simp only [segments_append, segments_flatMap_eventLog, List.append_nil]
  split_ifs with hc
  · have h2 := Tiles.snoc ht (Nat.sub_pos_of_lt hc)
    have e : s.from_frame + ((loopBody sc s).to_frame - s.from_frame)
        = (loopBody sc s).to_frame := by omega
    rw [e] at h2
    simpa [segments] using h2
  · simpa [segments] using ht

/-- The loop of `runSynth` ends, and on exit the render calls tile the block. -/
theorem runSynth_renderInv (K sc : Nat) (events : Option (List snd_seq_event_t))
    (hsc : sc ≤ ULONG_MAX) :
    ∃ s, runSynth K sc events = some s ∧ Tiles 0 (segments s.log) sc := by
  obtain ⟨s, h1, h2, h3⟩ := doWhile_rule sc (RenderInv sc)
    (loopBody_renderInv sc) (fun s _ hlt => loopBody_consumes sc hsc s hlt)
    ((eventBlock events).length + 1)
    { from_frame := 0, to_frame := 0, pending := eventBlock events, log := forwardControls K }
    ⟨⟨rfl, Nat.zero_le _⟩, by simp [segments_forwardControls, Tiles]⟩
    (Nat.lt_succ_self _)
  refine ⟨s, h1, ?_⟩
  obtain ⟨⟨e1, e2⟩, ht⟩ := h2
  have : s.from_frame = sc := by omega
  rw [this] at ht
  exact ht

theorem runSynth_single_at (K sc t : Nat) (e : snd_seq_event_t) (he : e.tick = t)
    (h0 : 0 < t) (ht : t < sc) (hsc : sc ≤ ULONG_MAX) :
    (runSynth K sc (some [e])).map (fun s => s.log) =
      some (forwardControls K ++ [⟨MasterCall.GetAudioOutSamples t 0, none⟩] ++ eventLog e
        ++ [⟨MasterCall.GetAudioOutSamples (sc - t) t, none⟩]) := by
  have h1 : ¬ (ULONG_MAX < sc) := by omega
  have h2 : ¬ (sc < sc) := by omega
  have h3 : ¬ (t = sc) := by omega
  simp [runSynth, runSynthFuel, eventBlock, doWhile, loopBody, nextEventFrame, processEvents,
    he, h0, ht, h1, h2, h3]

theorem run_log (K sc : Nat) (hsc : sc ≤ ULONG_MAX) :
    (run K sc).map (fun s => s.log) =
      some (forwardControls K ++
        if sc = 0 then [] else [⟨MasterCall.GetAudioOutSamples sc 0, none⟩]) := by
  have h1 : ¬ (ULONG_MAX < sc) := by omega
  by_cases h : sc = 0
  · subst h
    simp [run, runSynth, runSynthFuel, eventBlock, doWhile, loopBody, nextEventFrame,
      processEvents]
  · have h0 : 0 < sc := by omega
    simp [run, runSynth, runSynthFuel, eventBlock, doWhile, loopBody, nextEventFrame,
      processEvents, h, h0, h1]

/-- C1: the render calls of `runSynth` are segments that start at offset 0,
are never empty, follow each other without gap or overlap and add up to
`sample_count`, whatever the events (sorted or not); one event at tick 128 in
a block of 256 frames gives the segments [0,128) and [128,256); `run(n)`
renders the single segment [0,n) and nothing at all when `n = 0`. -/
theorem C1_render_segments (K sc : Nat) (events : Option (List snd_seq_event_t))
    (hsc : sc ≤ ULONG_MAX) :
    (∃ s, runSynth K sc events = some s ∧
      (∀ x, (segments s.log).head? = some x → x.1 = 0) ∧
      (∀ x ∈ segments s.log, 0 < x.2) ∧
      List.Chain' (fun p q : Nat × Nat => q.1 = p.1 + p.2) (segments s.log) ∧
      ((segments s.log).map Prod.snd).sum = sc ∧
      (sc = 0 → segments s.log = [])) ∧
    (∀ e : snd_seq_event_t, e.tick = 128 →
      (runSynth K 256 (some [e])).map (fun s => segments s.log) = some [(0, 128), (128, 128)]) ∧
    (run K sc).map (fun s => segments s.log) = some (if sc = 0 then [] else [(0, sc)]) := by
  refine ⟨?_, ?_, ?_⟩
  · obtain ⟨s, hs, ht⟩ := runSynth_renderInv K sc events hsc
    refine ⟨s, hs, ht.head, ht.pos, ht.chain, by simpa using ht.sum, ?_⟩
    intro h0
    have hsum := ht.sum
    have hpos := ht.pos
    cases hl : segments s.log with
    | nil => rfl
    | cons x rest =>
      rw [hl] at hsum hpos
      have := hpos x (List.mem_cons_self _ _)
      simp only [List.map_cons, List.sum_cons] at hsum
      omega
  · intro e he
    have h := runSynth_single_at K 256 128 e he (by decide) (by decide) (by decide)
    have h2 := congrArg (Option.map segments) h
    simp only [Option.map_map, Option.map_some', segments_append, segments_forwardControls,
      segments_eventLog, segments_render, List.nil_append, List.append_nil,
      List.singleton_append] at h2
    exact h2
  · have h := run_log K sc hsc
    have h2 := congrArg (Option.map segments) h
    by_cases h0 : sc = 0
    · simp only [h0, if_true, Option.map_map, Option.map_some', segments_append,
        segments_forwardControls, segments_nil, List.append_nil] at h2 ⊢
      exact h2
    · simp only [h0, if_false, Option.map_map, Option.map_some', segments_append,
        segments_forwardControls, segments_render, List.nil_append] at h2 ⊢
      exact h2

/-- C1 at a block of 256 frames holding one note-on at tick 128. -/
theorem C1_render_segments_witness :
    256 ≤ ULONG_MAX ∧
    ((∃ s, runSynth 12 256 (some [mkNoteOn 128 0 60 100]) = some s ∧
      (∀ x, (segments s.log).head? = some x → x.1 = 0) ∧
      (∀ x ∈ segments s.log, 0 < x.2) ∧
      List.Chain' (fun p q : Nat × Nat => q.1 = p.1 + p.2) (segments s.log) ∧
      ((segments s.log).map Prod.snd).sum = 256 ∧
      (256 = 0 → segments s.log = [])) ∧
    (∀ e : snd_seq_event_t, e.tick = 128 →
      (runSynth 12 256 (some [e])).map (fun s => segments s.log) = some [(0, 128), (128, 128)]) ∧
    (run 12 256).map (fun s => segments s.log) = some (if 256 = 0 then [] else [(0, 256)])) :=
  ⟨by decide, C1_render_segments 12 256 (some [mkNoteOn 128 0 60 100]) (by decide)⟩

/-! ## Timing of the event calls -/

theorem framesRendered_append (a b : List Logged) :
    framesRendered (a ++ b) = framesRendered a + framesRendered b := by
  simp [framesRendered, segments_append]

theorem framesRendered_cons (x : Logged) (l : List Logged) :
    framesRendered (x :: l) = framesRendered [x] + framesRendered l :=
  framesRendered_append [x] l

theorem Timed.append {evs : List snd_seq_event_t} {a b : List Logged} {r : Nat}
    (ha : Timed evs r a) (hb : Timed evs (r + framesRendered a) b) :
    Timed evs r (a ++ b) := by
  induction a generalizing r with
  | nil => simpa [framesRendered, segments] using hb
  | cons x rest ih =>
    refine ⟨ha.1, ih ha.2 ?_⟩
    rw [framesRendered_cons, ← Nat.add_assoc] at hb
    exact hb

theorem Timed.split {evs : List snd_seq_event_t} {pre post : List Logged} {x : Logged}
    {r : Nat} (h : Timed evs r (pre ++ x :: post)) (hx : x.call.isEventCall = true) :
    ∃ e, x.cause = some e ∧ eventCall e = some x.call ∧ e ∈ evs ∧
      e.tick = r + framesRendered pre := by
  induction pre generalizing r with
  | nil => simpa [framesRendered, segments] using h.1 hx
  | cons y rest ih =>
    obtain ⟨e, h1, h2, h3, h4⟩ := ih h.2
    exact ⟨e, h1, h2, h3, by rw [h4, framesRendered_cons y rest, Nat.add_assoc]⟩

theorem framesRendered_eventLog (e : snd_seq_event_t) : framesRendered (eventLog e) = 0 := by
  simp [framesRendered, segments_eventLog]

theorem Timed.events {evs : List snd_seq_event_t} (t : Nat) (l : List snd_seq_event_t)
    (hl : ∀ e ∈ l, e ∈ evs ∧ e.tick = t) : Timed evs t (l.flatMap eventLog) := by
  induction l with
  | nil => simp [Timed]
  | cons e rest ih =>
    rw [List.flatMap_cons]
    refine Timed.append ?_ ?_
    · have he := hl e (List.mem_cons_self _ _)
      unfold eventLog
      cases hc : eventCall e with
      | none => simp [Timed]
      | some c => exact ⟨fun _ => ⟨e, rfl, hc, he.1, he.2⟩, trivial⟩
    · rw [framesRendered_eventLog]
      exact ih (fun e1 h1 => hl e1 (List.mem_cons_of_mem _ h1))

theorem Timed.forwardControls (evs : List snd_seq_event_t) (r k : Nat) :
    Timed evs r (forwardControls k) := by
  unfold DSSI.forwardControls
  generalize List.range k = l
  induction l generalizing r with
  | nil => simp [Timed]
  | cons i rest ih => exact ⟨by simp [MasterCall.isEventCall], ih _⟩

theorem framesRendered_forwardControls (k : Nat) : framesRendered (forwardControls k) = 0 := by
  simp [framesRendered, segments_forwardControls]

theorem loopBody_eventInv (evs : List snd_seq_event_t) (sc : Nat) (s : RunState)
    (h : EventInv evs sc s) : EventInv evs sc (loopBody sc s) := by
  obtain ⟨hh, hf, hp, ht⟩ := h
  have hge := loopBody_to_frame_ge sc s hh
  have hfrom : framesRendered
      (s.log ++ (if s.from_frame < (loopBody sc s).to_frame then
          [⟨MasterCall.GetAudioOutSamples ((loopBody sc s).to_frame - s.from_frame)
              s.from_frame, none⟩]
         else [])) = (loopBody sc s).to_frame := by
    rw [framesRendered_append, hf]
    split_ifs with hc
    · simp only [framesRendered, segments_render, List.map_cons, List.map_nil, List.sum_cons,
        List.sum_nil]
      omega
    · have := hh.1
      simp only [framesRendered, segments_nil, List.map_nil, List.sum_nil]
      omega
  have hat := loopBody_atHead sc s hh
  refine ⟨hat, ?_, ?_, ?_⟩
  · rw [loopBody_log, framesRendered_append, hfrom]
    have : framesRendered ((s.pending.takeWhile
        (fun e => decide (e.tick = (loopBody sc s).to_frame))).flatMap eventLog) = 0 := by
      simp [framesRendered, segments_flatMap_eventLog]
    rw [this, hat.1]
    rfl
  · intro e he
    rw [loopBody_pending] at he
    exact hp e ((List.dropWhile_sublist _).subset he)
  · rw [loopBody_log]
    refine Timed.append (Timed.append ht ?_) ?_
    · split_ifs
      · exact ⟨by simp [MasterCall.isEventCall], trivial⟩
      · trivial
    · rw [hfrom, Nat.zero_add]
      refine Timed.events _ _ ?_
      intro e he
      refine ⟨hp e ((List.takeWhile_sublist _).subset he), ?_⟩
      simpa using List.mem_takeWhile_imp he

theorem runSynth_eventInv (K sc : Nat) (events : Option (List snd_seq_event_t))
    (hsc : sc ≤ ULONG_MAX) :
    ∃ s, runSynth K sc events = some s ∧ Timed (eventBlock events) 0 s.log := by
  obtain ⟨s, h1, h2, _⟩ := doWhile_rule sc (EventInv (eventBlock events) sc)
    (loopBody_eventInv (eventBlock events) sc)
    (fun s _ hlt => loopBody_consumes sc hsc s hlt)
    ((eventBlock events).length + 1)
    { from_frame := 0, to_frame := 0, pending := eventBlock events, log := forwardControls K }
    ⟨⟨rfl, Nat.zero_le _⟩, framesRendered_forwardControls K, fun _ h => h,
      Timed.forwardControls _ _ _⟩
    (Nat.lt_succ_self _)
  exact ⟨s, h1, h2.2.2.2⟩

/-- C2: every `noteOn` / `noteOff` / `setController` call comes from an event
of the block whose tick equals the number of frames rendered before the call;
with a note-on at tick 0 and a note-off at tick 64 in a block of 128 frames the
synthesizer sees the note-on, then frames [0,64), then the note-off, then
frames [64,128). -/
theorem C2_event_timing (K sc : Nat) (events : Option (List snd_seq_event_t))
    (hsc : sc ≤ ULONG_MAX) :
    (∃ s, runSynth K sc events = some s ∧
      ∀ pre x post, s.log = pre ++ x :: post → x.call.isEventCall = true →
        ∃ e, x.cause = some e ∧ eventCall e = some x.call ∧ e ∈ eventBlock events ∧
          framesRendered pre = e.tick) ∧
    (∀ ch : Nat,
      (runSynth K 128 (some [mkNoteOn 0 ch 60 100, mkNoteOff 64 ch 60])).map
          (fun s => s.log.map Logged.call) =
        some ((forwardControls K).map Logged.call ++
          [MasterCall.noteOn ch 60 100, MasterCall.GetAudioOutSamples 64 0,
           MasterCall.noteOff ch 60, MasterCall.GetAudioOutSamples 64 64])) := by
  refine ⟨?_, ?_⟩
  · obtain ⟨s, hs, ht⟩ := runSynth_eventInv K sc events hsc
    refine ⟨s, hs, ?_⟩
    intro pre x post hlog hx
    rw [hlog] at ht
    obtain ⟨e, h1, h2, h3, h4⟩ := ht.split hx
    exact ⟨e, h1, h2, h3, by omega⟩
  · intro ch
    simp [runSynth, runSynthFuel, eventBlock, doWhile, loopBody, nextEventFrame, processEvents,
      mkNoteOn, mkNoteOff, eventLog, eventCall, SND_SEQ_EVENT_NOTEON, SND_SEQ_EVENT_NOTEOFF,
      SND_SEQ_EVENT_CONTROLLER, ULONG_MAX]

/-- C2 at a block of 128 frames with a note-on at tick 0 and a note-off at tick 64. -/
theorem C2_event_timing_witness :
    128 ≤ ULONG_MAX ∧
    ((∃ s, runSynth 12 128 (some [mkNoteOn 0 0 60 100, mkNoteOff 64 0 60]) = some s ∧
      ∀ pre x post, s.log = pre ++ x :: post → x.call.isEventCall = true →
        ∃ e, x.cause = some e ∧ eventCall e = some x.call ∧
          e ∈ eventBlock (some [mkNoteOn 0 0 60 100, mkNoteOff 64 0 60]) ∧
          framesRendered pre = e.tick) ∧
    (∀ ch : Nat,
      (runSynth 12 128 (some [mkNoteOn 0 ch 60 100, mkNoteOff 64 ch 60])).map
          (fun s => s.log.map Logged.call) =
        some ((forwardControls 12).map Logged.call ++
          [MasterCall.noteOn ch 60 100, MasterCall.GetAudioOutSamples 64 0,
           MasterCall.noteOff ch 60, MasterCall.GetAudioOutSamples 64 64]))) :=
  ⟨by decide,
    C2_event_timing 12 128 (some [mkNoteOn 0 0 60 100, mkNoteOff 64 0 60]) (by decide)⟩

/-! ## The event calls of a sorted block -/

theorem eventCalls_append (a b : List Logged) :
    eventCalls (a ++ b) = eventCalls a ++ eventCalls b := by
  simp [eventCalls]

theorem eventCalls_eventLog (e : snd_seq_event_t) :
    eventCalls (eventLog e) = (eventCall e).toList := by
  unfold eventLog eventCall
  split_ifs <;> simp [eventCalls, MasterCall.isEventCall]

theorem eventCalls_flatMap_eventLog (l : List snd_seq_event_t) :
    eventCalls (l.flatMap eventLog) = l.filterMap eventCall := by
  induction l with
  | nil => simp [eventCalls]
  | cons e rest ih =>
    rw [List.flatMap_cons, eventCalls_append, eventCalls_eventLog, ih]
    cases h : eventCall e <;> simp [List.filterMap_cons, h]

theorem eventCalls_forwardControls (k : Nat) : eventCalls (forwardControls k) = [] := by
  simp [eventCalls, forwardControls, List.filter_eq_nil_iff, MasterCall.isEventCall]

theorem eventCalls_render (n off : Nat) :
    eventCalls [⟨MasterCall.GetAudioOutSamples n off, none⟩] = [] := rfl

theorem loopBody_to_frame_sorted (sc : Nat) (s : RunState) (e : snd_seq_event_t)
    (rest : List snd_seq_event_t) (hp : s.pending = e :: rest)
    (h1 : s.to_frame ≤ e.tick) (h2 : e.tick < sc) : (loopBody sc s).to_frame = e.tick := by
  rw [loopBody_to_frame, hp]
  simp [nextEventFrame, h1, h2]

theorem loopBody_sortedInv (l : List snd_seq_event_t) (sc : Nat)
    (s : RunState) (h : SortedInv l sc s) : SortedInv l sc (loopBody sc s) := by
  obtain ⟨hh, hpw, hb, hc⟩ := h
  refine ⟨loopBody_atHead sc s hh, ?_, ?_, ?_⟩
  · rw [loopBody_pending]
    exact hpw.sublist (List.dropWhile_sublist _)
  · intro e he
    rw [loopBody_pending] at he
    refine ⟨?_, (hb e ((List.dropWhile_sublist _).subset he)).2⟩
    cases hp : s.pending with
    | nil => rw [hp] at he; simp at he
    | cons e0 rest =>
      have h0 := hb e0 (by rw [hp]; exact List.mem_cons_self _ _)
      rw [loopBody_to_frame_sorted sc s e0 rest hp h0.1 h0.2]
      rw [hp] at he hpw
      have hmem := (List.dropWhile_sublist _).subset he
      rcases List.mem_cons.1 hmem with rfl | hr
      · exact le_rfl
      · exact (List.pairwise_cons.1 hpw).1 e hr
  · rw [loopBody_log, eventCalls_append, eventCalls_append, eventCalls_flatMap_eventLog,
      loopBody_pending]
    have hr : eventCalls (if s.from_frame < (loopBody sc s).to_frame then
          [⟨MasterCall.GetAudioOutSamples ((loopBody sc s).to_frame - s.from_frame)
              s.from_frame, none⟩]
         else []) = [] := by
      split_ifs <;> rfl
    rw [hr, List.append_nil, List.append_assoc, ← List.filterMap_append,
      List.takeWhile_append_dropWhile]
    exact hc

/-- C3: when the ticks of the block are non-decreasing and all below
`sample_count`, the `noteOn` / `noteOff` / `setController` calls are the block
mapped event by event in the order supplied (note-on, note-off and controller
events give their call, any other type gives none), and no event is left
unprocessed; events with the same tick keep their input order. -/
theorem C3_sorted_events_applied_in_order (K sc : Nat) (l : List snd_seq_event_t)
    (hsc : sc ≤ ULONG_MAX)
    (hsorted : List.Pairwise (fun a b : snd_seq_event_t => a.tick ≤ b.tick) l)
    (hbelow : ∀ e ∈ l, e.tick < sc) :
    (∃ s, runSynth K sc (some l) = some s ∧ s.pending = [] ∧
      eventCalls s.log = l.filterMap eventCall) ∧
    (∀ e : snd_seq_event_t, eventCall e =
      if e.type = SND_SEQ_EVENT_NOTEON then
        some (MasterCall.noteOn e.note.channel e.note.note e.note.velocity)
      else if e.type = SND_SEQ_EVENT_NOTEOFF then
        some (MasterCall.noteOff e.note.channel e.note.note)
      else if e.type = SND_SEQ_EVENT_CONTROLLER then
        some (MasterCall.setController e.control.channel e.control.param e.control.value)
      else none) := by
  refine ⟨?_, fun e => rfl⟩
  obtain ⟨s, h1, h2, h3⟩ := doWhile_rule sc (SortedInv l sc)
    (loopBody_sortedInv l sc)
    (fun s _ hlt => loopBody_consumes sc hsc s hlt)
    (l.length + 1)
    { from_frame := 0, to_frame := 0, pending := l, log := forwardControls K }
    ⟨⟨rfl, Nat.zero_le _⟩, hsorted, fun e he => ⟨Nat.zero_le _, hbelow e he⟩,
      by simp [eventCalls_forwardControls]⟩
    (Nat.lt_succ_self _)
  obtain ⟨_, _, hb, hc⟩ := h2
  have hp : s.pending = [] := by
    cases hp : s.pending with
    | nil => rfl
    | cons e rest =>
      have := hb e (by rw [hp]; exact List.mem_cons_self _ _)
      omega
  refine ⟨s, h1, hp, ?_⟩
  rw [hp] at hc
  simpa using hc

/-- C3 at a block of 128 frames with three events, two of them at tick 64. -/
theorem C3_sorted_events_applied_in_order_witness :
    128 ≤ ULONG_MAX ∧
    List.Pairwise (fun a b : snd_seq_event_t => a.tick ≤ b.tick)
      [mkNoteOn 0 0 60 100, mkNoteOn 64 1 62 90, mkNoteOff 64 0 60] ∧
    (∀ e ∈ [mkNoteOn 0 0 60 100, mkNoteOn 64 1 62 90, mkNoteOff 64 0 60], e.tick < 128) ∧
    ((∃ s, runSynth 12 128 (some [mkNoteOn 0 0 60 100, mkNoteOn 64 1 62 90, mkNoteOff 64 0 60])
        = some s ∧ s.pending = [] ∧
      eventCalls s.log =
        [mkNoteOn 0 0 60 100, mkNoteOn 64 1 62 90, mkNoteOff 64 0 60].filterMap eventCall) ∧
    (∀ e : snd_seq_event_t, eventCall e =
      if e.type = SND_SEQ_EVENT_NOTEON then
        some (MasterCall.noteOn e.note.channel e.note.note e.note.velocity)
      else if e.type = SND_SEQ_EVENT_NOTEOFF then
        some (MasterCall.noteOff e.note.channel e.note.note)
      else if e.type = SND_SEQ_EVENT_CONTROLLER then
        some (MasterCall.setController e.control.channel e.control.param e.control.value)
      else none)) :=
  ⟨by decide, by simp [mkNoteOn, mkNoteOff], by simp [mkNoteOn, mkNoteOff],
    C3_sorted_events_applied_in_order 12 128
      [mkNoteOn 0 0 60 100, mkNoteOn 64 1 62 90, mkNoteOff 64 0 60] (by decide)
      (by simp [mkNoteOn, mkNoteOff]) (by simp [mkNoteOn, mkNoteOff])⟩

end DSSI

/-! # Properties of `handleMidi` -/

namespace Jack

theorem mod256_and (x m : Nat) (hm : m &&& 255 = m) : (x % 256) &&& m = x &&& m := by
  have h : x % 256 = x &&& 255 := (Nat.and_pow_two_sub_one_eq_mod x 8).symm
  rw [h, Nat.and_assoc, Nat.and_comm 255 m, hm]

theorem and7F_le (x : Nat) : x &&& 0x7F ≤ 127 := Nat.and_le_right

theorem handleMidi_single (eng : JackEngine) (cpw : Int) (e : jack_midi_event_t)
    (hport : eng.midi_inport ≠ none) :
    handleMidi eng cpw [e] = handleMidiEvent eng.midi_jack_sync cpw e := by
  unfold handleMidi
  cases h : eng.midi_inport with
  | none => exact absurd h hport
  | some p => simp

theorem loadBuf_three (b0 b1 b2 : Nat) (tail : List Nat) :
    loadBuf (b0 :: b1 :: b2 :: tail) = (b0 % 256, b1 % 256, b2 % 256) := rfl
theorem mod256_and_F0 (x : Nat) : (x % 256) &&& 0xF0 = x &&& 0xF0 := mod256_and x _ (by decide)

theorem mod256_and_0F (x : Nat) : (x % 256) &&& 0x0F = x &&& 0x0F := mod256_and x _ (by decide)

theorem mod256_and_7F (x : Nat) : (x % 256) &&& 0x7F = x &&& 0x7F := mod256_and x _ (by decide)

/-- C4: a message of at least three bytes whose status nibble is 0x80, 0x90,
0xA0, 0xB0 or 0xC0 makes `handleMidi` push exactly one event, on channel
`status & 0x0F` with `num = d1 & 0x7F`: a Note with value 0 for 0x80, a Note
with value `d2 & 0x7F` for 0x90 (velocity 0 included), a Pressure event for
0xA0, a Controller event for 0xB0, a ProgramChange for 0xC0. -/
theorem C4_channel_voice_translation (eng : JackEngine) (C_pitchwheel : Int)
    (time status d1 d2 : Nat) (tail : List Nat)
    (hport : eng.midi_inport ≠ none)
    (hstatus : status &&& 0xF0 = 0x80 ∨ status &&& 0xF0 = 0x90 ∨ status &&& 0xF0 = 0xA0 ∨
      status &&& 0xF0 = 0xB0 ∨ status &&& 0xF0 = 0xC0) :
    ∃ ev, handleMidi eng C_pitchwheel [⟨time, status :: d1 :: d2 :: tail⟩] = [Emitted.putEvent ev] ∧
      ev.channel = ((status &&& 0x0F : Nat) : Int) ∧
      ev.num = ((d1 &&& 0x7F : Nat) : Int) ∧
      (status &&& 0xF0 = 0x80 → ev.type = midi_type.M_NOTE ∧ ev.value = 0) ∧
      (status &&& 0xF0 = 0x90 →
        ev.type = midi_type.M_NOTE ∧ ev.value = ((d2 &&& 0x7F : Nat) : Int)) ∧
      (status &&& 0xF0 = 0xA0 →
        ev.type = midi_type.M_PRESSURE ∧ ev.value = ((d2 &&& 0x7F : Nat) : Int)) ∧
      (status &&& 0xF0 = 0xB0 →
        ev.type = midi_type.M_CONTROLLER ∧ ev.value = ((d2 &&& 0x7F : Nat) : Int)) ∧
      (status &&& 0xF0 = 0xC0 → ev.type = midi_type.M_PGMCHANGE) := by
  rw [handleMidi_single eng C_pitchwheel _ hport]
  unfold handleMidiEvent
  simp only [loadBuf_three, mod256_and_F0, mod256_and_0F, mod256_and_7F]
  rcases hstatus with h | h | h | h | h <;> simp [h]

/-- C4 at the note-on message (0x93, 60, 0), velocity 0, with the MIDI port open. -/
theorem C4_channel_voice_translation_witness :
    (⟨some 1, (some 2, some 3), 48000, 256, some 4, true, some 5, 48000, 256⟩ :
        JackEngine).midi_inport ≠ none ∧
    (0x93 &&& 0xF0 = 0x80 ∨ 0x93 &&& 0xF0 = 0x90 ∨ 0x93 &&& 0xF0 = 0xA0 ∨
      0x93 &&& 0xF0 = 0xB0 ∨ 0x93 &&& 0xF0 = 0xC0) ∧
    ∃ ev, handleMidi ⟨some 1, (some 2, some 3), 48000, 256, some 4, true, some 5, 48000, 256⟩
        1000 [⟨7, 0x93 :: 60 :: 0 :: []⟩] = [Emitted.putEvent ev] ∧
      ev.channel = ((0x93 &&& 0x0F : Nat) : Int) ∧
      ev.num = ((60 &&& 0x7F : Nat) : Int) ∧
      (0x93 &&& 0xF0 = 0x80 → ev.type = midi_type.M_NOTE ∧ ev.value = 0) ∧
      (0x93 &&& 0xF0 = 0x90 →
        ev.type = midi_type.M_NOTE ∧ ev.value = ((0 &&& 0x7F : Nat) : Int)) ∧
      (0x93 &&& 0xF0 = 0xA0 →
        ev.type = midi_type.M_PRESSURE ∧ ev.value = ((0 &&& 0x7F : Nat) : Int)) ∧
      (0x93 &&& 0xF0 = 0xB0 →
        ev.type = midi_type.M_CONTROLLER ∧ ev.value = ((0 &&& 0x7F : Nat) : Int)) ∧
      (0x93 &&& 0xF0 = 0xC0 → ev.type = midi_type.M_PGMCHANGE) :=
  ⟨by decide, by decide,
    C4_channel_voice_translation _ 1000 7 0x93 60 0 [] (by decide) (by decide)⟩
theorem loadBuf_getD (buffer : List Nat) :
    loadBuf buffer = (buffer.getD 0 0 % 256, buffer.getD 1 0 % 256, buffer.getD 2 0 % 256) := rfl

theorem pitch_raw_lt (lo hi : Nat) : ((hi &&& 0x7F) <<< 7) ||| (lo &&& 0x7F) < 16384 := by
  have h1 : hi &&& 0x7F ≤ 127 := and7F_le hi
  have h2 : lo &&& 0x7F ≤ 127 := and7F_le lo
  have h3 : (hi &&& 0x7F) <<< 7 < 2 ^ 14 := by
    rw [Nat.shiftLeft_eq]
    omega
  have h4 : lo &&& 0x7F < 2 ^ 14 := by omega
  exact Nat.or_lt_two_pow h3 h4

/-- The event pushed for a pitch-bend message. -/
theorem handleMidi_pitch_bend (eng : JackEngine) (C_pitchwheel : Int) (time : Nat)
    (buffer : List Nat) (hport : eng.midi_inport ≠ none)
    (hstatus : buffer.getD 0 0 &&& 0xF0 = 0xE0) :
    ∃ ev, handleMidi eng C_pitchwheel [⟨time, buffer⟩] = [Emitted.putEvent ev] ∧
      ev.type = midi_type.M_CONTROLLER ∧ ev.num = C_pitchwheel ∧
      ev.value =
        ((((buffer.getD 2 0 &&& 0x7F) <<< 7) ||| (buffer.getD 1 0 &&& 0x7F) : Nat) : Int)
          - 8192 := by
  rw [handleMidi_single eng C_pitchwheel _ hport]
  unfold handleMidiEvent
  simp only [loadBuf_getD, mod256_and_F0, mod256_and_0F, mod256_and_7F, hstatus]
  exact ⟨_, rfl, rfl, rfl, rfl⟩

/-- C5: a message whose status nibble is 0xE0 makes `handleMidi` push exactly
one Controller event numbered `C_pitchwheel` whose value is
`(((hi & 0x7F) << 7) | (lo & 0x7F)) - 8192`, between -8192 and 8191; the
messages (0xE0, 0x00, 0x40), (0xE0, 0x7F, 0x7F) and (0xE0, 0x00, 0x00) give
the values 0, 8191 and -8192. -/
theorem C5_pitch_bend_value (eng : JackEngine) (C_pitchwheel : Int) (time : Nat)
    (buffer : List Nat) (hport : eng.midi_inport ≠ none)
    (hstatus : buffer.getD 0 0 &&& 0xF0 = 0xE0) :
    (∃ ev, handleMidi eng C_pitchwheel [⟨time, buffer⟩] = [Emitted.putEvent ev] ∧
      ev.type = midi_type.M_CONTROLLER ∧ ev.num = C_pitchwheel ∧
      ev.value =
        ((((buffer.getD 2 0 &&& 0x7F) <<< 7) ||| (buffer.getD 1 0 &&& 0x7F) : Nat) : Int)
          - 8192 ∧
      -8192 ≤ ev.value ∧ ev.value ≤ 8191) ∧
    (∃ ev, handleMidi eng C_pitchwheel [⟨time, [0xE0, 0x00, 0x40]⟩] = [Emitted.putEvent ev] ∧
      ev.num = C_pitchwheel ∧ ev.value = 0) ∧
    (∃ ev, handleMidi eng C_pitchwheel [⟨time, [0xE0, 0x7F, 0x7F]⟩] = [Emitted.putEvent ev] ∧
      ev.num = C_pitchwheel ∧ ev.value = 8191) ∧
    (∃ ev, handleMidi eng C_pitchwheel [⟨time, [0xE0, 0x00, 0x00]⟩] = [Emitted.putEvent ev] ∧
      ev.num = C_pitchwheel ∧ ev.value = -8192) := by
  refine ⟨?_, ?_, ?_, ?_⟩
  · obtain ⟨ev, h1, h2, h3, h4⟩ :=
      handleMidi_pitch_bend eng C_pitchwheel time buffer hport hstatus
    have hlt := pitch_raw_lt (buffer.getD 1 0) (buffer.getD 2 0)
    refine ⟨ev, h1, h2, h3, h4, ?_, ?_⟩ <;> rw [h4] <;> omega
  · obtain ⟨ev, h1, _, h3, h4⟩ :=
      handleMidi_pitch_bend eng C_pitchwheel time [0xE0, 0x00, 0x40] hport (by decide)
    exact ⟨ev, h1, h3, by rw [h4]; decide⟩
  · obtain ⟨ev, h1, _, h3, h4⟩ :=
      handleMidi_pitch_bend eng C_pitchwheel time [0xE0, 0x7F, 0x7F] hport (by decide)
    exact ⟨ev, h1, h3, by rw [h4]; decide⟩
  · obtain ⟨ev, h1, _, h3, h4⟩ :=
      handleMidi_pitch_bend eng C_pitchwheel time [0xE0, 0x00, 0x00] hport (by decide)
    exact ⟨ev, h1, h3, by rw [h4]; decide⟩

/-- C5 at the pitch-bend message (0xE5, 0x12, 0x34) with the MIDI port open. -/
theorem C5_pitch_bend_value_witness :
    (⟨some 1, (some 2, some 3), 48000, 256, some 4, true, some 5, 48000, 256⟩ :
        JackEngine).midi_inport ≠ none ∧
    ([0xE5, 0x12, 0x34].getD 0 0 &&& 0xF0 = 0xE0) ∧
    ((∃ ev, handleMidi ⟨some 1, (some 2, some 3), 48000, 256, some 4, true, some 5, 48000, 256⟩
        1000 [⟨3, [0xE5, 0x12, 0x34]⟩] = [Emitted.putEvent ev] ∧
      ev.type = midi_type.M_CONTROLLER ∧ ev.num = 1000 ∧
      ev.value =
        (((([0xE5, 0x12, 0x34].getD 2 0 &&& 0x7F) <<< 7) |||
          ([0xE5, 0x12, 0x34].getD 1 0 &&& 0x7F) : Nat) : Int) - 8192 ∧
      -8192 ≤ ev.value ∧ ev.value ≤ 8191) ∧
    (∃ ev, handleMidi ⟨some 1, (some 2, some 3), 48000, 256, some 4, true, some 5, 48000, 256⟩
        1000 [⟨3, [0xE0, 0x00, 0x40]⟩] = [Emitted.putEvent ev] ∧
      ev.num = 1000 ∧ ev.value = 0) ∧
    (∃ ev, handleMidi ⟨some 1, (some 2, some 3), 48000, 256, some 4, true, some 5, 48000, 256⟩
        1000 [⟨3, [0xE0, 0x7F, 0x7F]⟩] = [Emitted.putEvent ev] ∧
      ev.num = 1000 ∧ ev.value = 8191) ∧
    (∃ ev, handleMidi ⟨some 1, (some 2, some 3), 48000, 256, some 4, true, some 5, 48000, 256⟩
        1000 [⟨3, [0xE0, 0x00, 0x00]⟩] = [Emitted.putEvent ev] ∧
      ev.num = 1000 ∧ ev.value = -8192)) :=
  ⟨by decide, by decide, C5_pitch_bend_value _ 1000 3 [0xE5, 0x12, 0x34] (by decide) (by decide)⟩
theorem rawWindows_wellRanged (cpw : Int) (l : List Nat) :
    ∀ x ∈ rawWindows l, x.WellRanged cpw := by
  induction l using rawWindows.induct with
  | case1 b0 b1 b2 rest ih =>
    intro x hx
    simp only [rawWindows, List.mem_cons] at hx
    rcases hx with rfl | hx
    · simp only [Emitted.WellRanged]; omega
    · exact ih x hx
  | case2 b0 b1 =>
    intro x hx
    simp only [rawWindows, List.mem_singleton] at hx
    subst hx
    simp only [Emitted.WellRanged]; omega
  | case3 b0 =>
    intro x hx
    simp only [rawWindows, List.mem_singleton] at hx
    subst hx
    simp only [Emitted.WellRanged]; omega
  | case4 => intro x hx; simp [rawWindows] at hx

theorem handleMidiEvent_wellRanged (sync : Bool) (cpw : Int) (e : jack_midi_event_t) :
    ∀ x ∈ handleMidiEvent sync cpw e, x.WellRanged cpw := by
  intro x hx
  unfold handleMidiEvent at hx
  simp only [] at hx
  have h1 := and7F_le (loadBuf e.buffer).2.1
  have h2 := and7F_le (loadBuf e.buffer).2.2
  split_ifs at hx <;>
    first
    | exact rawWindows_wellRanged cpw _ x hx
    | (simp only [List.mem_singleton] at hx
       subst hx
       simp only [Emitted.WellRanged]
       first
       | (left; omega)
       | (right; exact ⟨trivial, _, _, h1, h2, rfl⟩))

/-- C6, as the code has it: every event `handleMidi` pushes carries data
masked to 7 bits (`num` and `value` in 0..127; for pitch bend the value is
composed of two halves in 0..127), while the raw handler on the path of the
other status bytes is given the bytes of the buffer unmasked, each in 0..255:
a message (0xF0, b1, b2) reaches it as `midiProcess(0xF0, b1, b2)`. -/
theorem C6_masking_amended (eng : JackEngine) (C_pitchwheel : Int)
    (midi_buf : List jack_midi_event_t) :
    (∀ x ∈ handleMidi eng C_pitchwheel midi_buf, x.WellRanged C_pitchwheel) ∧
    (∀ (sync : Bool) (time b1 b2 : Nat),
      handleMidiEvent sync C_pitchwheel ⟨time, [0xF0, b1, b2]⟩ =
        [Emitted.midiProcess 0xF0 (b1 % 256) (b2 % 256)]) := by
  refine ⟨?_, ?_⟩
  · intro x hx
    unfold handleMidi at hx
    cases hp : eng.midi_inport with
    | none => rw [hp] at hx; simp at hx
    | some p =>
      rw [hp] at hx
      obtain ⟨e, _, he⟩ := List.mem_flatMap.1 hx
      exact handleMidiEvent_wellRanged _ _ e x he
  · intro sync time b1 b2
    have e1 : (240 % 256) &&& 240 = 240 := by decide
    simp [handleMidiEvent, loadBuf_three, rawWindows, e1]

/-- C6 as stated fails: the data bytes of the message (0xF0, 0xFF, 0xFF) reach
the raw handler as 0xFF, above 127. -/
theorem C6_masking_counterexample :
    ¬ (∀ x ∈ handleMidi ⟨some 1, (some 2, some 3), 48000, 256, some 4, true, some 5, 48000, 256⟩
          1000 [⟨0, [0xF0, 0xFF, 0xFF]⟩],
        ∀ b ∈ x.rawData, b ≤ 127) := by
  decide

end Jack

/-! # Properties of opening and closing the subsystems -/

namespace Jack

/-! ## `Start` and failing opens -/

theorem openMidi_true (r : Env) (w : Sys) (h : (openMidi r w).1 = true) :
    getMidiEn (openMidi r w).2.eng = true := by
  obtain ⟨ok1, ok2, ok3, okp, bs, srate, ac, phys, md, fph⟩ := r
  obtain ⟨⟨jc, ⟨a0, a1⟩, sr, nf, mi, js, osc, s, b⟩, ⟨ce, ca, ports, nh⟩, calls⟩ := w
  cases mi <;> cases a0 <;> cases jc <;> cases ok1 <;> cases ok2 <;> cases ok3 <;>
    cases h1 : okp "midi_input" <;>
    simp [openMidi, getAudioEn, getMidiEn, portRegister, Sys.call, connectJack, connectServer,
      JackServer.register, JackServer.openClient, h1] at h ⊢

/-- A failing `openAudio` while MIDI is open only tries the two
registrations: the MIDI port pointer is kept, the log grows by the two
`jack_port_register` calls, and no port known to the server is touched. -/
theorem openAudio_fails_midi_open (r : Env) (v : Sys) (hm : getMidiEn v.eng = true)
    (hf : (openAudio r v).1 = false) :
    (openAudio r v).2.eng.midi_inport = v.eng.midi_inport ∧
    (openAudio r v).2.eng.jackClient = v.eng.jackClient ∧
    (openAudio r v).2.calls =
      v.calls ++ [HostCall.jack_port_register "out_1", HostCall.jack_port_register "out_2"] ∧
    ∀ h, h < v.srv.next_handle → (openAudio r v).2.srv.ports h = v.srv.ports h := by
  obtain ⟨ok1, ok2, ok3, okp, bs, srate, ac, phys, md, fph⟩ := r
  obtain ⟨⟨jc, ⟨a0, a1⟩, sr, nf, mi, js, osc, s, b⟩, ⟨ce, ca, ports, nh⟩, calls⟩ := v
  simp only [getMidiEn] at hm
  cases mi with
  | none => simp at hm
  | some m =>
    cases a0 with
    | some a => simp [openAudio, getAudioEn] at hf
    | none =>
      cases jc <;> cases h1 : okp "out_1" <;> cases h2 : okp "out_2" <;>
        simp [openAudio, getAudioEn, getMidiEn, portRegister, Sys.call, openAudioRegistered,
          JackServer.register, h1, h2] at hf ⊢
      all_goals
        intro h hh
        have e1 : h ≠ nh := by omega
        have e2 : h ≠ nh + 1 := by omega
        simp [e1, e2]

/-- C7, as the code has it: `Start` returns true iff `openMidi` and then
`openAudio` both return true, `openAudio` being tried only after `openMidi`
succeeded; on partial failure nothing is closed: when `openMidi` succeeds and
`openAudio` fails, `Start` returns false with MIDI still open (`getMidiEn()`
true, `midi.inport` and the client kept), the failed `openAudio` having made
no library call but the two registrations and touched no existing port. -/
theorem C7_start_amended (r : Env) (w : Sys) :
    ((Start r w).1 = true ↔
      (openMidi r w).1 = true ∧ (openAudio r (openMidi r w).2).1 = true) ∧
    ((openMidi r w).1 = false → Start r w = (false, (openMidi r w).2)) ∧
    ((openMidi r w).1 = true → (openAudio r (openMidi r w).2).1 = false →
      (Start r w).1 = false ∧ getMidiEn (Start r w).2.eng = true ∧
      (Start r w).2.eng.midi_inport = (openMidi r w).2.eng.midi_inport ∧
      (Start r w).2.eng.jackClient = (openMidi r w).2.eng.jackClient ∧
      (Start r w).2.calls = (openMidi r w).2.calls ++
        [HostCall.jack_port_register "out_1", HostCall.jack_port_register "out_2"] ∧
      ∀ h, h < (openMidi r w).2.srv.next_handle →
        (Start r w).2.srv.ports h = (openMidi r w).2.srv.ports h) := by
  refine ⟨?_, ?_, ?_⟩
  · by_cases hm : (openMidi r w).1 = true
    · simp [Start, hm]
    · simp [Start, hm]
  · intro hm
    unfold Start
    simp [hm]
  · intro hm ha
    have hs : Start r w = openAudio r (openMidi r w).2 := by
      unfold Start
      simp [hm]
    have hen := openMidi_true r w hm
    obtain ⟨h1, h2, h3, h4⟩ := openAudio_fails_midi_open r (openMidi r w).2 hen ha
    rw [hs]
    refine ⟨ha, ?_, h1, h2, h3, h4⟩
    unfold getMidiEn at hen ⊢
    rw [h1]
    exact hen

/-- C7 as stated fails: with `midi_input` granted and the audio ports refused,
`openMidi` succeeds, `openAudio` fails, and after `Start` has returned false
MIDI is still open and `midi_input` still registered. -/
theorem C7_start_counterexample :
    ¬ (∀ (r : Env) (w : Sys), (openMidi r w).1 = true →
        (openAudio r (openMidi r w).2).1 = false →
        (Start r w).1 = false ∧ getMidiEn (Start r w).2.eng = false ∧
          ¬ registered "midi_input" (Start r w).2) := by
  intro h
  have h1 := h (refusing ["out_1", "out_2"]) (fresh 48000 256) (by decide) (by decide)
  exact absurd h1.2.1 (by decide)

/-- C8, as the code has it: when `openAudio` returns false, audio was not open
before; `getAudioEn()` is false afterwards whenever `out_1` was refused or the
connection failed before the registrations; nothing is undone: the MIDI port
pointer is kept, a client that was connected stays connected, and so does a
client this call connected. -/
theorem C8_failed_openAudio_amended (r : Env) (w : Sys) (hf : (openAudio r w).1 = false) :
    getAudioEn w.eng = false ∧
    (r.port_register_ok "out_1" = false → getAudioEn (openAudio r w).2.eng = false) ∧
    (getMidiEn w.eng = false → (connectJack r w).1 = false →
      getAudioEn (openAudio r w).2.eng = false) ∧
    (w.eng.jackClient.isSome = true → (openAudio r w).2.eng.jackClient.isSome = true) ∧
    (getMidiEn w.eng = false → r.client_open_ok = true →
      (openAudio r w).2.eng.jackClient.isSome = true) ∧
    (openAudio r w).2.eng.midi_inport = w.eng.midi_inport := by
  obtain ⟨ok1, ok2, ok3, okp, bs, srate, ac, phys, md, fph⟩ := r
  obtain ⟨⟨jc, ⟨a0, a1⟩, sr, nf, mi, js, osc, s, b⟩, ⟨ce, ca, ports, nh⟩, calls⟩ := w
  cases a0 with
  | some a => simp [openAudio, getAudioEn] at hf
  | none =>
    cases mi <;> cases jc <;> cases ok1 <;> cases ok2 <;> cases ok3 <;>
      cases h1 : okp "out_1" <;> cases h2 : okp "out_2" <;>
      simp [openAudio, getAudioEn, getMidiEn, portRegister, Sys.call, openAudioRegistered,
        connectJack, connectServer, JackServer.register, JackServer.openClient, h1, h2] at hf ⊢

/-- C8 (amended) at the constructed engine when the registration of `out_1` is refused. -/
theorem C8_failed_openAudio_amended_witness :
    (openAudio (refusing ["out_1"]) (fresh 48000 256)).1 = false ∧
    getAudioEn (fresh 48000 256).eng = false ∧
    ((refusing ["out_1"]).port_register_ok "out_1" = false →
      getAudioEn (openAudio (refusing ["out_1"]) (fresh 48000 256)).2.eng = false) ∧
    (getMidiEn (fresh 48000 256).eng = false →
      (connectJack (refusing ["out_1"]) (fresh 48000 256)).1 = false →
      getAudioEn (openAudio (refusing ["out_1"]) (fresh 48000 256)).2.eng = false) ∧
    ((fresh 48000 256).eng.jackClient.isSome = true →
      (openAudio (refusing ["out_1"]) (fresh 48000 256)).2.eng.jackClient.isSome = true) ∧
    (getMidiEn (fresh 48000 256).eng = false → (refusing ["out_1"]).client_open_ok = true →
      (openAudio (refusing ["out_1"]) (fresh 48000 256)).2.eng.jackClient.isSome = true) ∧
    (openAudio (refusing ["out_1"]) (fresh 48000 256)).2.eng.midi_inport
      = (fresh 48000 256).eng.midi_inport :=
  ⟨by decide, C8_failed_openAudio_amended (refusing ["out_1"]) (fresh 48000 256) (by decide)⟩

/-- C8 as stated fails: when `out_1` is granted and `out_2` refused,
`openAudio` returns false, yet `getAudioEn()` is true afterwards and the
client connected for this open is still connected. -/
theorem C8_failed_openAudio_counterexample :
    ¬ (∀ (r : Env) (w : Sys), (openAudio r w).1 = false →
        getAudioEn (openAudio r w).2.eng = false ∧
          (w.eng.jackClient = none → (openAudio r w).2.eng.jackClient = none)) := by
  intro h
  have h1 := h (refusing ["out_2"]) (fresh 48000 256) (by decide)
  exact absurd h1.1 (by decide)

/-- C9 at the failing input: with MIDI and audio open, after one `stopAudio`
the audio ports are gone and the pointer `osc.oscport` is stale; a second
`stopAudio` leaves the engine as it is but calls `jack_port_unregister` on
that stale port once more. -/
theorem C9_second_stopAudio_calls_host :
    getMidiEn (runOps (fresh 48000 256)
      [(Op.openMidi, allOk false none false), (Op.openAudio, allOk false none false),
       (Op.stopAudio, allOk false none false)]).eng = true ∧
    (runOps (fresh 48000 256)
      [(Op.openMidi, allOk false none false), (Op.openAudio, allOk false none false),
       (Op.stopAudio, allOk false none false)]).eng.osc_oscport = some 4 ∧
    (runOps (fresh 48000 256)
      [(Op.openMidi, allOk false none false), (Op.openAudio, allOk false none false),
       (Op.stopAudio, allOk false none false)]).srv.ports 4 = none ∧
    (stopAudio (allOk false none false) (runOps (fresh 48000 256)
      [(Op.openMidi, allOk false none false), (Op.openAudio, allOk false none false),
       (Op.stopAudio, allOk false none false)])).eng =
      (runOps (fresh 48000 256)
      [(Op.openMidi, allOk false none false), (Op.openAudio, allOk false none false),
       (Op.stopAudio, allOk false none false)]).eng ∧
    (stopAudio (allOk false none false) (runOps (fresh 48000 256)
      [(Op.openMidi, allOk false none false), (Op.openAudio, allOk false none false),
       (Op.stopAudio, allOk false none false)])).calls =
      (runOps (fresh 48000 256)
      [(Op.openMidi, allOk false none false), (Op.openAudio, allOk false none false),
       (Op.stopAudio, allOk false none false)]).calls ++ [HostCall.jack_port_unregister 4] := by
  decide

/-! ## The server's view of the ports under registration and unregistration -/

theorem owns_reg_self {ports : Nat → Option String} {nh : Nat} (n : String)
    (h : ∀ x, ports x = some n ↔ (none : Option Nat) = some x) :
    ∀ x, (if x = nh then some n else ports x) = some n ↔ some nh = some x := by
  intro x
  by_cases hx : x = nh
  · simp [hx]
  · have := h x
    simp only [hx, if_false, Option.some.injEq]
    constructor
    · intro hp; exact absurd (this.1 hp) (by simp)
    · intro he; exact absurd he.symm hx

theorem owns_reg_other {ports : Nat → Option String} {nh : Nat} {oh : Option Nat}
    (n n1 : String) (hf : ∀ h, nh ≤ h → ports h = none)
    (h : ∀ x, ports x = some n ↔ oh = some x) (hne : n1 ≠ n) :
    ∀ x, (if x = nh then some n1 else ports x) = some n ↔ oh = some x := by
  intro x
  by_cases hx : x = nh
  · subst hx
    have hnone := hf x (le_refl _)
    have := h x
    rw [hnone] at this
    simp only [if_true, Option.some.injEq]
    constructor
    · intro he; exact absurd he hne
    · intro he; exact absurd (this.2 he) (by simp)
  · simp only [hx, if_false]
    exact h x

theorem owns_unreg_self {ports : Nat → Option String} {a : Nat} (n : String)
    (h : ∀ x, ports x = some n ↔ some a = some x) :
    ∀ x, (if x = a then none else ports x) = some n ↔ (none : Option Nat) = some x := by
  intro x
  by_cases hx : x = a
  · simp [hx]
  · simp only [hx, if_false]
    constructor
    · intro hp
      have := (h x).1 hp
      exact absurd (Option.some.inj this).symm hx
    · intro he; exact absurd he (by simp)

theorem owns_unreg_other {ports : Nat → Option String} {a : Nat} {oh : Option Nat} (n : String)
    (h : ∀ x, ports x = some n ↔ oh = some x) (hne : oh ≠ some a) :
    ∀ x, (if x = a then none else ports x) = some n ↔ oh = some x := by
  intro x
  by_cases hx : x = a
  · subst hx
    simp only [if_true]
    constructor
    · intro hp; exact absurd hp (by simp)
    · intro he; exact absurd he hne
  · simp only [hx, if_false]
    exact h x

theorem owns_handle_ne {ports : Nat → Option String} {n1 n2 : String} {x : Nat} {oh : Option Nat}
    (h1 : ∀ h, ports h = some n1 ↔ some x = some h)
    (h2 : ∀ h, ports h = some n2 ↔ oh = some h) (hn : n1 ≠ n2) : oh ≠ some x := by
  intro he
  have e1 := (h1 x).2 rfl
  have e2 := (h2 x).2 he
  rw [e1] at e2
  exact hn (Option.some.inj e2)

theorem owns_handle_ne_osc {ports : Nat → Option String} {n : String} {o : Nat} {oh : Option Nat}
    (h1 : ports o = none ∨ ports o = some "osc")
    (h2 : ∀ h, ports h = some n ↔ oh = some h) (hn : n ≠ "osc") : oh ≠ some o := by
  intro he
  have e2 := (h2 o).2 he
  rcases h1 with h1 | h1 <;> rw [e2] at h1
  · exact absurd h1 (by simp)
  · exact hn (Option.some.inj h1)

theorem SrvInv.register_out1 {srv : JackServer} {a1 m osc : Option Nat}
    (h : SrvInv srv none a1 m osc) :
    SrvInv (srv.register "out_1") (some srv.next_handle) a1 m osc := by
  obtain ⟨hf, h0, h1, hm, ho⟩ := h
  refine ⟨?_, owns_reg_self _ h0, owns_reg_other _ _ hf h1 (by decide),
    owns_reg_other _ _ hf hm (by decide), ?_⟩
  · intro x hx
    simp only [JackServer.register] at hx ⊢
    rw [if_neg (by omega)]
    exact hf x (by omega)
  · intro o hoo
    obtain ⟨hlt, hp⟩ := ho o hoo
    simp only [JackServer.register]
    rw [if_neg (by omega)]
    exact ⟨by omega, hp⟩

theorem SrvInv.register_out2 {srv : JackServer} {a0 m osc : Option Nat}
    (h : SrvInv srv a0 none m osc) :
    SrvInv (srv.register "out_2") a0 (some srv.next_handle) m osc := by
  obtain ⟨hf, h0, h1, hm, ho⟩ := h
  refine ⟨?_, owns_reg_other _ _ hf h0 (by decide), owns_reg_self _ h1,
    owns_reg_other _ _ hf hm (by decide), ?_⟩
  · intro x hx
    simp only [JackServer.register] at hx ⊢
    rw [if_neg (by omega)]
    exact hf x (by omega)
  · intro o hoo
    obtain ⟨hlt, hp⟩ := ho o hoo
    simp only [JackServer.register]
    rw [if_neg (by omega)]
    exact ⟨by omega, hp⟩

theorem SrvInv.register_midi {srv : JackServer} {a0 a1 osc : Option Nat}
    (h : SrvInv srv a0 a1 none osc) :
    SrvInv (srv.register "midi_input") a0 a1 (some srv.next_handle) osc := by
  obtain ⟨hf, h0, h1, hm, ho⟩ := h
  refine ⟨?_, owns_reg_other _ _ hf h0 (by decide), owns_reg_other _ _ hf h1 (by decide),
    owns_reg_self _ hm, ?_⟩
  · intro x hx
    simp only [JackServer.register] at hx ⊢
    rw [if_neg (by omega)]
    exact hf x (by omega)
  · intro o hoo
    obtain ⟨hlt, hp⟩ := ho o hoo
    simp only [JackServer.register]
    rw [if_neg (by omega)]
    exact ⟨by omega, hp⟩

theorem SrvInv.register_osc {srv : JackServer} {a0 a1 m osc : Option Nat}
    (h : SrvInv srv a0 a1 m osc) :
    SrvInv (srv.register "osc") a0 a1 m (some srv.next_handle) := by
  obtain ⟨hf, h0, h1, hm, _⟩ := h
  refine ⟨?_, owns_reg_other _ _ hf h0 (by decide), owns_reg_other _ _ hf h1 (by decide),
    owns_reg_other _ _ hf hm (by decide), ?_⟩
  · intro x hx
    simp only [JackServer.register] at hx ⊢
    rw [if_neg (by omega)]
    exact hf x (by omega)
  · intro o hoo
    cases hoo
    simp [JackServer.register]

theorem SrvInv.unregister_keeps_osc {srv : JackServer} {osc : Option Nat} (a : Nat)
    (ho : ∀ o, osc = some o →
      o < srv.next_handle ∧ (srv.ports o = none ∨ srv.ports o = some "osc")) :
    ∀ o, osc = some o →
      o < (srv.unregister a).next_handle ∧
        ((srv.unregister a).ports o = none ∨ (srv.unregister a).ports o = some "osc") := by
  intro o hoo
  obtain ⟨hlt, hp⟩ := ho o hoo
  refine ⟨hlt, ?_⟩
  simp only [JackServer.unregister]
  by_cases hx : o = a
  · simp [hx]
  · simpa [hx] using hp

theorem SrvInv.unregister_fresh {srv : JackServer} (a : Nat)
    (hf : ∀ h, srv.next_handle ≤ h → srv.ports h = none) :
    ∀ h, (srv.unregister a).next_handle ≤ h → (srv.unregister a).ports h = none := by
  intro x hx
  simp only [JackServer.unregister] at hx ⊢
  split_ifs
  · rfl
  · exact hf x hx

theorem SrvInv.unregister_out1 {srv : JackServer} {a : Nat} {a1 m osc : Option Nat}
    (h : SrvInv srv (some a) a1 m osc) : SrvInv (srv.unregister a) none a1 m osc := by
  obtain ⟨hf, h0, h1, hm, ho⟩ := h
  exact ⟨SrvInv.unregister_fresh a hf, owns_unreg_self _ h0,
    owns_unreg_other _ h1 (owns_handle_ne h0 h1 (by decide)),
    owns_unreg_other _ hm (owns_handle_ne h0 hm (by decide)),
    SrvInv.unregister_keeps_osc a ho⟩

theorem SrvInv.unregister_out2 {srv : JackServer} {a : Nat} {a0 m osc : Option Nat}
    (h : SrvInv srv a0 (some a) m osc) : SrvInv (srv.unregister a) a0 none m osc := by
  obtain ⟨hf, h0, h1, hm, ho⟩ := h
  exact ⟨SrvInv.unregister_fresh a hf,
    owns_unreg_other _ h0 (owns_handle_ne h1 h0 (by decide)), owns_unreg_self _ h1,
    owns_unreg_other _ hm (owns_handle_ne h1 hm (by decide)),
    SrvInv.unregister_keeps_osc a ho⟩

theorem SrvInv.unregister_midi {srv : JackServer} {a : Nat} {a0 a1 osc : Option Nat}
    (h : SrvInv srv a0 a1 (some a) osc) : SrvInv (srv.unregister a) a0 a1 none osc := by
  obtain ⟨hf, h0, h1, hm, ho⟩ := h
  exact ⟨SrvInv.unregister_fresh a hf,
    owns_unreg_other _ h0 (owns_handle_ne hm h0 (by decide)),
    owns_unreg_other _ h1 (owns_handle_ne hm h1 (by decide)), owns_unreg_self _ hm,
    SrvInv.unregister_keeps_osc a ho⟩

theorem SrvInv.unregister_osc {srv : JackServer} {o : Nat} {a0 a1 m : Option Nat}
    (h : SrvInv srv a0 a1 m (some o)) : SrvInv (srv.unregister o) a0 a1 m (some o) := by
  obtain ⟨hf, h0, h1, hm, ho⟩ := h
  have hp := (ho o rfl).2
  exact ⟨SrvInv.unregister_fresh o hf,
    owns_unreg_other _ h0 (owns_handle_ne_osc hp h0 (by decide)),
    owns_unreg_other _ h1 (owns_handle_ne_osc hp h1 (by decide)),
    owns_unreg_other _ hm (owns_handle_ne_osc hp hm (by decide)),
    SrvInv.unregister_keeps_osc o ho⟩

theorem SrvInv.closeClient {srv : JackServer} {a0 a1 m osc : Option Nat}
    (h : SrvInv srv a0 a1 m osc) : SrvInv srv.closeClient none none none osc := by
  obtain ⟨_, _, _, _, ho⟩ := h
  refine ⟨fun _ _ => rfl, ?_, ?_, ?_, fun o hoo => ⟨(ho o hoo).1, Or.inl rfl⟩⟩ <;>
    intro x <;> simp [JackServer.closeClient]

theorem SrvInv.openClient {srv : JackServer} {a0 a1 m osc : Option Nat}
    (h : SrvInv srv a0 a1 m osc) : SrvInv (srv.openClient none) none none none osc := by
  obtain ⟨_, _, _, _, ho⟩ := h
  refine ⟨fun _ _ => rfl, ?_, ?_, ?_, fun o hoo => ⟨?_, Or.inl rfl⟩⟩
  · intro x; simp [JackServer.openClient]
  · intro x; simp [JackServer.openClient]
  · intro x; simp [JackServer.openClient]
  · have := (ho o hoo).1
    simp only [JackServer.openClient]
    omega

/-! ## The invariant under the four operations -/

theorem Env.succeeds_eq {r : Env} (hr : r.succeeds) :
    r = { r with client_open_ok := true, set_process_callback_ok := true, activate_ok := true,
                 port_register_ok := fun _ => true } := by
  obtain ⟨ok1, ok2, ok3, okp, bs, srate, ac, phys, md, fph⟩ := r
  obtain ⟨h1, h2, h3, h4⟩ := hr
  simp only at h1 h2 h3 h4
  have h5 : okp = fun _ => true := funext h4
  subst h1 h2 h3 h5
  rfl

theorem openAudio_inv (r : Env) (hr : r.succeeds) (hfresh : r.first_port_handle = none)
    (w : Sys) (hw : Inv w) :
    Inv (openAudio r w).2 ∧ getAudioEn (openAudio r w).2.eng = true ∧
      (openAudio r w).2.eng.midi_inport = w.eng.midi_inport := by
  rw [Env.succeeds_eq hr]
  obtain ⟨ok1, ok2, ok3, okp, bs, srate, ac, phys, md, fph⟩ := r
  simp only at hfresh
  subst hfresh
  obtain ⟨⟨jc, ⟨a0, a1⟩, sr, nf, mi, js, osc, s, b⟩, srv, calls⟩ := w
  obtain ⟨hS, h1, h2, h3⟩ := hw
  simp only [getAudioEn, getMidiEn] at hS h1 h2 h3
  cases jc <;> cases a0 <;> cases a1 <;> cases mi <;> simp at h2 h3
  · cases ac <;> cases md <;> cases phys <;>
      exact ⟨⟨hS.openClient.register_out1.register_out2.register_osc, rfl, rfl, rfl⟩, rfl, rfl⟩
  · cases ac <;> cases md <;> cases phys <;>
      exact ⟨⟨hS.register_out1.register_out2.register_osc, h1, rfl, rfl⟩, rfl, rfl⟩
  · exact ⟨⟨hS, h1, rfl, rfl⟩, rfl, rfl⟩
  · exact ⟨⟨hS, h1, rfl, rfl⟩, rfl, rfl⟩

theorem openMidi_inv (r : Env) (hr : r.succeeds) (hfresh : r.first_port_handle = none)
    (w : Sys) (hw : Inv w) :
    Inv (openMidi r w).2 ∧ getMidiEn (openMidi r w).2.eng = true ∧
      (openMidi r w).2.eng.audio_ports = w.eng.audio_ports := by
  rw [Env.succeeds_eq hr]
  obtain ⟨ok1, ok2, ok3, okp, bs, srate, ac, phys, md, fph⟩ := r
  simp only at hfresh
  subst hfresh
  obtain ⟨⟨jc, ⟨a0, a1⟩, sr, nf, mi, js, osc, s, b⟩, srv, calls⟩ := w
  obtain ⟨hS, h1, h2, h3⟩ := hw
  simp only [getAudioEn, getMidiEn] at hS h1 h2 h3
  cases jc <;> cases a0 <;> cases a1 <;> cases mi <;> simp at h2 h3
  · exact ⟨⟨hS.openClient.register_midi, rfl, rfl, rfl⟩, rfl, rfl⟩
  · exact ⟨⟨hS, h1, rfl, rfl⟩, rfl, rfl⟩
  · exact ⟨⟨hS.register_midi, h1, rfl, rfl⟩, rfl, rfl⟩
  · exact ⟨⟨hS, h1, rfl, rfl⟩, rfl, rfl⟩

theorem stopAudio_inv (r : Env) (w : Sys) (hw : Inv w) :
    Inv (stopAudio r w) ∧ getAudioEn (stopAudio r w).eng = false ∧
      (stopAudio r w).eng.midi_inport = w.eng.midi_inport := by
  obtain ⟨ok1, ok2, ok3, okp, bs, srate, ac, phys, md, fph⟩ := r
  obtain ⟨⟨jc, ⟨a0, a1⟩, sr, nf, mi, js, osc, s, b⟩, srv, calls⟩ := w
  obtain ⟨hS, h1, h2, h3⟩ := hw
  simp only [getAudioEn, getMidiEn] at hS h1 h2 h3
  cases jc <;> cases a0 <;> cases a1 <;> cases mi <;> simp at h2 h3
  · cases osc <;> exact ⟨⟨hS, h1, rfl, rfl⟩, rfl, rfl⟩
  · cases osc <;> cases md
    · exact ⟨⟨hS, h1, rfl, rfl⟩, rfl, rfl⟩
    · exact ⟨⟨hS, h1, rfl, rfl⟩, rfl, rfl⟩
    · exact ⟨⟨hS.unregister_osc, h1, rfl, rfl⟩, rfl, rfl⟩
    · exact ⟨⟨hS.unregister_osc, h1, rfl, rfl⟩, rfl, rfl⟩
  · cases osc <;> cases md
    · exact ⟨⟨hS.unregister_out1.unregister_out2.closeClient, rfl, rfl, rfl⟩, rfl, rfl⟩
    · exact ⟨⟨hS.unregister_out1.unregister_out2.closeClient, rfl, rfl, rfl⟩, rfl, rfl⟩
    · exact ⟨⟨hS.unregister_out1.unregister_out2.unregister_osc.closeClient, rfl, rfl, rfl⟩,
        rfl, rfl⟩
    · exact ⟨⟨hS.unregister_out1.unregister_out2.unregister_osc.closeClient, rfl, rfl, rfl⟩,
        rfl, rfl⟩
  · cases osc <;> cases md
    · exact ⟨⟨hS.unregister_out1.unregister_out2, h1, rfl, rfl⟩, rfl, rfl⟩
    · exact ⟨⟨hS.unregister_out1.unregister_out2, h1, rfl, rfl⟩, rfl, rfl⟩
    · exact ⟨⟨hS.unregister_out1.unregister_out2.unregister_osc, h1, rfl, rfl⟩, rfl, rfl⟩
    · exact ⟨⟨hS.unregister_out1.unregister_out2.unregister_osc, h1, rfl, rfl⟩, rfl, rfl⟩

theorem stopMidi_inv (w : Sys) (hw : Inv w) :
    Inv (stopMidi w) ∧ getMidiEn (stopMidi w).eng = false ∧
      (stopMidi w).eng.audio_ports = w.eng.audio_ports := by
  obtain ⟨⟨jc, ⟨a0, a1⟩, sr, nf, mi, js, osc, s, b⟩, srv, calls⟩ := w
  obtain ⟨hS, h1, h2, h3⟩ := hw
  simp only [getAudioEn, getMidiEn] at hS h1 h2 h3
  cases jc <;> cases a0 <;> cases a1 <;> cases mi <;> simp at h2 h3
  · exact ⟨⟨hS, h1, rfl, rfl⟩, rfl, rfl⟩
  · exact ⟨⟨hS.unregister_midi.closeClient, rfl, rfl, rfl⟩, rfl, rfl⟩
  · exact ⟨⟨hS, h1, rfl, rfl⟩, rfl, rfl⟩
  · exact ⟨⟨hS.unregister_midi, h1, rfl, rfl⟩, rfl, rfl⟩

theorem fresh_inv (sr bs : Nat) : Inv (fresh sr bs) := by
  refine ⟨⟨fun _ _ => rfl, ?_, ?_, ?_, ?_⟩, rfl, rfl, rfl⟩
  · intro x; simp [fresh]
  · intro x; simp [fresh]
  · intro x; simp [fresh]
  · intro o ho; simp [fresh] at ho

theorem Op.apply_inv (op : Op) (r : Env) (hr : r.succeeds)
    (hfresh : r.first_port_handle = none) (w : Sys) (hw : Inv w) :
    Inv (op.apply r w) := by
  cases op
  · exact (openAudio_inv r hr hfresh w hw).1
  · exact (openMidi_inv r hr hfresh w hw).1
  · exact (stopAudio_inv r w hw).1
  · exact (stopMidi_inv w hw).1

theorem runOps_inv (ops : List (Op × Env)) (hok : ∀ p ∈ ops, p.2.succeeds)
    (hfresh : ∀ p ∈ ops, p.2.first_port_handle = none) (w : Sys)
    (hw : Inv w) : Inv (runOps w ops) := by
  induction ops generalizing w with
  | nil => exact hw
  | cons p rest ih =>
    obtain ⟨op, r⟩ := p
    exact ih (fun q hq => hok q (List.mem_cons_of_mem _ hq))
      (fun q hq => hfresh q (List.mem_cons_of_mem _ hq)) _
      (Op.apply_inv op r (hok (op, r) (List.mem_cons_self _ _))
        (hfresh (op, r) (List.mem_cons_self _ _)) w hw)

theorem Inv.registered_out1 {w : Sys} (hw : Inv w) :
    registered "out_1" w ↔ getAudioEn w.eng = true := by
  obtain ⟨⟨_, h0, _, _, _⟩, _, _, _⟩ := hw
  unfold registered getAudioEn
  constructor
  · rintro ⟨h, hp⟩; rw [(h0 h).1 hp]; rfl
  · intro he
    obtain ⟨h, hh⟩ := Option.isSome_iff_exists.1 he
    exact ⟨h, (h0 h).2 hh⟩

theorem Inv.registered_out2 {w : Sys} (hw : Inv w) :
    registered "out_2" w ↔ getAudioEn w.eng = true := by
  obtain ⟨⟨_, _, h1, _, _⟩, _, _, h3⟩ := hw
  unfold registered getAudioEn
  rw [h3]
  constructor
  · rintro ⟨h, hp⟩; rw [(h1 h).1 hp]; rfl
  · intro he
    obtain ⟨h, hh⟩ := Option.isSome_iff_exists.1 he
    exact ⟨h, (h1 h).2 hh⟩

theorem Inv.registered_midi {w : Sys} (hw : Inv w) :
    registered "midi_input" w ↔ getMidiEn w.eng = true := by
  obtain ⟨⟨_, _, _, hm, _⟩, _, _, _⟩ := hw
  unfold registered getMidiEn
  constructor
  · rintro ⟨h, hp⟩; rw [(hm h).1 hp]; rfl
  · intro he
    obtain ⟨h, hh⟩ := Option.isSome_iff_exists.1 he
    exact ⟨h, (hm h).2 hh⟩

/-- What the invariant says of one state: the client and the ports follow the
open subsystems. -/
theorem Inv.summary {w : Sys} (hw : Inv w) :
    (w.eng.jackClient.isSome = true ↔ getAudioEn w.eng = true ∨ getMidiEn w.eng = true) ∧
    (w.srv.client_exists = true ↔ getAudioEn w.eng = true ∨ getMidiEn w.eng = true) ∧
    (registered "out_1" w ↔ getAudioEn w.eng = true) ∧
    (registered "out_2" w ↔ getAudioEn w.eng = true) ∧
    (registered "midi_input" w ↔ getMidiEn w.eng = true) := by
  have h2 := hw.2.2.1
  have h1 := hw.2.1
  refine ⟨?_, ?_, hw.registered_out1, hw.registered_out2, hw.registered_midi⟩
  · rw [h2]; simp
  · rw [h1, h2]; simp

/-- As long as the server hands no handle out a second time, the ports follow
the subsystems: from the constructed engine, after any sequence of
`openAudio`, `openMidi`, `stopAudio`, `stopMidi` in which every connection and
registration succeeds, the client is connected iff audio or MIDI is open,
`out_1` and `out_2` are registered iff audio is open and `midi_input` iff MIDI
is open.  Opening audio alone registers `out_1`, `out_2` and not `midi_input`;
opening MIDI too registers all three; closing audio then leaves `midi_input`
with the client connected; closing MIDI as well disconnects the client. -/
theorem ports_follow_subsystems_of_unused_handles (samplerate bufferSize : Nat)
    (ops : List (Op × Env)) (hok : ∀ p ∈ ops, p.2.succeeds)
    (hfresh : ∀ p ∈ ops, p.2.first_port_handle = none) :
    ((runOps (fresh samplerate bufferSize) ops).eng.jackClient.isSome = true ↔
      getAudioEn (runOps (fresh samplerate bufferSize) ops).eng = true ∨
      getMidiEn (runOps (fresh samplerate bufferSize) ops).eng = true) ∧
    ((runOps (fresh samplerate bufferSize) ops).srv.client_exists = true ↔
      getAudioEn (runOps (fresh samplerate bufferSize) ops).eng = true ∨
      getMidiEn (runOps (fresh samplerate bufferSize) ops).eng = true) ∧
    (registered "out_1" (runOps (fresh samplerate bufferSize) ops) ↔
      getAudioEn (runOps (fresh samplerate bufferSize) ops).eng = true) ∧
    (registered "out_2" (runOps (fresh samplerate bufferSize) ops) ↔
      getAudioEn (runOps (fresh samplerate bufferSize) ops).eng = true) ∧
    (registered "midi_input" (runOps (fresh samplerate bufferSize) ops) ↔
      getMidiEn (runOps (fresh samplerate bufferSize) ops).eng = true) ∧
    (∀ r1 r2 r3 : Env, r1.succeeds → r2.succeeds → r3.succeeds →
      r1.first_port_handle = none → r2.first_port_handle = none →
      (registered "out_1" (runOps (fresh samplerate bufferSize) [(Op.openAudio, r1)]) ∧
       registered "out_2" (runOps (fresh samplerate bufferSize) [(Op.openAudio, r1)]) ∧
       ¬ registered "midi_input" (runOps (fresh samplerate bufferSize) [(Op.openAudio, r1)])) ∧
      (registered "out_1"
          (runOps (fresh samplerate bufferSize) [(Op.openAudio, r1), (Op.openMidi, r2)]) ∧
       registered "out_2"
          (runOps (fresh samplerate bufferSize) [(Op.openAudio, r1), (Op.openMidi, r2)]) ∧
       registered "midi_input"
          (runOps (fresh samplerate bufferSize) [(Op.openAudio, r1), (Op.openMidi, r2)])) ∧
      (¬ registered "out_1" (runOps (fresh samplerate bufferSize)
          [(Op.openAudio, r1), (Op.openMidi, r2), (Op.stopAudio, r3)]) ∧
       ¬ registered "out_2" (runOps (fresh samplerate bufferSize)
          [(Op.openAudio, r1), (Op.openMidi, r2), (Op.stopAudio, r3)]) ∧
       registered "midi_input" (runOps (fresh samplerate bufferSize)
          [(Op.openAudio, r1), (Op.openMidi, r2), (Op.stopAudio, r3)]) ∧
       (runOps (fresh samplerate bufferSize)
          [(Op.openAudio, r1), (Op.openMidi, r2), (Op.stopAudio, r3)]).eng.jackClient.isSome
            = true ∧
       (runOps (fresh samplerate bufferSize)
          [(Op.openAudio, r1), (Op.openMidi, r2), (Op.stopAudio, r3)]).srv.client_exists
            = true) ∧
      ((runOps (fresh samplerate bufferSize)
          [(Op.openAudio, r1), (Op.openMidi, r2), (Op.stopAudio, r3),
           (Op.stopMidi, r3)]).eng.jackClient = none ∧
       (runOps (fresh samplerate bufferSize)
          [(Op.openAudio, r1), (Op.openMidi, r2), (Op.stopAudio, r3),
           (Op.stopMidi, r3)]).srv.client_exists = false)) := by
  have hmain := (runOps_inv ops hok hfresh _ (fresh_inv samplerate bufferSize)).summary
  refine ⟨hmain.1, hmain.2.1, hmain.2.2.1, hmain.2.2.2.1, hmain.2.2.2.2, ?_⟩
  intro r1 r2 r3 hr1 hr2 hr3 hf1 hf2
  have i0 := fresh_inv samplerate bufferSize
  obtain ⟨i1, a1, m1⟩ := openAudio_inv r1 hr1 hf1 _ i0
  obtain ⟨i2, m2, a2⟩ := openMidi_inv r2 hr2 hf2 _ i1
  obtain ⟨i3, a3, m3⟩ := stopAudio_inv r3 _ i2
  obtain ⟨i4, m4, a4⟩ := stopMidi_inv _ i3
  have e1 : getMidiEn (openAudio r1 (fresh samplerate bufferSize)).2.eng = false := by
    unfold getMidiEn; rw [m1]; rfl
  have e2 : getAudioEn (openMidi r2 (openAudio r1 (fresh samplerate bufferSize)).2).2.eng
      = true := by
    unfold getAudioEn at a1 ⊢; rw [a2]; exact a1
  have e3 : getMidiEn
      (stopAudio r3 (openMidi r2 (openAudio r1 (fresh samplerate bufferSize)).2).2).eng
      = true := by
    unfold getMidiEn at m2 ⊢; rw [m3]; exact m2
  have e4 : getAudioEn (stopMidi
      (stopAudio r3 (openMidi r2 (openAudio r1 (fresh samplerate bufferSize)).2).2)).eng
      = false := by
    unfold getAudioEn at a3 ⊢; rw [a4]; exact a3
  have s1 := i1.summary
  have s2 := i2.summary
  have s3 := i3.summary
  have s4 := i4.summary
  simp only [runOps, Op.apply]
  refine ⟨⟨s1.2.2.1.2 a1, s1.2.2.2.1.2 a1, ?_⟩, ⟨s2.2.2.1.2 e2, s2.2.2.2.1.2 e2, s2.2.2.2.2.2 m2⟩,
    ⟨?_, ?_, s3.2.2.2.2.2 e3, s3.1.2 (Or.inr e3), s3.2.1.2 (Or.inr e3)⟩, ⟨?_, ?_⟩⟩
  · intro h; have := s1.2.2.2.2.1 h; rw [e1] at this; exact absurd this (by simp)
  · intro h; have := s3.2.2.1.1 h; rw [a3] at this; exact absurd this (by simp)
  · intro h; have := s3.2.2.2.1.1 h; rw [a3] at this; exact absurd this (by simp)
  · have h := s4.1
    rw [e4, m4] at h
    simpa using h
  · have h := s4.2.1
    rw [e4, m4] at h
    simpa using h

/-! ## The stale OSC port pointer and a handle handed out again -/

/-- C10 at the failing input: `openAudio`, `stopAudio`, `openMidi`,
`stopAudio` on the constructed engine, every connection and registration
succeeding, the server giving `midi_input` the handle that the port `osc` of
the closed client had.  The first `stopAudio` leaves `osc.oscport` set; after
`openMidi` the MIDI subsystem is open and `midi_input` registered under that
handle; the last `stopAudio` then calls `jack_port_unregister` on the stale
`osc.oscport`, which removes `midi_input`: MIDI is still open and the client
connected, but `midi_input` is not registered. -/
theorem C10_stale_osc_unregisters_midi :
    (∀ p ∈ [(Op.openAudio, allOk false none false), (Op.stopAudio, allOk false none false),
        (Op.openMidi, handingOutAgain 3), (Op.stopAudio, allOk false none false)],
      p.2.succeeds) ∧
    (runOps (fresh 48000 256)
      [(Op.openAudio, allOk false none false),
       (Op.stopAudio, allOk false none false)]).eng.osc_oscport = some 3 ∧
    (runOps (fresh 48000 256)
      [(Op.openAudio, allOk false none false), (Op.stopAudio, allOk false none false),
       (Op.openMidi, handingOutAgain 3)]).eng.midi_inport = some 3 ∧
    (runOps (fresh 48000 256)
      [(Op.openAudio, allOk false none false), (Op.stopAudio, allOk false none false),
       (Op.openMidi, handingOutAgain 3)]).srv.ports 3 = some "midi_input" ∧
    getMidiEn (runOps (fresh 48000 256)
      [(Op.openAudio, allOk false none false), (Op.stopAudio, allOk false none false),
       (Op.openMidi, handingOutAgain 3), (Op.stopAudio, allOk false none false)]).eng = true ∧
    (runOps (fresh 48000 256)
      [(Op.openAudio, allOk false none false), (Op.stopAudio, allOk false none false),
       (Op.openMidi, handingOutAgain 3),
       (Op.stopAudio, allOk false none false)]).eng.jackClient.isSome = true ∧
    (runOps (fresh 48000 256)
      [(Op.openAudio, allOk false none false), (Op.stopAudio, allOk false none false),
       (Op.openMidi, handingOutAgain 3), (Op.stopAudio, allOk false none false)]).calls =
      (runOps (fresh 48000 256)
        [(Op.openAudio, allOk false none false), (Op.stopAudio, allOk false none false),
         (Op.openMidi, handingOutAgain 3)]).calls ++ [HostCall.jack_port_unregister 3] ∧
    ¬ registered "midi_input" (runOps (fresh 48000 256)
      [(Op.openAudio, allOk false none false), (Op.stopAudio, allOk false none false),
       (Op.openMidi, handingOutAgain 3), (Op.stopAudio, allOk false none false)]) := by
  refine ⟨?_, by decide, by decide, by decide, by decide, by decide, by decide, ?_⟩
  · intro p hp
    simp only [List.mem_cons, List.mem_singleton, List.not_mem_nil, or_false] at hp
    rcases hp with rfl | rfl | rfl | rfl <;> exact ⟨rfl, rfl, rfl, fun _ => rfl⟩
  · rintro ⟨h, hh⟩
    have hports : (runOps (fresh 48000 256)
        [(Op.openAudio, allOk false none false), (Op.stopAudio, allOk false none false),
         (Op.openMidi, handingOutAgain 3), (Op.stopAudio, allOk false none false)]).srv.ports =
        fun p => if p = 3 then none else if p = 3 then some "midi_input" else none := rfl
    rw [hports] at hh
    by_cases h3 : h = 3
    · simp [h3] at hh
    · simp [h3] at hh

end Jack

/-! # Properties of `connectPort` and of the program catalog -/

namespace DSSI

theorem portMinus2_eq (port : Nat) (h2 : 2 ≤ port) (hport : port < 2 ^ 64) :
    portMinus2 port = port - 2 := by
  unfold portMinus2
  omega

/-- C20: `connectPort(i, buf)` stores `buf` in exactly one slot and leaves the
others as they are: port 0 sets the left output pointer, port 1 the right one,
a port `i` with `2 <= i < 2 + MAX_DSSI_CONTROLS` sets the data pointer of
control `i - 2`, and a port from `2 + MAX_DSSI_CONTROLS` on changes nothing. -/
theorem C20_connectPort_frame (K port data : Nat) (s : PortPointers) (hport : port < 2 ^ 64) :
    (port = 0 → connectPort K port data s = { s with outl := data }) ∧
    (port = 1 → connectPort K port data s = { s with outr := data }) ∧
    (2 ≤ port → port < 2 + K →
      (connectPort K port data s).outl = s.outl ∧
      (connectPort K port data s).outr = s.outr ∧
      (connectPort K port data s).dssi_control_data (port - 2) = data ∧
      ∀ j, j ≠ port - 2 →
        (connectPort K port data s).dssi_control_data j = s.dssi_control_data j) ∧
    (2 + K ≤ port → connectPort K port data s = s) := by
  refine ⟨?_, ?_, ?_, ?_⟩
  · intro h
    simp [connectPort, h]
  · intro h
    simp [connectPort, h]
  · intro h2 hk
    have e := portMinus2_eq port h2 hport
    have h0 : port ≠ 0 := by omega
    have h1 : port ≠ 1 := by omega
    have hlt : port - 2 < K := by omega
    simp only [connectPort, h0, h1, if_false, e, hlt, if_true]
    refine ⟨trivial, trivial, ?_, ?_⟩
    · simp
    · intro j hj
      simp [hj]
  · intro hk
    have e := portMinus2_eq port (by omega) hport
    have h0 : port ≠ 0 := by omega
    have h1 : port ≠ 1 := by omega
    have hlt : ¬ (port - 2 < K) := by omega
    simp only [connectPort, h0, h1, if_false, e, hlt]

/-- C20 at port 5 with twelve controls: control 3 receives the pointer. -/
theorem C20_connectPort_frame_witness :
    5 < 2 ^ 64 ∧
    (connectPort 12 5 4096 ⟨1, 2, fun _ => 0⟩).dssi_control_data 3 = 4096 ∧
    (connectPort 12 5 4096 ⟨1, 2, fun _ => 0⟩).outl = 1 ∧
    connectPort 12 14 4096 ⟨1, 2, fun _ => 0⟩ = ⟨1, 2, fun _ => 0⟩ :=
  ⟨by decide,
    ((C20_connectPort_frame 12 5 4096 ⟨1, 2, fun _ => 0⟩ (by decide)).2.2.1
      (by decide) (by decide)).2.2.1,
    ((C20_connectPort_frame 12 5 4096 ⟨1, 2, fun _ => 0⟩ (by decide)).2.2.1
      (by decide) (by decide)).1,
    (C20_connectPort_frame 12 14 4096 ⟨1, 2, fun _ => 0⟩ (by decide)).2.2.2 (by decide)⟩

/-! ## The loop of `getProgram` along the bank list -/

theorem mapNextBank_of_drop_nil (BS : Nat) (banks : List bankstruct) (st : Catalog)
    (h : banks.drop st.bankNoToMap = []) : mapNextBank BS banks st = (false, st) := by
  have hlen : banks.length ≤ st.bankNoToMap := List.drop_eq_nil_iff.1 h
  simp [mapNextBank, List.getElem?_eq_none hlen]

theorem drop_cons_getElem? {banks : List bankstruct} {c : Nat} {b : bankstruct}
    {rest : List bankstruct} (h : banks.drop c = b :: rest) :
    banks[c]? = some b ∧ banks.drop (c + 1) = rest := by
  have hlt : c < banks.length := by
    by_contra hc
    rw [List.drop_eq_nil_iff.2 (by omega)] at h
    exact absurd h (by simp)
  rw [List.drop_eq_getElem_cons hlt] at h
  obtain ⟨h1, h2⟩ := List.cons.inj h
  exact ⟨by rw [List.getElem?_eq_getElem hlt, h1], h2⟩

/-- The loop of `getProgram` ends within `banks.size() + 1` evaluations of its
condition, and its result is the one told along the bank list. -/
theorem mapBanksWhile_eq (BS : Nat) (banks : List bankstruct) (k : Nat) :
    ∀ (fuel : Nat) (st : Catalog), (banks.drop st.bankNoToMap).length < fuel →
      mapBanksWhile BS banks k fuel st =
        some (expand BS k st.bankNoToMap (banks.drop st.bankNoToMap) st.programMap) := by
  intro fuel
  induction fuel with
  | zero => intro st h; omega
  | succ n ih =>
    intro st hlen
    cases hd : banks.drop st.bankNoToMap with
    | nil =>
      by_cases hk : k ≥ st.programMap.length
      · simp [mapBanksWhile, hk, mapNextBank_of_drop_nil BS banks st hd, expand]
      · simp [mapBanksWhile, hk, expand]
    | cons b rest =>
      obtain ⟨hb, hrest⟩ := drop_cons_getElem? hd
      by_cases hk : k ≥ st.programMap.length
      · have hk2 : ¬ k < st.programMap.length := by omega
        by_cases hdir : b.dir = ""
        · simp [mapBanksWhile, hk, mapNextBank, hb, hdir, expand, hk2]
        · have hlen2 : (banks.drop (st.bankNoToMap + 1)).length < n := by
            rw [hd] at hlen
            rw [hrest]
            simp only [List.length_cons] at hlen
            omega
          have := ih ⟨st.programMap ++ bankPrograms BS st.bankNoToMap b, st.bankNoToMap + 1⟩
            hlen2
          simp only [hrest] at this
          simp [mapBanksWhile, hk, mapNextBank, hb, hdir, expand, hk2, this]
      · have hk2 : k < st.programMap.length := by omega
        simp [mapBanksWhile, hk, expand, hk2]

theorem getProgram_eq (BS : Nat) (banks : List bankstruct) (k : Nat) (st : Catalog) :
    getProgram BS banks k st =
      some (if k ≥ (expand BS k st.bankNoToMap (banks.drop st.bankNoToMap)
                st.programMap).programMap.length then none
            else (expand BS k st.bankNoToMap (banks.drop st.bankNoToMap)
                st.programMap).programMap[k]?,
        expand BS k st.bankNoToMap (banks.drop st.bankNoToMap) st.programMap) := by
  unfold getProgram
  rw [mapBanksWhile_eq BS banks k (banks.length + 1) st (by
    rw [List.length_drop]; omega)]
  rfl

theorem expand_of_lt (BS k c : Nat) (rest : List bankstruct) (pm : List ProgramDescriptor)
    (h : k < pm.length) : expand BS k c rest pm = ⟨pm, c⟩ := by
  cases rest <;> simp [expand, h]

theorem expand_extends (BS k : Nat) (rest : List bankstruct) :
    ∀ (c : Nat) (pm : List ProgramDescriptor), pm <+: (expand BS k c rest pm).programMap := by
  induction rest with
  | nil => intro c pm; simp [expand]
  | cons b rest ih =>
    intro c pm
    unfold expand
    split_ifs
    · exact List.prefix_refl _
    · exact List.prefix_refl _
    · exact (List.prefix_append pm _).trans (ih (c + 1) _)

theorem getProgram_extends (BS : Nat) (banks : List bankstruct) (k : Nat) (st : Catalog) :
    ∃ r, getProgram BS banks k st = some r ∧ st.programMap <+: r.2.programMap :=
  ⟨_, getProgram_eq BS banks k st, expand_extends BS k _ _ _⟩

theorem getPrograms_extends (BS : Nat) (banks : List bankstruct) (js : List Nat) :
    ∀ st : Catalog, ∃ st2, getPrograms BS banks js st = some st2 ∧
      st.programMap <+: st2.programMap := by
  induction js with
  | nil => intro st; exact ⟨st, rfl, List.prefix_refl _⟩
  | cons j rest ih =>
    intro st
    obtain ⟨r, hr, hp⟩ := getProgram_extends BS banks j st
    obtain ⟨st2, h2, hp2⟩ := ih r.2
    exact ⟨st2, by simp [getPrograms, hr, h2], hp.trans hp2⟩

/-- A descriptor found in the catalog is returned without any mapping. -/
theorem getProgram_of_mem (BS : Nat) (banks : List bankstruct) (k : Nat) (st : Catalog)
    (d : ProgramDescriptor) (h : st.programMap[k]? = some d) :
    getProgram BS banks k st = some (some d, st) := by
  have hlt : k < st.programMap.length := by
    by_contra hc
    rw [List.getElem?_eq_none (by omega)] at h
    exact absurd h (by simp)
  rw [getProgram_eq, expand_of_lt BS k _ _ _ hlt]
  have : ¬ k ≥ st.programMap.length := by omega
  simp [this, h]

/-- What a returned descriptor says about the catalog afterwards. -/
theorem getProgram_some (BS : Nat) (banks : List bankstruct) (k : Nat) (st st1 : Catalog)
    (d : ProgramDescriptor) (h : getProgram BS banks k st = some (some d, st1)) :
    st1.programMap[k]? = some d := by
  rw [getProgram_eq] at h
  simp only [Option.some.injEq, Prod.mk.injEq] at h
  obtain ⟨h1, h2⟩ := h
  rw [h2] at h1
  split_ifs at h1
  exact h1

/-- C17: the catalog only grows under `getProgram`: the catalog before a call
is a start of the catalog after it.  So once `getProgram(i)` has returned a
descriptor, any run of further `getProgram` calls over the same bank list
leaves `getProgram(i)` returning that same (bank, program, name), never
null. -/
theorem C17_catalog_append_only (BS : Nat) (banks : List bankstruct) (i : Nat) (st : Catalog) :
    (∃ r, getProgram BS banks i st = some r ∧ st.programMap <+: r.2.programMap) ∧
    (∀ (d : ProgramDescriptor) (st1 : Catalog),
      getProgram BS banks i st = some (some d, st1) →
      ∀ js : List Nat, ∃ st2, getPrograms BS banks js st1 = some st2 ∧
        getProgram BS banks i st2 = some (some d, st2)) := by
  refine ⟨getProgram_extends BS banks i st, ?_⟩
  intro d st1 h js
  have h1 := getProgram_some BS banks i st st1 d h
  obtain ⟨st2, h2, hp⟩ := getPrograms_extends BS banks js st1
  refine ⟨st2, h2, getProgram_of_mem BS banks i st2 d ?_⟩
  obtain ⟨t, ht⟩ := hp
  have hlt : i < st1.programMap.length := by
    by_contra hc
    rw [List.getElem?_eq_none (by omega)] at h1
    exact absurd h1 (by simp)
  rw [← ht, List.getElem?_append_left hlt]
  exact h1

/-! ## How far `getProgram` expands the catalog -/

theorem runPrograms_zero (BS c : Nat) (run : List bankstruct) : runPrograms BS c run 0 = [] := by
  cases run <;> rfl

theorem expand_spec (BS k : Nat) (rest : List bankstruct) :
    ∀ (c : Nat) (pm : List ProgramDescriptor),
      ∃ m, m ≤ (rest.takeWhile fun b => b.dir != "").length ∧
        expand BS k c rest pm =
          ⟨pm ++ runPrograms BS c (rest.takeWhile fun b => b.dir != "") m, c + m⟩ ∧
        (∀ j, j < m →
          (pm ++ runPrograms BS c (rest.takeWhile fun b => b.dir != "") j).length ≤ k) ∧
        (k < (pm ++ runPrograms BS c (rest.takeWhile fun b => b.dir != "") m).length ∨
          m = (rest.takeWhile fun b => b.dir != "").length) := by
  induction rest with
  | nil =>
    intro c pm
    exact ⟨0, by simp, by simp [expand, runPrograms], by intro j hj; omega, Or.inr (by simp)⟩
  | cons b rest ih =>
    intro c pm
    by_cases hk : k < pm.length
    · refine ⟨0, Nat.zero_le _, ?_, by intro j hj; omega, Or.inl ?_⟩
      · simp [expand, hk, runPrograms_zero]
      · simpa [runPrograms_zero] using hk
    · by_cases hdir : b.dir = ""
      · refine ⟨0, Nat.zero_le _, ?_, by intro j hj; omega, Or.inr ?_⟩
        · simp [expand, hk, hdir, runPrograms_zero]
        · rw [List.takeWhile_cons_of_neg (by simp [hdir])]
          rfl
      · have htw : (List.takeWhile (fun b : bankstruct => b.dir != "") (b :: rest)) =
            b :: List.takeWhile (fun b : bankstruct => b.dir != "") rest :=
          List.takeWhile_cons_of_pos (by simp [hdir])
        obtain ⟨m, hm, he, hmin, hex⟩ := ih (c + 1) (pm ++ bankPrograms BS c b)
        rw [htw]
        refine ⟨m + 1, by simp only [List.length_cons]; omega, ?_, ?_, ?_⟩
        · simp only [expand, hk, hdir, if_false, he, runPrograms, List.append_assoc]
          congr 1
          omega
        · intro j hj
          cases j with
          | zero => simp only [runPrograms_zero, List.append_nil]; omega
          | succ j =>
            have := hmin j (by omega)
            simpa [runPrograms, List.append_assoc] using this
        · rcases hex with hex | hex
          · left
            simpa [runPrograms, List.append_assoc] using hex
          · right
            simp only [List.length_cons, hex]

theorem mem_bankPrograms (BS c : Nat) (b : bankstruct) (d : ProgramDescriptor) :
    d ∈ bankPrograms BS c b ↔
      d.bank = c ∧ d.program < BS ∧ nameAccepted (b.ins d.program) = true ∧
        d.name = b.ins d.program := by
  unfold bankPrograms
  simp only [List.mem_filterMap, List.mem_range]
  constructor
  · rintro ⟨s, hs, h⟩
    split_ifs at h with ha
    cases h
    exact ⟨rfl, hs, ha, rfl⟩
  · rintro ⟨h1, h2, h3, h4⟩
    refine ⟨d.program, h2, ?_⟩
    simp only [h3, if_true]
    obtain ⟨bk, pr, nm⟩ := d
    simp only at h1 h4
    subst h1 h4
    rfl

theorem bankPrograms_eq_map (BS c : Nat) (b : bankstruct) :
    bankPrograms BS c b =
      ((List.range BS).filter fun slot => nameAccepted (b.ins slot)).map
        fun slot => ⟨c, slot, b.ins slot⟩ := by
  unfold bankPrograms
  generalize List.range BS = l
  induction l with
  | nil => rfl
  | cons s rest ih =>
    by_cases h : nameAccepted (b.ins s) = true
    · simp [List.filterMap_cons, List.filter_cons, h, ih]
    · simp [List.filterMap_cons, List.filter_cons, h, ih]

theorem nameAccepted_iff (n : String) :
    nameAccepted n = true ↔
      n.data ≠ [] ∧ n.data.head? ≠ some (Char.ofNat 0) ∧ n.data.head? ≠ some ' ' := by
  unfold nameAccepted
  cases h : n.data with
  | nil => simp
  | cons c rest => simp

/-- C18, as the code has it: `getProgram(k)` maps the least number `m` of
further banks after which the catalog has more than `k` entries and returns
entry `k`; it maps none when `k` is below the catalog size; it returns null
iff the catalog still has at most `k` entries once every bank that can still
be mapped has been mapped.  The banks that can still be mapped are the entries
of the bank list from the cursor up to the first one whose directory name is
empty.  Each mapped bank contributes, in slot order, one entry
{bank, slot, name} for exactly those of its `BANK_SIZE` slots whose name is
non-empty and begins neither with a NUL character nor with a space. -/
theorem C18_expands_just_enough_amended (BS : Nat) (banks : List bankstruct) (k : Nat)
    (st : Catalog) :
    (∃ m res, m ≤ (mappable banks st.bankNoToMap).length ∧
      getProgram BS banks k st =
        some (res,
          ⟨st.programMap ++ runPrograms BS st.bankNoToMap (mappable banks st.bankNoToMap) m,
            st.bankNoToMap + m⟩) ∧
      (∀ j, j < m →
        (st.programMap ++
          runPrograms BS st.bankNoToMap (mappable banks st.bankNoToMap) j).length ≤ k) ∧
      ((k < (st.programMap ++
            runPrograms BS st.bankNoToMap (mappable banks st.bankNoToMap) m).length ∧
          res = (st.programMap ++
            runPrograms BS st.bankNoToMap (mappable banks st.bankNoToMap) m)[k]?) ∨
        (m = (mappable banks st.bankNoToMap).length ∧
          (st.programMap ++
            runPrograms BS st.bankNoToMap (mappable banks st.bankNoToMap) m).length ≤ k ∧
          res = none))) ∧
    (k < st.programMap.length → getProgram BS banks k st = some (st.programMap[k]?, st)) ∧
    (∀ (c : Nat) (b : bankstruct),
      bankPrograms BS c b =
        ((List.range BS).filter fun slot => nameAccepted (b.ins slot)).map
          fun slot => ⟨c, slot, b.ins slot⟩) ∧
    (∀ n : String, nameAccepted n = true ↔
      n.data ≠ [] ∧ n.data.head? ≠ some (Char.ofNat 0) ∧ n.data.head? ≠ some ' ') := by
  refine ⟨?_, ?_, bankPrograms_eq_map BS, nameAccepted_iff⟩
  · obtain ⟨m, hm, he, hmin, hex⟩ :=
      expand_spec BS k (banks.drop st.bankNoToMap) st.bankNoToMap st.programMap
    rw [getProgram_eq, he]
    unfold mappable
    by_cases hk : k < (st.programMap ++ runPrograms BS st.bankNoToMap
        ((banks.drop st.bankNoToMap).takeWhile fun b => b.dir != "") m).length
    · have hk2 : ¬ k ≥ (st.programMap ++ runPrograms BS st.bankNoToMap
          ((banks.drop st.bankNoToMap).takeWhile fun b => b.dir != "") m).length := by omega
      exact ⟨m, _, hm, rfl, hmin, Or.inl ⟨hk, by simp only [hk2, if_false]⟩⟩
    · have hk2 : k ≥ (st.programMap ++ runPrograms BS st.bankNoToMap
          ((banks.drop st.bankNoToMap).takeWhile fun b => b.dir != "") m).length := by omega
      rcases hex with hex | hex
      · exact absurd hex hk
      · exact ⟨m, _, hm, rfl, hmin, Or.inr ⟨hex, hk2, by simp only [hk2, if_true]⟩⟩
  · intro hk
    rw [getProgram_eq, expand_of_lt BS k _ _ _ hk]
    have hk2 : ¬ k ≥ st.programMap.length := by omega
    simp only [hk2, if_false]

/-- C18 as stated fails on two guards of `mapNextBank`.  An entry of the bank
list with an empty directory name stops the mapping: with such an entry at
index 1 and a bank holding "Piano" at index 2, `getProgram(0)` returns null
and maps nothing, although the remaining banks hold a program.  A name that
begins with a NUL character is non-empty and does not begin with a space, yet
its slot contributes no entry. -/
theorem C18_expands_just_enough_counterexample :
    (getProgram 1
        [oneInstrumentBank "b0" "", oneInstrumentBank "" "", oneInstrumentBank "b2" "Piano"]
        0 Catalog.initial = some (none, Catalog.initial) ∧
      allProgramsAsClaimed 1 1
        ([oneInstrumentBank "b0" "", oneInstrumentBank "" "",
          oneInstrumentBank "b2" "Piano"].drop 1) = [⟨2, 0, "Piano"⟩]) ∧
    (bankPrograms 1 1 (oneInstrumentBank "b1" (String.mk [Char.ofNat 0, 'x'])) = [] ∧
      bankProgramsAsClaimed 1 1 (oneInstrumentBank "b1" (String.mk [Char.ofNat 0, 'x'])) =
        [⟨1, 0, String.mk [Char.ofNat 0, 'x']⟩]) := by
  decide

/-! ## The first program of the catalog -/

end DSSI

/-! # Properties of the process callback -/

namespace Jack

theorem forwarded_append (a b : List CallbackStep) :
    forwarded (a ++ b) = forwarded a ++ forwarded b := by
  simp [forwarded]

theorem forwarded_oscLoop (osc_events : List (Option jack_osc_event_t)) :
    forwarded (oscLoop osc_events) =
      osc_events.filterMap fun o =>
        match o with
        | some event => if event.first = 47 then some (event.first :: event.rest) else none
        | none => none := by
  induction osc_events with
  | nil => rfl
  | cons o rest ih =>
    cases o with
    | none => simpa [oscLoop, List.filterMap_cons] using ih
    | some event =>
      by_cases h : event.first = 47
      · simp [oscLoop, h, forwarded, List.filterMap_cons] at ih ⊢
        exact ih
      · simp [oscLoop, h, forwarded, List.filterMap_cons] at ih ⊢
        exact ih

theorem forwarded_map_stereoCompressor (l : List Nat) :
    forwarded (l.map CallbackStep.stereoCompressor) = [] := by
  induction l with
  | nil => rfl
  | cons a t _ => simp [forwarded, List.filterMap_cons]

theorem forwarded_processAudio (eng : JackEngine)
    (osc_events : List (Option jack_osc_event_t)) (port_buffers : Option Nat × Option Nat)
    (comp : Bool) :
    forwarded (processAudio eng osc_events port_buffers comp).2 =
      forwarded (oscLoop osc_events) := by
  obtain ⟨b0, b1⟩ := port_buffers
  cases b0 <;> cases b1 <;> cases comp <;>
    simp [processAudio, forwarded_append, forwarded_map_stereoCompressor] <;>
    simp [forwarded]

/-- C12: the messages `processAudio` passes to the realtime OSC applicator
are exactly the events of the block that can be retrieved and whose first
byte is `/`, each once and in buffer order; a bundle is never forwarded and an
event that cannot be retrieved is skipped without effect on the others.  This
holds whatever the audio port buffers are. -/
theorem C12_osc_filter (eng : JackEngine) (osc_events : List (Option jack_osc_event_t))
    (port_buffers : Option Nat × Option Nat) (comp : Bool) :
    forwarded (processAudio eng osc_events port_buffers comp).2 =
      (osc_events.filterMap fun o =>
        match o with
        | some event => if event.first = 47 then some (event.first :: event.rest) else none
        | none => none) ∧
    (∀ msg, msg ∈ forwarded (processAudio eng osc_events port_buffers comp).2 →
      msg.head? = some 47) ∧
    (∀ (before after : List (Option jack_osc_event_t)),
      forwarded (processAudio eng (before ++ none :: after) port_buffers comp).2 =
        forwarded (processAudio eng (before ++ after) port_buffers comp).2) := by
  have h := forwarded_processAudio eng osc_events port_buffers comp
  rw [forwarded_oscLoop] at h
  refine ⟨h, ?_, ?_⟩
  · intro msg hmsg
    rw [h, List.mem_filterMap] at hmsg
    obtain ⟨o, _, ho⟩ := hmsg
    cases o with
    | none => simp at ho
    | some event =>
      simp only at ho
      split_ifs at ho with h47
      cases ho
      simp [h47]
  · intro before after
    rw [forwarded_processAudio, forwarded_processAudio, forwarded_oscLoop, forwarded_oscLoop]
    simp [List.filterMap_append, List.filterMap_cons]

theorem processAudio_false (eng : JackEngine) (osc_events : List (Option jack_osc_event_t))
    (port_buffers : Option Nat × Option Nat) (comp : Bool) :
    ((processAudio eng osc_events port_buffers comp).1 = false ↔
      (port_buffers.1 = none ∨ port_buffers.2 = none)) ∧
    ((processAudio eng osc_events port_buffers comp).1 = false →
      ∀ s, s ∈ (processAudio eng osc_events port_buffers comp).2 →
        s.producesAudio = false) := by
  have hosc : ∀ s, s ∈ oscLoop osc_events → s.producesAudio = false := by
    induction osc_events with
    | nil => intro s hs; simp [oscLoop] at hs
    | cons o rest ih =>
      intro s hs
      cases o with
      | none => exact ih s (by simpa [oscLoop] using hs)
      | some event =>
        by_cases h : event.first = 47
        · simp only [oscLoop, h, ne_eq, not_true_eq_false, if_false, List.mem_cons] at hs
          rcases hs with rfl | hs
          · rfl
          · exact ih s hs
        · exact ih s (by simpa [oscLoop, h] using hs)
  obtain ⟨b0, b1⟩ := port_buffers
  cases b0 <;> cases b1 <;> simp [processAudio]
  all_goals
    intro s hs
    rcases hs with hs | hs
    · exact hosc s hs
    · rcases hs with rfl | rfl <;> rfl

/-- C11: the process callback returns -1 iff both audio ports are registered
and the host answers `NULL` for the buffer of one of them, and 0 in every
other case; when it returns -1 the engine is not asked for a block and nothing
is copied or compressed. -/
theorem C11_callback_result (eng : JackEngine) (C_pitchwheel : Int)
    (midi_buf : List jack_midi_event_t) (osc_events : List (Option jack_osc_event_t))
    (port_buffers : Option Nat × Option Nat) (comp : Bool) :
    ((processCallback eng C_pitchwheel midi_buf osc_events port_buffers comp).1 = -1 ↔
      (eng.audio_ports.1 ≠ none ∧ eng.audio_ports.2 ≠ none ∧
        (port_buffers.1 = none ∨ port_buffers.2 = none))) ∧
    ((processCallback eng C_pitchwheel midi_buf osc_events port_buffers comp).1 ≠ -1 →
      (processCallback eng C_pitchwheel midi_buf osc_events port_buffers comp).1 = 0) ∧
    ((processCallback eng C_pitchwheel midi_buf osc_events port_buffers comp).1 = -1 →
      ∀ s, s ∈ (processCallback eng C_pitchwheel midi_buf osc_events port_buffers comp).2 →
        s.producesAudio = false) := by
  obtain ⟨hiff, hno⟩ := processAudio_false eng osc_events port_buffers comp
  obtain ⟨jc, ⟨a0, a1⟩, sr, nf, mi, js, osc, s, b⟩ := eng
  cases a0 with
  | none => simp [processCallback]
  | some p0 =>
    cases a1 with
    | none => simp [processCallback]
    | some p1 =>
      cases hr : (processAudio ⟨jc, (some p0, some p1), sr, nf, mi, js, osc, s, b⟩ osc_events
          port_buffers comp).1 with
      | true =>
        rw [hr] at hiff
        have hnot : ¬ (port_buffers.1 = none ∨ port_buffers.2 = none) := by
          intro h; exact absurd (hiff.2 h) (by simp)
        simp [processCallback, hr, hnot]
      | false =>
        rw [hr] at hiff
        have hyes := hiff.1 rfl
        simp only [processCallback, hr]
        refine ⟨by simp [hyes], by simp, ?_⟩
        intro _ st hst
        rcases List.mem_append.1 hst with hm | ha
        · obtain ⟨e, _, rfl⟩ := List.mem_map.1 hm
          rfl
        · exact hno hr st ha

end Jack

/-! # Properties of the OSS multi-channel back end -/

namespace OssMulti

/-! ## Channel negotiation -/

theorem probeChannels_order (ok : Nat → Bool) (N : Nat) :
    ∃ pre post, evensDown N = pre ++ post ∧ (∀ x, x ∈ pre → ok x = false) ∧
      ((post = [] ∧ (probeChannels ok N).1 = 0 ∧
          (probeChannels ok N).2 = pre.map SysCall.ioctl_DSP_CHANNELS) ∨
        (∃ y t, post = y :: t ∧ ok y = true ∧ (probeChannels ok N).1 = y ∧
          (probeChannels ok N).2 = (pre ++ [y]).map SysCall.ioctl_DSP_CHANNELS)) := by
  induction N with
  | zero => exact ⟨[], [], rfl, by simp, Or.inl ⟨rfl, rfl, rfl⟩⟩
  | succ k ih =>
    by_cases h : ok (2 * (k + 1)) = true
    · refine ⟨[], evensDown (k + 1), rfl, by simp, Or.inr ⟨2 * (k + 1), evensDown k, rfl, h, ?_, ?_⟩⟩
      · simp [probeChannels, h]
      · simp [probeChannels, h]
    · have hf : ok (2 * (k + 1)) = false := by simpa using h
      obtain ⟨pre, post, he, hpre, hcase⟩ := ih
      refine ⟨2 * (k + 1) :: pre, post, by simp [evensDown, he], ?_, ?_⟩
      · intro x hx
        rcases List.mem_cons.1 hx with rfl | hx
        · exact hf
        · exact hpre x hx
      · rcases hcase with ⟨h1, h2, h3⟩ | ⟨y, t, h1, h2, h3, h4⟩
        · exact Or.inl ⟨h1, by simp [probeChannels, hf, h2], by simp [probeChannels, hf, h3]⟩
        · exact Or.inr ⟨y, t, h1, h2, by simp [probeChannels, hf, h3],
            by simp [probeChannels, hf, h4]⟩

theorem probeChannels_largest (ok : Nat → Bool) (N : Nat) :
    ((probeChannels ok N).1 = 0 ↔ ∀ k, 1 ≤ k → k ≤ N → ok (2 * k) = false) ∧
    ((probeChannels ok N).1 ≠ 0 →
      ∃ k, 1 ≤ k ∧ k ≤ N ∧ (probeChannels ok N).1 = 2 * k ∧ ok (2 * k) = true ∧
        ∀ k1, k < k1 → k1 ≤ N → ok (2 * k1) = false) := by
  induction N with
  | zero =>
    refine ⟨⟨fun _ k h1 h2 => by omega, fun _ => rfl⟩, fun h => absurd rfl h⟩
  | succ n ih =>
    by_cases h : ok (2 * (n + 1)) = true
    · have e : (probeChannels ok (n + 1)).1 = 2 * (n + 1) := by simp [probeChannels, h]
      rw [e]
      refine ⟨⟨fun h0 => by omega, fun hall => ?_⟩, fun _ => ?_⟩
      · have := hall (n + 1) (by omega) (le_refl _)
        rw [h] at this
        exact absurd this (by simp)
      · exact ⟨n + 1, by omega, le_refl _, rfl, h, fun k1 h1 h2 => by omega⟩
    · have hf : ok (2 * (n + 1)) = false := by simpa using h
      have e : (probeChannels ok (n + 1)).1 = (probeChannels ok n).1 := by
        simp [probeChannels, hf]
      rw [e]
      refine ⟨⟨fun h0 k h1 h2 => ?_, fun hall => ?_⟩, fun hne => ?_⟩
      · by_cases hk : k = n + 1
        · subst hk; exact hf
        · exact ih.1.1 h0 k h1 (by omega)
      · exact ih.1.2 (fun k h1 h2 => hall k h1 (by omega))
      · obtain ⟨k, h1, h2, h3, h4, h5⟩ := ih.2 hne
        refine ⟨k, h1, by omega, h3, h4, fun k1 hk1 hk2 => ?_⟩
        by_cases hk : k1 = n + 1
        · subst hk; exact hf
        · exact h5 k1 hk1 (by omega)

/-- What `openAudio` does on a closed engine once the device is open and a
format is set, by the outcome of the channel probe and of the sample rate. -/
theorem openAudio_negotiated (N bs : Nat) (sr : Int) (dev : Device) (e : OssMultiEngine)
    (hclosed : e.handle = -1) (hopen : dev.open_result ≠ -1)
    (hfmt : (dev.has_AFMT_S32_NE = true ∧ dev.setfmt32_ok = true) ∨ dev.setfmt16_ok = true) :
    ∃ calls, SysCall.pthread_create ∉ calls ∧ openAudio N bs sr dev e =
      openAudioNegotiate N bs sr dev
        { e with handle := dev.open_result,
                 is32bit := dev.has_AFMT_S32_NE && dev.setfmt32_ok } calls := by
  obtain ⟨h, ch, is32, bsz, at1⟩ := e
  obtain ⟨fd, has32, f32, f16, ok, speed⟩ := dev
  simp only at hclosed hopen hfmt
  subst hclosed
  cases has32 <;> cases f32 <;> cases f16 <;> simp at hfmt <;>
    simp only [openAudio, hopen, if_false, if_true, ne_eq, not_true_eq_false, and_self,
      and_true, and_false, true_and, false_and, Bool.and_self, Bool.and_true, Bool.and_false,
      Bool.true_and, Bool.false_and, Bool.false_eq_true] <;>
    exact ⟨_, by decide, rfl⟩

/-- C15: on a closed engine whose device opens and takes a sample format,
`openAudio` probes the channel counts `2 * NUM_MIDI_PARTS`,
`2 * NUM_MIDI_PARTS - 2`, ..., 2 in that order, the device being a predicate
on the requested count, and sets `channels` to the first one taken, which is
the largest even count in `[2, 2 * NUM_MIDI_PARTS]` the device takes; when the
device takes none, it returns false and leaves the engine closed (`handle` is
-1, `getAudioEn()` is false, no audio thread is created). -/
theorem C15_channel_negotiation (N bs : Nat) (sr : Int) (dev : Device) (e : OssMultiEngine)
    (hclosed : e.handle = -1) (hopen : dev.open_result ≠ -1)
    (hfmt : (dev.has_AFMT_S32_NE = true ∧ dev.setfmt32_ok = true) ∨ dev.setfmt16_ok = true) :
    (∃ pre post, evensDown N = pre ++ post ∧ (∀ x, x ∈ pre → dev.channels_ok x = false) ∧
      ((post = [] ∧ (probeChannels dev.channels_ok N).1 = 0 ∧
          (probeChannels dev.channels_ok N).2 = pre.map SysCall.ioctl_DSP_CHANNELS) ∨
        (∃ y t, post = y :: t ∧ dev.channels_ok y = true ∧
          (probeChannels dev.channels_ok N).1 = y ∧
          (probeChannels dev.channels_ok N).2 =
            (pre ++ [y]).map SysCall.ioctl_DSP_CHANNELS))) ∧
    (∃ before after, (openAudio N bs sr dev e).2.2 =
      before ++ (probeChannels dev.channels_ok N).2 ++ after) ∧
    ((probeChannels dev.channels_ok N).1 ≠ 0 →
      (openAudio N bs sr dev e).2.1.channels = (probeChannels dev.channels_ok N).1 ∧
      ∃ k, 1 ≤ k ∧ k ≤ N ∧ (probeChannels dev.channels_ok N).1 = 2 * k ∧
        dev.channels_ok (2 * k) = true ∧
        ∀ k1, k < k1 → k1 ≤ N → dev.channels_ok (2 * k1) = false) ∧
    ((∀ k, 1 ≤ k → k ≤ N → dev.channels_ok (2 * k) = false) →
      (openAudio N bs sr dev e).1 = false ∧
      (openAudio N bs sr dev e).2.1.handle = -1 ∧
      getAudioEn (openAudio N bs sr dev e).2.1 = false ∧
      (openAudio N bs sr dev e).2.1.audioThread = e.audioThread ∧
      SysCall.pthread_create ∉ (openAudio N bs sr dev e).2.2) := by
  obtain ⟨calls, hcalls, hopenAudio⟩ := openAudio_negotiated N bs sr dev e hclosed hopen hfmt
  refine ⟨probeChannels_order dev.channels_ok N, ?_, ?_, ?_⟩
  · rw [hopenAudio]
    unfold openAudioNegotiate
    simp only []
    split_ifs
    · exact ⟨calls, [SysCall.close dev.open_result], by simp⟩
    · exact ⟨calls, [SysCall.ioctl_DSP_SPEED sr, SysCall.close dev.open_result], by simp⟩
    · exact ⟨calls, [SysCall.ioctl_DSP_SPEED sr,
        SysCall.ioctl_DSP_SETFRAGMENT (fragmentWord (computeBuffersize bs
          (probeChannels dev.channels_ok N).1 (dev.has_AFMT_S32_NE && dev.setfmt32_ok))),
        SysCall.pthread_create], by simp⟩
  · intro hne
    refine ⟨?_, (probeChannels_largest dev.channels_ok N).2 hne⟩
    rw [hopenAudio]
    unfold openAudioNegotiate
    simp only [hne, if_false]
    split_ifs <;> rfl
  · intro hnone
    have h0 := (probeChannels_largest dev.channels_ok N).1.2 hnone
    rw [hopenAudio]
    unfold openAudioNegotiate
    simp only [h0, if_true]
    refine ⟨trivial, trivial, by simp [getAudioEn], trivial, ?_⟩
    simp only [List.mem_append, List.mem_singleton, not_or]
    refine ⟨⟨hcalls, ?_⟩, by simp⟩
    obtain ⟨pre, post, _, _, hcase⟩ := probeChannels_order dev.channels_ok N
    rcases hcase with ⟨_, _, h3⟩ | ⟨y, t, _, _, _, h4⟩
    · rw [h3]; simp
    · rw [h4]; simp

/-- C15 at a 16-bit device that takes 6 and 2 channels (6 is chosen) and at a
device that takes no channel count. -/
theorem C15_channel_negotiation_witness :
    constructed.handle = -1 ∧ (device16 [2, 6]).open_result ≠ -1 ∧
    (openAudio 16 256 48000 (device16 [2, 6]) constructed).2.1.channels = 6 ∧
    (openAudio 16 256 48000 (device16 []) constructed).1 = false ∧
    (openAudio 16 256 48000 (device16 []) constructed).2.1.handle = -1 :=
  ⟨rfl, by decide,
    ((C15_channel_negotiation 16 256 48000 (device16 [2, 6]) constructed rfl (by decide)
      (Or.inr rfl)).2.2.1 (by decide)).1.trans (by decide),
    ((C15_channel_negotiation 16 256 48000 (device16 []) constructed rfl (by decide)
      (Or.inr rfl)).2.2.2 (by intro k _ _; rfl)).1,
    ((C15_channel_negotiation 16 256 48000 (device16 []) constructed rfl (by decide)
      (Or.inr rfl)).2.2.2 (by intro k _ _; rfl)).2.1⟩

/-! ## Buffer size and fragments -/

theorem int32_of_range (v : Int) (h1 : -2 ^ 31 ≤ v) (h2 : v < 2 ^ 31) : int32 v = v := by
  unfold int32
  omega

theorem computeBuffersize_eq (bs ch : Nat) (is32 : Bool) (hch : 1 ≤ ch)
    (h : (if is32 then 4 else 2) * bs * ch < 2 ^ 31) :
    computeBuffersize bs ch is32 = (bs : Int) * (ch : Int) * (if is32 then 4 else 2) := by
  have hp : bs ≤ bs * ch := Nat.le_mul_of_pos_right bs hch
  have hpI : ((bs * ch : Nat) : Int) = (bs : Int) * (ch : Int) := by push_cast; rfl
  have hbI : (bs : Int) ≤ ((bs * ch : Nat) : Int) := by exact_mod_cast hp
  have h0 : (0 : Int) ≤ (bs : Int) := Int.natCast_nonneg bs
  have e2 : 2 * (bs : Int) * (ch : Int) = 2 * ((bs * ch : Nat) : Int) := by rw [hpI]; ring
  unfold computeBuffersize
  cases is32
  · simp only [Bool.false_eq_true, if_false] at h ⊢
    have h2 : 2 * (bs * ch) < 2 ^ 31 := by rw [← Nat.mul_assoc]; exact h
    have h2I : 2 * ((bs * ch : Nat) : Int) < 2 ^ 31 := by exact_mod_cast h2
    rw [int32_of_range (2 * (bs : Int)) (by omega) (by omega), e2,
      int32_of_range _ (by omega) (by omega), hpI]
    ring
  · simp only [if_true] at h ⊢
    have h4 : 4 * (bs * ch) < 2 ^ 31 := by rw [← Nat.mul_assoc]; exact h
    have h4I : 4 * ((bs * ch : Nat) : Int) < 2 ^ 31 := by exact_mod_cast h4
    rw [int32_of_range (2 * (bs : Int)) (by omega) (by omega), e2,
      int32_of_range (2 * ((bs * ch : Nat) : Int)) (by omega) (by omega),
      int32_of_range _ (by omega) (by omega), hpI]
    ring

theorem partLoop_returns (is32 : Bool) (ch bs : Nat)
    (comp : Option (F32 → F32 → F32 → F32 × F32 × F32)) (outl outr : Nat → Nat → F32)
    (k : Nat) (hch : ch = 2 * k) :
    ∀ (fuel j : Nat) (peaks : Nat → F32), j ≤ k → k - j < fuel →
      ∃ stores, partLoop is32 ch bs comp outl outr fuel (2 * j) peaks = some stores := by
  intro fuel
  induction fuel with
  | zero => intro j _ _ h; omega
  | succ n ih =>
    intro j peaks hj hf
    unfold partLoop
    by_cases hx : 2 * j = ch
    · exact ⟨[], by rw [if_pos hx]⟩
    · rw [if_neg hx]
      obtain ⟨stores, hs⟩ := ih (j + 1)
        (fun p => if p = 2 * j / 2 then
          (frameLoop is32 ch (2 * j) comp (outl (2 * j / 2)) (outr (2 * j / 2))
            (List.range bs) (peaks (2 * j / 2))).2 else peaks p)
        (by omega) (by omega)
      have e : 2 * j + 2 = 2 * (j + 1) := by ring
      simp only [e, hs]
      exact ⟨_, rfl⟩

/-- C13, as the code has it: on a closed engine whose device opens, takes a
format, a channel count and the sample rate, the byte count `openAudio`
computes, which the audio thread passes to every `write`, is
`blockSize * channels * sampleBytes`, with `sampleBytes` 2 for the 16-bit
format and 4 for the 32-bit one: `2 * blockSize * channels` bytes for 16 bits
and twice that for 32 bits. -/
theorem C13_buffersize_amended (N bs : Nat) (sr : Int) (dev : Device) (e : OssMultiEngine)
    (hclosed : e.handle = -1) (hopen : dev.open_result ≠ -1)
    (hfmt : (dev.has_AFMT_S32_NE = true ∧ dev.setfmt32_ok = true) ∨ dev.setfmt16_ok = true)
    (hch : (probeChannels dev.channels_ok N).1 ≠ 0) (hspeed : dev.speed sr = sr)
    (hsize : (if (dev.has_AFMT_S32_NE && dev.setfmt32_ok) then 4 else 2) * bs *
      (probeChannels dev.channels_ok N).1 < 2 ^ 31) :
    (openAudio N bs sr dev e).1 = true ∧
    (openAudio N bs sr dev e).2.1.channels = (probeChannels dev.channels_ok N).1 ∧
    (openAudio N bs sr dev e).2.1.is32bit = (dev.has_AFMT_S32_NE && dev.setfmt32_ok) ∧
    (openAudio N bs sr dev e).2.1.buffersize =
      (bs : Int) * ((openAudio N bs sr dev e).2.1.channels : Int) *
        (if (openAudio N bs sr dev e).2.1.is32bit then 4 else 2) ∧
    (∀ comp outl outr peaks, ∃ stores,
      audioBlock (openAudio N bs sr dev e).2.1 bs comp outl outr peaks =
        some (stores, SysCall.write (openAudio N bs sr dev e).2.1.handle
          (openAudio N bs sr dev e).2.1.buffersize)) := by
  obtain ⟨calls, _, hopenAudio⟩ := openAudio_negotiated N bs sr dev e hclosed hopen hfmt
  have hne : ¬ dev.speed sr ≠ sr := by simp [hspeed]
  have hres : (openAudio N bs sr dev e).2.1 =
      { handle := dev.open_result, channels := (probeChannels dev.channels_ok N).1,
        is32bit := dev.has_AFMT_S32_NE && dev.setfmt32_ok,
        buffersize := computeBuffersize bs (probeChannels dev.channels_ok N).1
          (dev.has_AFMT_S32_NE && dev.setfmt32_ok),
        audioThread := true } := by
    rw [hopenAudio]
    unfold openAudioNegotiate
    simp only [hch, hne, if_false]
  refine ⟨?_, ?_, ?_, ?_, ?_⟩
  · rw [hopenAudio]
    unfold openAudioNegotiate
    simp only [hch, hne, if_false]
  · rw [hres]
  · rw [hres]
  · rw [hres]
    exact computeBuffersize_eq bs _ _ (by omega) hsize
  · intro comp outl outr peaks
    obtain ⟨k, _, _, hk, _⟩ := (probeChannels_largest dev.channels_ok N).2 hch
    have hc : (openAudio N bs sr dev e).2.1.channels = 2 * k := by rw [hres]; exact hk
    obtain ⟨stores, hs⟩ := partLoop_returns (openAudio N bs sr dev e).2.1.is32bit
      (openAudio N bs sr dev e).2.1.channels bs comp outl outr k hc
      ((openAudio N bs sr dev e).2.1.channels + 1) 0 peaks (by omega) (by omega)
    refine ⟨stores, ?_⟩
    unfold audioBlock
    rw [show (0 : Nat) = 2 * 0 from rfl, hs]
    rfl

/-- C13 (amended) at a 16-bit device with two channels and blocks of 256
frames: 1024 bytes. -/
theorem C13_buffersize_amended_witness :
    constructed.handle = -1 ∧ (device16 [2]).open_result ≠ -1 ∧
    (probeChannels (device16 [2]).channels_ok 16).1 ≠ 0 ∧
    (openAudio 16 256 48000 (device16 [2]) constructed).2.1.buffersize =
      (256 : Int) * ((openAudio 16 256 48000 (device16 [2]) constructed).2.1.channels : Int) *
        (if (openAudio 16 256 48000 (device16 [2]) constructed).2.1.is32bit then 4 else 2) :=
  ⟨rfl, by decide, by decide,
    (C13_buffersize_amended 16 256 48000 (device16 [2]) constructed rfl (by decide)
      (Or.inr rfl) (by decide) rfl (by decide)).2.2.2.1⟩

/-- C13 as stated fails: with the 16-bit format, two channels and blocks of
256 frames the byte count is 1024, not `2 * 256 * 2 * 2 = 2048`. -/
theorem C13_buffersize_counterexample :
    (openAudio 16 256 48000 (device16 [2]) constructed).2.1.channels = 2 ∧
    (openAudio 16 256 48000 (device16 [2]) constructed).2.1.is32bit = false ∧
    (openAudio 16 256 48000 (device16 [2]) constructed).2.1.buffersize = 1024 ∧
    ¬ ((openAudio 16 256 48000 (device16 [2]) constructed).2.1.buffersize =
        2 * 256 *
          ((openAudio 16 256 48000 (device16 [2]) constructed).2.1.channels : Int) * 2) := by
  decide

theorem fragmentLoop_spec (b : Int) :
    ∀ (fuel x : Nat), x ≤ 20 → 20 - x < fuel →
      x ≤ fragmentLoop b fuel x ∧ fragmentLoop b fuel x ≤ 20 ∧
      (fragmentLoop b fuel x < 20 → (2 : Int) ^ fragmentLoop b fuel x ≥ b) ∧
      (∀ y, x ≤ y → y < fragmentLoop b fuel x → (2 : Int) ^ y < b) := by
  intro fuel
  induction fuel with
  | zero => intro x _ h; omega
  | succ n ih =>
    intro x hx hf
    unfold fragmentLoop
    by_cases h20 : x < 20
    · by_cases hb : (2 : Int) ^ x ≥ b
      · rw [if_pos h20, if_pos hb]
        exact ⟨le_refl _, hx, fun _ => hb, fun y h1 h2 => by omega⟩
      · rw [if_pos h20, if_neg hb]
        obtain ⟨i1, i2, i3, i4⟩ := ih (x + 1) (by omega) (by omega)
        refine ⟨by omega, i2, i3, fun y h1 h2 => ?_⟩
        by_cases hy : y = x
        · subst hy; omega
        · exact i4 y (by omega) h2
    · rw [if_neg h20]
      exact ⟨le_refl _, hx, fun h => absurd h h20, fun y h1 h2 => by omega⟩

theorem fragment_bits (x : Nat) (h4 : 4 ≤ x) (h20 : x ≤ 20) :
    0x20000 ||| x = 0x20000 + x ∧ (0x20000 ||| x) >>> 16 = 2 ∧ (0x20000 ||| x) &&& 0xFFFF = x := by
  interval_cases x <;> decide

/-- C14, as the code has it: the fragment word `openAudio` requests for a
buffer size `b` is `0x20000 | x` with `x` between 4 and 20: the least exponent
from 4 on with `2^x >= b`, and 20 when no exponent below 20 does; for
`8 < b <= 2^20` that is the least exponent with `2^x >= b`.  The word encodes
two fragments (upper 16 bits 2) of `2^x` bytes (lower 16 bits `x`). -/
theorem C14_fragment_word_amended (b : Int) :
    fragmentWord b = 0x20000 ||| fragmentLoop b 17 4 ∧
    4 ≤ fragmentLoop b 17 4 ∧ fragmentLoop b 17 4 ≤ 20 ∧
    (fragmentLoop b 17 4 < 20 → (2 : Int) ^ fragmentLoop b 17 4 ≥ b) ∧
    (∀ y, 4 ≤ y → y < fragmentLoop b 17 4 → (2 : Int) ^ y < b) ∧
    (8 < b → b ≤ 2 ^ 20 →
      (2 : Int) ^ fragmentLoop b 17 4 ≥ b ∧ ∀ y, y < fragmentLoop b 17 4 → (2 : Int) ^ y < b) ∧
    fragmentWord b = 0x20000 + fragmentLoop b 17 4 ∧
    fragmentWord b >>> 16 = 2 ∧
    fragmentWord b &&& 0xFFFF = fragmentLoop b 17 4 ∧
    (∀ (N bs : Nat) (sr : Int) (dev : Device) (e : OssMultiEngine),
      (openAudioNegotiate N bs sr dev e []).1 = true →
      SysCall.ioctl_DSP_SETFRAGMENT
          (fragmentWord (openAudioNegotiate N bs sr dev e []).2.1.buffersize) ∈
        (openAudioNegotiate N bs sr dev e []).2.2) := by
  obtain ⟨i1, i2, i3, i4⟩ := fragmentLoop_spec b 17 4 (by omega) (by omega)
  obtain ⟨b1, b2, b3⟩ := fragment_bits (fragmentLoop b 17 4) i1 i2
  refine ⟨rfl, i1, i2, i3, i4, ?_, b1, b2, b3, ?_⟩
  · intro h8 h20
    refine ⟨?_, ?_⟩
    · by_cases hx : fragmentLoop b 17 4 < 20
      · exact i3 hx
      · have : fragmentLoop b 17 4 = 20 := by omega
        rw [this]
        exact h20
    · intro y hy
      by_cases h4 : 4 ≤ y
      · exact i4 y h4 hy
      · have hy3 : y ≤ 3 := by omega
        have : (2 : Int) ^ y ≤ 2 ^ 3 := pow_le_pow_right₀ (by norm_num) hy3
        omega
  · intro N bs sr dev e h
    unfold openAudioNegotiate at h ⊢
    by_cases h1 : (probeChannels dev.channels_ok N).1 = 0
    · simp [h1] at h
    · by_cases h2 : dev.speed sr ≠ sr
      · simp [h1, h2] at h
      · simp [h1, h2]

/-- C14 as stated fails at both ends of the loop: for a buffer of 8 bytes
(16 bits, two channels, blocks of two frames) the exponent is 4 although
`2^3 >= 8`, and for a buffer of `2^21` bytes (32 bits, 32 channels, blocks of
16384 frames) the exponent is 20 although `2^20 < 2^21`. -/
theorem C14_fragment_word_counterexample :
    (computeBuffersize 2 2 false = 8 ∧ fragmentLoop 8 17 4 = 4 ∧ (2 : Int) ^ 3 ≥ 8) ∧
    (computeBuffersize 16384 32 true = 2 ^ 21 ∧ fragmentLoop (2 ^ 21) 17 4 = 20 ∧
      (2 : Int) ^ 20 < 2 ^ 21) := by
  decide

/-- C16 at the failing input: the literal `2147483647.0f` is the `float`
`2^31`, so the product for the sample 1.0 is `2^31`, which `int` cannot hold:
the conversion is undefined instead of giving `INT32_MAX`; the sample -1.0
gives `INT32_MIN`.  In a block of a 32-bit, 4-channel device without
compression, part 0 holding the constants 1.0 and -1.0, these are the first
two stores, at the indices 0 and 1.  The 16-bit conversion maps 1.0 to
`INT16_MAX`. -/
theorem C16_full_scale_sample :
    F32.lit 2147483647 = ⟨16777216, 7⟩ ∧
    (F32.mul F32.one (F32.lit 2147483647)).trunc = 2147483648 ∧
    toSample32 F32.one = none ∧
    toSample32 F32.negOne = some (-2147483648) ∧
    (audioBlock (openAudio 16 2 48000 (device32 [4]) constructed).2.1 2 none
        (fun p _ => if p = 0 then F32.one else ⟨0, 0⟩)
        (fun p _ => if p = 0 then F32.negOne else ⟨0, 0⟩) (fun _ => ⟨0, 0⟩)).map
      (fun r => r.1.take 2) = some [(0, none), (1, some (-2147483648))] ∧
    toSample16 F32.one = some 32767 :=
  ⟨rfl, rfl, rfl, rfl, rfl, rfl⟩

end OssMulti

/-! # Termination of `runSynth` and the events it consumes -/

namespace DSSI

/-- The number of rounds of the loop: the loop returns with any fuel from a
number `n` of rounds on, and with none below it, `n` being at most the number
of pending events plus one. -/
theorem doWhile_rounds (sc : Nat) (hsc : sc ≤ ULONG_MAX) :
    ∀ (m : Nat) (s : RunState), s.pending.length ≤ m →
      ∃ n s1, 1 ≤ n ∧ n ≤ s.pending.length + 1 ∧
        (∀ fuel, n ≤ fuel → doWhile sc fuel s = some s1) ∧
        (∀ fuel, fuel < n → doWhile sc fuel s = none) := by
  intro m
  induction m with
  | zero =>
    intro s hlen
    have hc : ¬ (loopBody sc s).to_frame < sc := by
      intro hlt
      have := loopBody_consumes sc hsc s hlt
      omega
    refine ⟨1, loopBody sc s, le_refl _, by omega, ?_, ?_⟩
    · intro fuel hf
      obtain ⟨f, rfl⟩ : ∃ f, fuel = f + 1 := ⟨fuel - 1, by omega⟩
      simp [doWhile, hc]
    · intro fuel hf
      have : fuel = 0 := by omega
      subst this
      rfl
  | succ k ih =>
    intro s hlen
    by_cases hc : (loopBody sc s).to_frame < sc
    · have hd := loopBody_consumes sc hsc s hc
      obtain ⟨n, s1, h1, h2, h3, h4⟩ := ih (loopBody sc s) (by omega)
      refine ⟨n + 1, s1, by omega, by omega, ?_, ?_⟩
      · intro fuel hf
        obtain ⟨f, rfl⟩ : ∃ f, fuel = f + 1 := ⟨fuel - 1, by omega⟩
        simp only [doWhile, hc, if_true]
        exact h3 f (by omega)
      · intro fuel hf
        cases fuel with
        | zero => rfl
        | succ f =>
          simp only [doWhile, hc, if_true]
          exact h4 f (by omega)
    · refine ⟨1, loopBody sc s, le_refl _, by omega, ?_, ?_⟩
      · intro fuel hf
        obtain ⟨f, rfl⟩ : ∃ f, fuel = f + 1 := ⟨fuel - 1, by omega⟩
        simp [doWhile, hc]
      · intro fuel hf
        have : fuel = 0 := by omega
        subst this
        rfl

/-- C22: `runSynth` terminates for every input, sorted or not, with ticks
inside or beyond the block: the body of its `do ... while` loop runs some
number `n` of times with `1 <= n <= event_count + 1` (the loop returns with
`n` rounds and with no fewer), because every round that does not reach
`sample_count` consumes at least one event. -/
theorem C22_runSynth_terminates (K sc : Nat) (events : Option (List snd_seq_event_t))
    (hsc : sc ≤ ULONG_MAX) :
    (∃ s, runSynth K sc events = some s) ∧
    (∃ n s, 1 ≤ n ∧ n ≤ (eventBlock events).length + 1 ∧
      (∀ fuel, n ≤ fuel → runSynthFuel fuel K sc events = some s) ∧
      (∀ fuel, fuel < n → runSynthFuel fuel K sc events = none)) ∧
    (∀ s : RunState, (loopBody sc s).to_frame < sc →
      (loopBody sc s).pending.length < s.pending.length) := by
  obtain ⟨n, s, h1, h2, h3, h4⟩ := doWhile_rounds sc hsc (eventBlock events).length
    { from_frame := 0, to_frame := 0, pending := eventBlock events, log := forwardControls K }
    (le_refl _)
  refine ⟨⟨s, h3 _ h2⟩, ⟨n, s, h1, h2, h3, h4⟩, fun s hlt => loopBody_consumes sc hsc s hlt⟩

/-- C22 at a block of 128 frames whose three events are out of order and
partly beyond the block: the loop returns. -/
theorem C22_runSynth_terminates_witness :
    128 ≤ ULONG_MAX ∧
    ∃ s, runSynth 12 128 (some [mkNoteOn 64 0 60 100, mkNoteOn 32 0 62 100,
      mkNoteOff 500 0 60]) = some s :=
  ⟨by decide,
    (C22_runSynth_terminates 12 128 (some [mkNoteOn 64 0 60 100, mkNoteOn 32 0 62 100,
      mkNoteOff 500 0 60]) (by decide)).1⟩

/-! ## The consumed events are the longest sorted prefix within the block -/

theorem consumedEvents_spec (sc : Nat) :
    ∀ (l : List snd_seq_event_t) (lo : Nat),
      consumedEvents sc lo l <+: l ∧
      List.Pairwise (fun a b : snd_seq_event_t => a.tick ≤ b.tick) (consumedEvents sc lo l) ∧
      ∀ e ∈ consumedEvents sc lo l, lo ≤ e.tick ∧ e.tick ≤ sc := by
  intro l
  induction l with
  | nil => intro lo; simp [consumedEvents]
  | cons e rest ih =>
    intro lo
    unfold consumedEvents
    by_cases h : lo ≤ e.tick ∧ e.tick ≤ sc
    · rw [if_pos h]
      obtain ⟨i1, i2, i3⟩ := ih e.tick
      refine ⟨(List.prefix_cons_inj e).2 i1, List.pairwise_cons.2 ⟨fun x hx => (i3 x hx).1, i2⟩, ?_⟩
      intro x hx
      rcases List.mem_cons.1 hx with rfl | hx
      · exact h
      · exact ⟨le_trans h.1 (i3 x hx).1, (i3 x hx).2⟩
    · rw [if_neg h]
      exact ⟨List.nil_prefix, List.Pairwise.nil, fun x hx => absurd hx (List.not_mem_nil x)⟩

theorem consumedEvents_longest (sc : Nat) :
    ∀ (l : List snd_seq_event_t) (lo : Nat) (q : List snd_seq_event_t), q <+: l →
      List.Pairwise (fun a b : snd_seq_event_t => a.tick ≤ b.tick) q →
      (∀ e ∈ q, lo ≤ e.tick ∧ e.tick ≤ sc) → q <+: consumedEvents sc lo l := by
  intro l
  induction l with
  | nil =>
    intro lo q hq _ _
    rw [List.prefix_nil] at hq
    subst hq
    exact List.nil_prefix
  | cons e rest ih =>
    intro lo q hq hpw hb
    cases q with
    | nil => exact List.nil_prefix
    | cons e1 q1 =>
      obtain ⟨he, hq1⟩ := List.cons_prefix_cons.1 hq
      subst he
      have h := hb e1 (List.mem_cons_self _ _)
      unfold consumedEvents
      rw [if_pos h]
      obtain ⟨hp1, hp2⟩ := List.pairwise_cons.1 hpw
      exact (List.prefix_cons_inj e1).2
        (ih e1.tick q1 hq1 hp2
          (fun x hx => ⟨hp1 x hx, (hb x (List.mem_cons_of_mem _ hx)).2⟩))

theorem consumedEvents_run (sc t : Nat) (ht : t ≤ sc) :
    ∀ rest : List snd_seq_event_t,
      consumedEvents sc t rest =
        rest.takeWhile (fun e => decide (e.tick = t)) ++
          consumedEvents sc t (rest.dropWhile (fun e => decide (e.tick = t))) := by
  intro rest
  induction rest with
  | nil => simp [consumedEvents]
  | cons e r ih =>
    by_cases he : e.tick = t
    · have hc : t ≤ e.tick ∧ e.tick ≤ sc := by omega
      rw [List.takeWhile_cons_of_pos (by simpa using he),
        List.dropWhile_cons_of_pos (by simpa using he)]
      conv_lhs => unfold consumedEvents
      rw [if_pos hc, he, ih]
      rfl
    · rw [List.takeWhile_cons_of_neg (by simpa using he),
        List.dropWhile_cons_of_neg (by simpa using he)]
      rfl

theorem consumedEvents_dropWhile (sc : Nat) (p : List snd_seq_event_t) :
    consumedEvents sc sc (p.dropWhile (fun e => decide (e.tick = sc))) = [] := by
  induction p with
  | nil => rfl
  | cons e r ih =>
    by_cases he : e.tick = sc
    · rw [List.dropWhile_cons_of_pos (by simpa using he)]
      exact ih
    · rw [List.dropWhile_cons_of_neg (by simpa using he)]
      unfold consumedEvents
      have hc : ¬ (sc ≤ e.tick ∧ e.tick ≤ sc) := by omega
      rw [if_neg hc]

/-- One round of the loop takes from the pending events what the consumed
events of the block begin with. -/
theorem consumedEvents_round (sc : Nat) (s : RunState) (h : AtHead sc s) :
    consumedEvents sc s.to_frame s.pending =
      s.pending.takeWhile (fun e => decide (e.tick = (loopBody sc s).to_frame)) ++
        consumedEvents sc (loopBody sc s).to_frame
          (s.pending.dropWhile (fun e => decide (e.tick = (loopBody sc s).to_frame))) := by
  obtain ⟨_, hT⟩ := h
  have hge := loopBody_to_frame_ge sc s ⟨‹_›, hT⟩
  cases hp : s.pending with
  | nil => simp [consumedEvents]
  | cons e rest =>
    by_cases he : e.tick = (loopBody sc s).to_frame
    · have hc : s.to_frame ≤ e.tick ∧ e.tick ≤ sc := by omega
      rw [List.takeWhile_cons_of_pos (by simpa using he),
        List.dropWhile_cons_of_pos (by simpa using he)]
      conv_lhs => unfold consumedEvents
      rw [if_pos hc, he, consumedEvents_run sc _ hge.2 rest]
      rfl
    · rw [List.takeWhile_cons_of_neg (by simpa using he),
        List.dropWhile_cons_of_neg (by simpa using he), List.nil_append]
      have hto := loopBody_to_frame sc s
      rw [hp] at hto
      simp only [nextEventFrame] at hto
      have hsc : (loopBody sc s).to_frame = sc ∧ ¬ (e.tick < sc ∧ e.tick ≥ s.to_frame) := by
        by_cases hc : e.tick < sc ∧ e.tick ≥ s.to_frame
        · rw [if_pos hc] at hto
          exact absurd hto.symm he
        · rw [if_neg hc] at hto
          exact ⟨hto, hc⟩
      rw [hsc.1] at he ⊢
      unfold consumedEvents
      have c1 : ¬ (s.to_frame ≤ e.tick ∧ e.tick ≤ sc) := by omega
      have c2 : ¬ (sc ≤ e.tick ∧ e.tick ≤ sc) := by omega
      rw [if_neg c1, if_neg c2]

theorem loopBody_prefixInv (l : List snd_seq_event_t) (sc : Nat) (s : RunState)
    (h : PrefixInv l sc s) : PrefixInv l sc (loopBody sc s) := by
  obtain ⟨hh, consumed, hl, hc, hcalls⟩ := h
  refine ⟨loopBody_atHead sc s hh,
    consumed ++ s.pending.takeWhile (fun e => decide (e.tick = (loopBody sc s).to_frame)),
    ?_, ?_, ?_⟩
  · rw [loopBody_pending, List.append_assoc, List.takeWhile_append_dropWhile]
    exact hl
  · rw [loopBody_pending, List.append_assoc, ← consumedEvents_round sc s hh]
    exact hc
  · rw [loopBody_log, eventCalls_append, eventCalls_append, eventCalls_flatMap_eventLog,
      List.filterMap_append, hcalls]
    have hr : eventCalls (if s.from_frame < (loopBody sc s).to_frame then
          [⟨MasterCall.GetAudioOutSamples ((loopBody sc s).to_frame - s.from_frame)
              s.from_frame, none⟩]
         else []) = [] := by
      split_ifs <;> rfl
    rw [hr, List.append_nil]

/-- The rule of the loop, with the state on exit told as the outcome of a last
round. -/
theorem doWhile_last (sc : Nat) (P : RunState → Prop)
    (hbody : ∀ s, P s → P (loopBody sc s))
    (hdec : ∀ s, P s → (loopBody sc s).to_frame < sc →
      (loopBody sc s).pending.length < s.pending.length) :
    ∀ (fuel : Nat) (s : RunState), P s → s.pending.length < fuel →
      ∃ s0, doWhile sc fuel s = some (loopBody sc s0) ∧ P s0 ∧
        sc ≤ (loopBody sc s0).to_frame := by
  intro fuel
  induction fuel with
  | zero => intro s _ h; omega
  | succ n ih =>
    intro s hP hlen
    by_cases hc : (loopBody sc s).to_frame < sc
    · have hd := hdec s hP hc
      obtain ⟨s0, h1, h2, h3⟩ := ih (loopBody sc s) (hbody s hP) (by omega)
      exact ⟨s0, by simp [doWhile, hc, h1], h2, h3⟩
    · exact ⟨s, by simp [doWhile, hc], hP, by omega⟩

/-- The loop of `runSynth` ends, and on exit the events no longer pending are
the consumed events of the block, whose calls are the event calls made. -/
theorem runSynth_consumed (K sc : Nat) (events : Option (List snd_seq_event_t))
    (hsc : sc ≤ ULONG_MAX) :
    ∃ s, runSynth K sc events = some s ∧
      eventBlock events = consumedEvents sc 0 (eventBlock events) ++ s.pending ∧
      eventCalls s.log = (consumedEvents sc 0 (eventBlock events)).filterMap eventCall := by
  obtain ⟨s0, h1, h2, h3⟩ := doWhile_last sc (PrefixInv (eventBlock events) sc)
    (loopBody_prefixInv (eventBlock events) sc)
    (fun s _ hlt => loopBody_consumes sc hsc s hlt)
    ((eventBlock events).length + 1)
    { from_frame := 0, to_frame := 0, pending := eventBlock events, log := forwardControls K }
    ⟨⟨rfl, Nat.zero_le _⟩, [], rfl, rfl, by simp [eventCalls_forwardControls]⟩
    (Nat.lt_succ_self _)
  obtain ⟨hh, consumed, hl, hc, hcalls⟩ := loopBody_prefixInv _ sc s0 h2
  have hto : (loopBody sc s0).to_frame = sc := by
    have := hh.2
    omega
  have hnil : consumedEvents sc (loopBody sc s0).to_frame (loopBody sc s0).pending = [] := by
    rw [loopBody_pending, hto]
    exact consumedEvents_dropWhile sc s0.pending
  rw [hnil, List.append_nil] at hc
  refine ⟨loopBody sc s0, h1, ?_, ?_⟩
  · rw [hc]; exact hl
  · rw [hc]; exact hcalls

/-- C23: the events `runSynth` consumes are the longest prefix of the block
whose ticks are non-decreasing and all at most `sample_count`: the events left
pending on return are the rest of the block, the `noteOn` / `noteOff` /
`setController` calls made are those of that prefix and of no other event, in
order, and a call caused by an event whose tick equals `sample_count` is made
after all `sample_count` frames have been rendered. -/
theorem C23_consumed_events (K sc : Nat) (events : Option (List snd_seq_event_t))
    (hsc : sc ≤ ULONG_MAX) :
    (∃ s, runSynth K sc events = some s ∧
      eventBlock events = consumedEvents sc 0 (eventBlock events) ++ s.pending ∧
      eventCalls s.log = (consumedEvents sc 0 (eventBlock events)).filterMap eventCall ∧
      (∀ pre x post e, s.log = pre ++ x :: post → x.call.isEventCall = true →
        x.cause = some e → e.tick = sc → framesRendered pre = sc)) ∧
    (consumedEvents sc 0 (eventBlock events) <+: eventBlock events ∧
      List.Pairwise (fun a b : snd_seq_event_t => a.tick ≤ b.tick)
        (consumedEvents sc 0 (eventBlock events)) ∧
      (∀ e ∈ consumedEvents sc 0 (eventBlock events), e.tick ≤ sc) ∧
      (∀ q, q <+: eventBlock events →
        List.Pairwise (fun a b : snd_seq_event_t => a.tick ≤ b.tick) q →
        (∀ e ∈ q, e.tick ≤ sc) → q <+: consumedEvents sc 0 (eventBlock events))) := by
  obtain ⟨s, hs, hl, hcalls⟩ := runSynth_consumed K sc events hsc
  obtain ⟨s2, hs2, ht⟩ := runSynth_eventInv K sc events hsc
  have hEq : s2 = s := Option.some.inj (hs2.symm.trans hs)
  subst hEq
  obtain ⟨p1, p2, p3⟩ := consumedEvents_spec sc (eventBlock events) 0
  refine ⟨⟨s2, hs, hl, hcalls, ?_⟩, p1, p2, fun e he => (p3 e he).2, ?_⟩
  · intro pre x post e hlog hx hcause htick
    rw [hlog] at ht
    obtain ⟨e1, h1, _, _, h4⟩ := ht.split hx
    rw [hcause] at h1
    have : e = e1 := Option.some.inj h1
    subst this
    omega
  · intro q hq hpw hb
    exact consumedEvents_longest sc _ 0 q hq hpw (fun e he => ⟨Nat.zero_le _, hb e he⟩)

/-- C23 at a block of 128 frames: the events at ticks 0, 64 and 128 are
consumed; the event at tick 32 that follows and the one at tick 100 behind it
are left. -/
theorem C23_consumed_events_witness :
    128 ≤ ULONG_MAX ∧
    consumedEvents 128 0 [mkNoteOn 0 0 60 100, mkNoteOn 64 0 62 100, mkNoteOff 128 0 60,
        mkNoteOff 32 0 62, mkNoteOn 100 0 64 100] =
      [mkNoteOn 0 0 60 100, mkNoteOn 64 0 62 100, mkNoteOff 128 0 60] ∧
    ∃ s, runSynth 12 128 (some [mkNoteOn 0 0 60 100, mkNoteOn 64 0 62 100, mkNoteOff 128 0 60,
        mkNoteOff 32 0 62, mkNoteOn 100 0 64 100]) = some s ∧
      eventCalls s.log =
        (consumedEvents 128 0 (eventBlock (some [mkNoteOn 0 0 60 100, mkNoteOn 64 0 62 100,
          mkNoteOff 128 0 60, mkNoteOff 32 0 62, mkNoteOn 100 0 64 100]))).filterMap eventCall :=
  ⟨by decide, by decide,
    (C23_consumed_events 12 128 (some [mkNoteOn 0 0 60 100, mkNoteOn 64 0 62 100,
      mkNoteOff 128 0 60, mkNoteOff 32 0 62, mkNoteOn 100 0 64 100]) (by decide)).1.imp
      (fun _ h => ⟨h.1, h.2.2.1⟩)⟩

end DSSI

/-! # Properties of the raw path of `handleMidi` -/

namespace Jack

theorem windowAt_cons3 (b0 b1 b2 : Nat) (rest : List Nat) (k : Nat) :
    windowAt (b0 :: b1 :: b2 :: rest) (k + 1) = windowAt rest k := by
  have e0 : 3 * (k + 1) = 3 * k + 3 := by ring
  simp only [windowAt, e0, List.getD_cons_succ]

theorem rawWindows_eq (buffer : List Nat) :
    rawWindows buffer = (List.range ((buffer.length + 2) / 3)).map (windowAt buffer) := by
  induction buffer using rawWindows.induct with
  | case1 b0 b1 b2 rest ih =>
    have e : ((b0 :: b1 :: b2 :: rest).length + 2) / 3 = (rest.length + 2) / 3 + 1 := by
      simp only [List.length_cons]
      omega
    have hmap : List.map (windowAt (b0 :: b1 :: b2 :: rest) ∘ Nat.succ)
        (List.range ((rest.length + 2) / 3)) =
        List.map (windowAt rest) (List.range ((rest.length + 2) / 3)) :=
      List.map_congr_left (fun k _ => windowAt_cons3 b0 b1 b2 rest k)
    rw [e, List.range_succ_eq_map, List.map_cons, List.map_map, hmap, rawWindows, ih]
    rfl
  | case2 b0 b1 =>
    have e : ([b0, b1].length + 2) / 3 = 1 := by simp
    rw [e]
    rfl
  | case3 b0 =>
    have e : ([b0].length + 2) / 3 = 1 := by simp
    rw [e]
    rfl
  | case4 => rfl

theorem handleMidiEvent_other (sync : Bool) (cpw : Int) (e : jack_midi_event_t)
    (h : statusNibble e.buffer ≠ 0x80 ∧ statusNibble e.buffer ≠ 0x90 ∧
      statusNibble e.buffer ≠ 0xA0 ∧ statusNibble e.buffer ≠ 0xB0 ∧
      statusNibble e.buffer ≠ 0xC0 ∧ statusNibble e.buffer ≠ 0xE0) :
    handleMidiEvent sync cpw e = rawWindows e.buffer := by
  obtain ⟨h1, h2, h3, h4, h5, h6⟩ := h
  unfold statusNibble at h1 h2 h3 h4 h5 h6
  unfold handleMidiEvent
  simp only [h1, h2, h3, h4, h5, h6, if_false]

theorem handleMidi_append (eng : JackEngine) (cpw : Int) (a b : List jack_midi_event_t) :
    handleMidi eng cpw (a ++ b) = handleMidi eng cpw a ++ handleMidi eng cpw b := by
  unfold handleMidi
  cases eng.midi_inport with
  | none => rfl
  | some p => simp

theorem nibble_other (b : Nat) (hb : b < 256) :
    (b &&& 0xF0 ≠ 0x80 ∧ b &&& 0xF0 ≠ 0x90 ∧ b &&& 0xF0 ≠ 0xA0 ∧ b &&& 0xF0 ≠ 0xB0 ∧
      b &&& 0xF0 ≠ 0xC0 ∧ b &&& 0xF0 ≠ 0xE0) ↔
    (b &&& 0xF0 = 0xD0 ∨ b &&& 0xF0 = 0xF0 ∨ b < 0x80) := by
  interval_cases b <;> decide

/-- C21: an event whose first byte has a status nibble other than 0x80, 0x90,
0xA0, 0xB0, 0xC0 and 0xE0 (that is 0xD0, 0xF0, or a byte below 0x80) makes
`handleMidi` push no event itself and call the raw handler once per 3-byte
window of the buffer: `ceil(n / 3)` calls for `n` bytes, the `k`-th with the
bytes `3k`, `3k + 1`, `3k + 2`, a byte missing from a short last window being
0; an event without bytes gives no call.  This holds wherever the event stands
in the port buffer. -/
theorem C21_raw_windows (eng : JackEngine) (C_pitchwheel : Int) (e : jack_midi_event_t)
    (before after : List jack_midi_event_t) (hport : eng.midi_inport ≠ none)
    (hother : statusNibble e.buffer ≠ 0x80 ∧ statusNibble e.buffer ≠ 0x90 ∧
      statusNibble e.buffer ≠ 0xA0 ∧ statusNibble e.buffer ≠ 0xB0 ∧
      statusNibble e.buffer ≠ 0xC0 ∧ statusNibble e.buffer ≠ 0xE0) :
    handleMidi eng C_pitchwheel (before ++ e :: after) =
      handleMidi eng C_pitchwheel before ++
        (List.range ((e.buffer.length + 2) / 3)).map (windowAt e.buffer) ++
        handleMidi eng C_pitchwheel after ∧
    handleMidi eng C_pitchwheel [e] =
      (List.range ((e.buffer.length + 2) / 3)).map (windowAt e.buffer) ∧
    (handleMidi eng C_pitchwheel [e]).length = (e.buffer.length + 2) / 3 ∧
    (∀ x ∈ handleMidi eng C_pitchwheel [e], x.isPutEvent = false) ∧
    (∀ k, k < (e.buffer.length + 2) / 3 →
      (handleMidi eng C_pitchwheel [e])[k]? =
        some (Emitted.midiProcess (e.buffer.getD (3 * k) 0 % 256)
          (e.buffer.getD (3 * k + 1) 0 % 256) (e.buffer.getD (3 * k + 2) 0 % 256))) ∧
    (e.buffer = [] → handleMidi eng C_pitchwheel [e] = []) ∧
    (∀ b tail, e.buffer = b :: tail → b < 256 →
      (b &&& 0xF0 = 0xD0 ∨ b &&& 0xF0 = 0xF0 ∨ b < 0x80)) := by
  have hs : handleMidi eng C_pitchwheel [e] =
      (List.range ((e.buffer.length + 2) / 3)).map (windowAt e.buffer) := by
    rw [handleMidi_single eng C_pitchwheel e hport,
      handleMidiEvent_other _ _ e hother, rawWindows_eq]
  refine ⟨?_, hs, ?_, ?_, ?_, ?_, ?_⟩
  · rw [handleMidi_append, show e :: after = [e] ++ after from rfl, handleMidi_append, hs,
      List.append_assoc]
  · rw [hs]; simp
  · intro x hx
    rw [hs] at hx
    obtain ⟨k, _, rfl⟩ := List.mem_map.1 hx
    rfl
  · intro k hk
    rw [hs]
    simp [hk, windowAt]
  · intro he
    rw [hs, he]
    rfl
  · intro b tail he hb
    rw [he] at hother
    have hn : statusNibble (b :: tail) = b &&& 0xF0 := by
      simp only [statusNibble, loadBuf_getD, List.getD_cons_zero, mod256_and_F0]
    rw [hn] at hother
    exact (nibble_other b hb).1 hother

/-- C21 at a system-exclusive message of four bytes and at a message of five
data bytes: two windows each, the last one padded with 0. -/
theorem C21_raw_windows_witness :
    (⟨some 1, (some 2, some 3), 48000, 256, some 4, true, some 5, 48000, 256⟩ :
        JackEngine).midi_inport ≠ none ∧
    handleMidi ⟨some 1, (some 2, some 3), 48000, 256, some 4, true, some 5, 48000, 256⟩ 1000
        [⟨0, [0xF0, 0x7E, 0x09, 0xF7]⟩] =
      [Emitted.midiProcess 0xF0 0x7E 0x09, Emitted.midiProcess 0xF7 0 0] ∧
    handleMidi ⟨some 1, (some 2, some 3), 48000, 256, some 4, true, some 5, 48000, 256⟩ 1000
        [⟨0, [0x10, 0x90, 0xFF, 0x20, 0x30]⟩] =
      [Emitted.midiProcess 0x10 0x90 0xFF, Emitted.midiProcess 0x20 0x30 0] :=
  ⟨by decide,
    (C21_raw_windows ⟨some 1, (some 2, some 3), 48000, 256, some 4, true, some 5, 48000, 256⟩
      1000 ⟨0, [0xF0, 0x7E, 0x09, 0xF7]⟩ [] [] (by decide) (by decide)).2.1.trans (by decide),
    (C21_raw_windows ⟨some 1, (some 2, some 3), 48000, 256, some 4, true, some 5, 48000, 256⟩
      1000 ⟨0, [0x10, 0x90, 0xFF, 0x20, 0x30]⟩ [] [] (by decide) (by decide)).2.1.trans
      (by decide)⟩

end Jack

/-! # Layout of the interleaved block -/

namespace OssMulti

theorem frameLoop_indices (is32 : Bool) (ch x : Nat)
    (comp : Option (F32 → F32 → F32 → F32 × F32 × F32)) (l r : Nat → F32) :
    ∀ (ys : List Nat) (peak : F32),
      (frameLoop is32 ch x comp l r ys peak).1.map Prod.fst =
        ys.flatMap fun y => [y * ch + x, y * ch + x + 1] := by
  intro ys
  induction ys with
  | nil => intro peak; rfl
  | cons y rest ih =>
    intro peak
    simp only [frameLoop, List.map_cons, List.flatMap_cons, ih, List.cons_append,
      List.nil_append]

theorem frameLoop_none (is32 : Bool) (ch x : Nat) (l r : Nat → F32) :
    ∀ (ys : List Nat) (peak : F32),
      (frameLoop is32 ch x none l r ys peak).1 =
        ys.flatMap fun y =>
          [(y * ch + x, (if is32 then toSample32 else toSample16) (l y)),
           (y * ch + x + 1, (if is32 then toSample32 else toSample16) (r y))] := by
  intro ys
  induction ys with
  | nil => intro peak; rfl
  | cons y rest ih =>
    intro peak
    simp only [frameLoop, List.flatMap_cons, ih, List.cons_append, List.nil_append]

/-- The loop over the parts, from part `j` on: it returns, and its stores are
those of the parts `j`, `j + 1`, ..., `k - 1` in turn. -/
theorem partLoop_stores (is32 : Bool) (ch bs : Nat)
    (comp : Option (F32 → F32 → F32 → F32 × F32 × F32)) (outl outr : Nat → Nat → F32)
    (k : Nat) (hch : ch = 2 * k) :
    ∀ (fuel j : Nat) (peaks : Nat → F32), j ≤ k → k - j < fuel →
      ∃ stores, partLoop is32 ch bs comp outl outr fuel (2 * j) peaks = some stores ∧
        stores.map Prod.fst =
          ((List.range' j (k - j)).flatMap fun i =>
            (List.range bs).flatMap fun y => [y * ch + 2 * i, y * ch + 2 * i + 1]) ∧
        (comp = none → stores =
          (List.range' j (k - j)).flatMap fun i =>
            (List.range bs).flatMap fun y =>
              [(y * ch + 2 * i, (if is32 then toSample32 else toSample16) (outl i y)),
               (y * ch + 2 * i + 1,
                 (if is32 then toSample32 else toSample16) (outr i y))]) := by
  intro fuel
  induction fuel with
  | zero => intro j _ _ h; omega
  | succ n ih =>
    intro j peaks hj hf
    have hdiv : 2 * j / 2 = j := Nat.mul_div_cancel_left j (by decide)
    unfold partLoop
    by_cases hx : 2 * j = ch
    · have hjk : k - j = 0 := by omega
      rw [if_pos hx, hjk]
      exact ⟨[], rfl, rfl, fun _ => rfl⟩
    · rw [if_neg hx]
      have hlt : j < k := by omega
      obtain ⟨stores, hs, hidx, hval⟩ := ih (j + 1)
        (fun p => if p = 2 * j / 2 then
          (frameLoop is32 ch (2 * j) comp (outl (2 * j / 2)) (outr (2 * j / 2))
            (List.range bs) (peaks (2 * j / 2))).2 else peaks p)
        (by omega) (by omega)
      have e : 2 * j + 2 = 2 * (j + 1) := by ring
      have hr : k - j = (k - (j + 1)) + 1 := by omega
      simp only [e, hs]
      refine ⟨_, rfl, ?_, ?_⟩
      · rw [List.map_append, hidx, frameLoop_indices, hr, List.range'_succ,
          List.flatMap_cons]
      · intro hc
        subst hc
        rw [hval rfl, frameLoop_none, hdiv, hr, List.range'_succ, List.flatMap_cons]

theorem length_flatMap_const {α β : Type} (f : α → List β) (c : Nat)
    (hf : ∀ a, (f a).length = c) : ∀ l : List α, (l.flatMap f).length = l.length * c := by
  intro l
  induction l with
  | nil => simp
  | cons a rest ih =>
    rw [List.flatMap_cons, List.length_append, ih, hf, List.length_cons]
    ring

theorem blockIndices_length (k ch bs : Nat) : (blockIndices k ch bs).length = k * (bs * 2) := by
  unfold blockIndices
  rw [length_flatMap_const _ (bs * 2), List.length_range]
  intro i
  rw [length_flatMap_const _ 2, List.length_range]
  intro y
  rfl

theorem mem_blockIndices (k bs n : Nat) (hn : n < bs * (2 * k)) :
    n ∈ blockIndices k (2 * k) bs := by
  have hk : 0 < 2 * k := by
    rcases Nat.eq_zero_or_pos (2 * k) with h | h
    · rw [h] at hn; simp at hn
    · exact h
  have hy : n / (2 * k) < bs := (Nat.div_lt_iff_lt_mul hk).2 hn
  have hr : n % (2 * k) < 2 * k := Nat.mod_lt n hk
  have hdm : 2 * k * (n / (2 * k)) + n % (2 * k) = n := Nat.div_add_mod n (2 * k)
  have hcomm : n / (2 * k) * (2 * k) = 2 * k * (n / (2 * k)) := Nat.mul_comm _ _
  unfold blockIndices
  simp only [List.mem_flatMap, List.mem_range, List.mem_cons, List.mem_singleton,
    List.not_mem_nil, or_false]
  refine ⟨n % (2 * k) / 2, by omega, n / (2 * k), hy, ?_⟩
  rw [hcomm]
  omega

theorem lt_of_mem_blockIndices (k bs n : Nat) (h : n ∈ blockIndices k (2 * k) bs) :
    n < bs * (2 * k) := by
  unfold blockIndices at h
  simp only [List.mem_flatMap, List.mem_range, List.mem_cons, List.mem_singleton,
    List.not_mem_nil, or_false] at h
  obtain ⟨i, hi, y, hy, hn⟩ := h
  have h1 : (y + 1) * (2 * k) ≤ bs * (2 * k) := Nat.mul_le_mul_right _ hy
  have h2 : (y + 1) * (2 * k) = y * (2 * k) + 2 * k := by ring
  omega

/-- The indices of a block are the indices below `blockSize * channels`, each
once. -/
theorem blockIndices_perm (k bs : Nat) :
    List.Perm (List.range (bs * (2 * k))) (blockIndices k (2 * k) bs) := by
  refine List.Subperm.perm_of_length_le
    (List.subperm_of_subset (List.nodup_range _) ?_) ?_
  · intro n hn
    exact mem_blockIndices k bs n (List.mem_range.1 hn)
  · rw [blockIndices_length, List.length_range]
    exact le_of_eq (by ring)

theorem allocatedSamples_eq (N bs : Nat) : allocatedSamples N bs = N * 2 * bs := by
  unfold allocatedSamples maxbuffersize
  have h : N * 4 * bs * 2 = 4 * (N * 2 * bs) := by ring
  rw [h, Nat.mul_div_cancel_left _ (by decide : 0 < 4)]

/-- C24: for an even channel count `channels = 2 * k` with
`2 <= channels <= 2 * NUM_MIDI_PARTS` and the block size the buffer was
allocated for, one round of the audio thread returns, having written the
sample of part `i`, frame `y` at the index `y * channels + 2 * i` (left) and
`y * channels + 2 * i + 1` (right).  The written indices are the indices below
`blockSize * channels`, each exactly once, all below the allocated sample
count `NUM_MIDI_PARTS * 2 * blockSize` (and the bytes of each store inside the
`maxbuffersize` bytes allocated), and that many samples of the negotiated
width take exactly the byte count `openAudio` computed, which is passed to
`write`. -/
theorem C24_interleaved_layout (N bs k : Nat) (e : OssMultiEngine)
    (comp : Option (F32 → F32 → F32 → F32 × F32 × F32)) (partoutl partoutr : Nat → Nat → F32)
    (peaks : Nat → F32) (hk1 : 1 ≤ k) (hkN : k ≤ N) (hch : e.channels = 2 * k) :
    ∃ stores,
      audioBlock e bs comp partoutl partoutr peaks =
        some (stores, SysCall.write e.handle e.buffersize) ∧
      stores.map Prod.fst = blockIndices (e.channels / 2) e.channels bs ∧
      (comp = none →
        stores = interleaved e.is32bit (e.channels / 2) e.channels bs partoutl partoutr) ∧
      List.Perm (List.range (bs * e.channels)) (stores.map Prod.fst) ∧
      (stores.map Prod.fst).Nodup ∧
      (∀ x ∈ stores, x.1 < bs * e.channels ∧ x.1 < allocatedSamples N bs ∧
        (x.1 + 1) * (if e.is32bit then 4 else 2) ≤ maxbuffersize N bs) ∧
      allocatedSamples N bs = N * 2 * bs ∧
      stores.length = bs * e.channels ∧
      (e.buffersize = computeBuffersize bs e.channels e.is32bit →
        (if e.is32bit then 4 else 2) * bs * e.channels < 2 ^ 31 →
        (stores.length : Int) * (if e.is32bit then 4 else 2) = e.buffersize) := by
  obtain ⟨stores, hs, hidx, hval⟩ := partLoop_stores e.is32bit e.channels bs comp partoutl
    partoutr k hch (e.channels + 1) 0 peaks (by omega) (by omega)
  have hhalf : e.channels / 2 = k := by omega
  have hidx2 : stores.map Prod.fst = blockIndices k (2 * k) bs := by
    rw [hidx, hch]
    simp only [blockIndices, Nat.sub_zero, List.range_eq_range']
  have hperm := blockIndices_perm k bs
  have hlen : stores.length = bs * (2 * k) := by
    have := congrArg List.length hidx2
    rw [List.length_map, blockIndices_length] at this
    rw [this]
    ring
  have halloc := allocatedSamples_eq N bs
  refine ⟨stores, ?_, ?_, ?_, ?_, ?_, ?_, halloc, ?_, ?_⟩
  · unfold audioBlock
    rw [show (0 : Nat) = 2 * 0 from rfl, hs]
    rfl
  · rw [hhalf, hidx2, hch]
  · intro hc
    rw [hval hc, hhalf]
    simp only [interleaved, Nat.sub_zero, List.range_eq_range']
  · rw [hidx2, hch]
    exact hperm
  · rw [hidx2]
    exact (List.Perm.nodup_iff hperm).1 (List.nodup_range _)
  · intro x hx
    have hm : x.1 ∈ stores.map Prod.fst := List.mem_map_of_mem _ hx
    rw [hidx2] at hm
    have hlt := lt_of_mem_blockIndices k bs x.1 hm
    have h1 : bs * (2 * k) ≤ bs * (2 * N) := Nat.mul_le_mul_left _ (by omega)
    have h2 : bs * (2 * N) = N * 2 * bs := by ring
    have h3 : x.1 + 1 ≤ N * 2 * bs := by omega
    have h4 : (if e.is32bit then 4 else 2) ≤ 4 := by split_ifs <;> decide
    have h5 : (x.1 + 1) * (if e.is32bit then 4 else 2) ≤ N * 2 * bs * 4 :=
      Nat.mul_le_mul h3 h4
    have h6 : maxbuffersize N bs = N * 2 * bs * 4 := by unfold maxbuffersize; ring
    rw [hch, halloc, h6]
    exact ⟨hlt, by omega, h5⟩
  · rw [hlen, hch]
  · intro hbuf hsize
    rw [hbuf, computeBuffersize_eq bs e.channels e.is32bit (by omega) hsize, hlen, hch]
    push_cast
    ring

/-- C24 at a 32-bit device with four channels and blocks of two frames: the
eight stores of a block go to the indices 0, 1, 4, 5 (part 0) and 2, 3, 6, 7
(part 1), and the 32 bytes they take are written. -/
theorem C24_interleaved_layout_witness :
    (1 ≤ 2 ∧ 2 ≤ 16) ∧
    (openAudio 16 2 48000 (device32 [4]) constructed).2.1.channels = 2 * 2 ∧
    ∃ stores,
      audioBlock (openAudio 16 2 48000 (device32 [4]) constructed).2.1 2 none
          (fun _ _ => ⟨0, 0⟩) (fun _ _ => ⟨0, 0⟩) (fun _ => ⟨0, 0⟩) =
        some (stores, SysCall.write 3 32) ∧
      stores.map Prod.fst = [0, 1, 4, 5, 2, 3, 6, 7] ∧
      (stores.length : Int) * 4 = 32 :=
  ⟨by decide, rfl,
    (C24_interleaved_layout 16 2 2 (openAudio 16 2 48000 (device32 [4]) constructed).2.1 none
      (fun _ _ => ⟨0, 0⟩) (fun _ _ => ⟨0, 0⟩) (fun _ => ⟨0, 0⟩) (by decide) (by decide)
      rfl).imp
      (fun _ h => ⟨h.1, h.2.1.trans (by decide), h.2.2.2.2.2.2.2.2 rfl (by decide)⟩)⟩

end OssMulti
